import Mathlib

/-! # micro-printf

A shallow embedding of `micro_printf.c` (cesanta/micro-printf) and the properties of it that
were checked.

Conventions of the embedding.

* A `char` is a natural number (its value as `unsigned char`); text is a `List Nat`.
  The numerals used for characters are annotated with the C literal they stand for.
* An object in memory that the code reads or writes through a pointer is the list of its
  bytes. Reading or writing outside of it is the fault `Fault.oob`; a NULL pointer is an
  object with no bytes.
* The target is LP64: `int` and `unsigned` have 32 bits, `long`, `long long`, `int64_t` and
  `size_t` have 64 bits. `size_t` arithmetic that can wrap on a format text is taken
  modulo `2 ^ 64`; the byte counter `n` is a natural number (an output of `2 ^ 64` bytes is
  out of reach of a run).
* A `double` is its IEEE-754 binary64 bit pattern, and the arithmetic on it is the
  round-to-nearest-even arithmetic of the standard, without contraction of `a - b * c`.
* The output callback `void (*out)(char, void *)` with its `param` is a function
  `out : Nat → σ → σ` on the state `σ` of the sink.
* The functions of the C file that call each other recursively (`m_vxprintf`, `m_dtoa`,
  the `%M` functions, the `snprintf` wrappers) carry a bound `depth` on the number of
  nested calls; running out of it is the fault `Fault.stack`. Loops whose bound is not
  syntactic carry a `fuel`, chosen by the caller in the embedding so that it cannot run out.
-/

namespace MicroPrintf

/-! ## Faults, memory, arguments -/

/-- The ways in which a run can leave the behaviour that C defines, or the embedding. -/
inductive Fault
  | oob
  | vaarg
  | conv
  | stack
  | fuel
deriving DecidableEq, Repr

deriving instance DecidableEq for Except

/-- The result of a run: a value, or a fault. -/
abbrev Res (α : Type) := Except Fault α

/-- The read `m[i]`. -/
def rd (m : List Nat) (i : Nat) : Res Nat :=
  match m[i]? with
  | some b => .ok b
  | none => .error .oob

/-- The write `m[i] = b`. -/
def wr (m : List Nat) (i b : Nat) : Res (List Nat) :=
  if i < m.length then .ok (m.set i b) else .error .oob

/-- The values of the function pointer `m_fmt_t` that a `%M` directive pulls, named after the
six `%M` functions of the file. What a call through such a pointer does is a parameter
(`fcall`) of `vx_directive` and of `fmt_quo`: `m_fmt_call` runs the six functions of the file,
and any other choice of `fcall` stands for functions of the caller. -/
inductive FmtFn
  | ip4
  | ip6
  | mac
  | b64
  | esc
  | quo
deriving DecidableEq, Repr

/-- One variadic argument, as it is passed after the default promotions: a 32-bit integer,
a 64-bit integer, a `double` (its bit pattern), a pointer to an object (`none` is NULL), or
a `%M` function. -/
inductive Arg
  | int (v : Int)
  | long (v : Int)
  | dbl (bits : Nat)
  | ptr (mem : Option (List Nat))
  | fn (f : FmtFn)
deriving DecidableEq, Repr

/-- The value of a `w`-bit two's complement integer with the bits of `v`. -/
def sint (w : Nat) (v : Int) : Int := (v + 2 ^ (w - 1)) % 2 ^ w - 2 ^ (w - 1)

/-- The value of a `w`-bit unsigned integer with the bits of `v`. -/
def uint (w : Nat) (v : Int) : Nat := (v % 2 ^ w).toNat

/-- `va_arg(*ap, int)`. -/
def va_int : List Arg → Res (Int × List Arg)
  | .int v :: ap => .ok (sint 32 v, ap)
  | _ => .error .vaarg

/-- `va_arg(*ap, unsigned)`. -/
def va_unsigned : List Arg → Res (Nat × List Arg)
  | .int v :: ap => .ok (uint 32 v, ap)
  | _ => .error .vaarg

/-- `va_arg(*ap, long)` and `va_arg(*ap, int64_t)`. -/
def va_long : List Arg → Res (Int × List Arg)
  | .long v :: ap => .ok (sint 64 v, ap)
  | _ => .error .vaarg

/-- `va_arg(*ap, double)`. -/
def va_double : List Arg → Res (Nat × List Arg)
  | .dbl v :: ap => .ok (v % 2 ^ 64, ap)
  | _ => .error .vaarg

/-- `va_arg(*ap, char *)` and `va_arg(*ap, uint8_t *)`. -/
def va_ptr : List Arg → Res (Option (List Nat) × List Arg)
  | .ptr p :: ap => .ok (p, ap)
  | _ => .error .vaarg

/-- `va_arg(*ap, m_fmt_t)`. -/
def va_fn : List Arg → Res (FmtFn × List Arg)
  | .fn f :: ap => .ok (f, ap)
  | _ => .error .vaarg

/-- The object behind a pointer; NULL has no bytes, so that every access through it faults. -/
def deref (p : Option (List Nat)) : List Nat := p.getD []

/-! ## The buffer sink: `struct m_buf`, `m_out_buf` -/

/-- `struct m_buf`: the destination, its capacity, and the count of bytes requested so far. -/
structure m_buf where
  buf : List Nat
  size : Nat
  len : Nat
deriving DecidableEq, Repr

/-- `m_out_buf`: store the byte if there is room, count it in any case. -/
def m_out_buf (ch : Nat) (mb : m_buf) : m_buf :=
  { buf := if mb.len < mb.size then mb.buf.set mb.len ch else mb.buf
    size := mb.size
    len := mb.len + 1 }

/-! ## Small helpers: `m_isdigit`, `m_strlen`, `scpy` -/

/-- `m_isdigit`: `c >= '0' && c <= '9'`. -/
def m_isdigit (c : Nat) : Bool := 48 ≤ c && c ≤ 57

/-- The loop of `m_strlen`: `while (s[n] != '\0') n++`. -/
def m_strlen_loop (s : List Nat) : Nat → Nat → Res Nat
  | 0, _ => .error .fuel
  | fuel + 1, n => do
    let c ← rd s n
    if c ≠ 0 then m_strlen_loop s fuel (n + 1) else pure n

/-- `m_strlen`. Every iteration reads a further byte of `s`, so `s.length + 1` iterations
cannot all succeed. -/
def m_strlen (s : List Nat) : Res Nat := m_strlen_loop s (s.length + 1) 0

/-- The loop of `scpy`: `while (i < len && buf[i] != '\0') o(buf[i++], ptr)`; the first
argument is `len - i`. -/
def scpy_loop {σ : Type} (o : Nat → σ → σ) (buf : List Nat) : Nat → Nat → σ → Res (Nat × σ)
  | 0, i, ptr => .ok (i, ptr)
  | rest + 1, i, ptr => do
    let c ← rd buf i
    if c ≠ 0 then scpy_loop o buf rest (i + 1) (o c ptr) else pure (i, ptr)

/-- `scpy`: copy up to `len` bytes of `buf` to the sink, stopping at a NUL; returns the
number of bytes copied. -/
def scpy {σ : Type} (o : Nat → σ → σ) (ptr : σ) (buf : List Nat) (len : Nat) : Res (Nat × σ) :=
  scpy_loop o buf len 0 ptr

/-! ## Integer converter: `m_lld` -/

/-- `"0123456789abcdef"`. -/
def letters : List Nat :=
  [48, 49, 50, 51, 52, 53, 54, 55, 56, 57, 97, 98, 99, 100, 101, 102, 0]

/-- The digit loops of `m_lld`:
`for (n = 0; v; v >>= 4) buf[s + n++] = letters[v & 15]` when `is_hex`, and
`for (n = 0; v; v /= 10) buf[s + n++] = letters[v % 10]` otherwise. -/
def m_lld_digits (is_hex : Bool) (s : Nat) : Nat → Nat → Nat → List Nat → Res (Nat × List Nat)
  | 0, _, _, _ => .error .fuel
  | fuel + 1, v, n, buf =>
    if v ≠ 0 then do
      let l ← rd letters (if is_hex then v &&& 15 else v % 10)
      let buf ← wr buf (s + n) l
      m_lld_digits is_hex s fuel (if is_hex then v >>> 4 else v / 10) (n + 1) buf
    else pure (n, buf)

/-- The reversal loop of `m_lld`:
`for (i = 0; i < n / 2; i++) { t = buf[s + i]; buf[s + i] = buf[s + n - i - 1];
buf[s + n - i - 1] = t; }`. -/
def m_lld_reverse (s n : Nat) : Nat → Nat → List Nat → Res (List Nat)
  | 0, _, _ => .error .fuel
  | fuel + 1, i, buf =>
    if i < n / 2 then do
      let t ← rd buf (s + i)
      let u ← rd buf (s + n - i - 1)
      let buf ← wr buf (s + i) u
      let buf ← wr buf (s + n - i - 1) t
      m_lld_reverse s n fuel (i + 1) buf
    else pure buf

/-- `m_lld`: the text of `val` (an `int64_t`) in base 10 or 16, written at the start of `buf`;
returns the length and the buffer. A `uint64_t` has at most 20 decimal digits, so 64
iterations are enough for the digit loop, and `n` for the reversal. -/
def m_lld (buf : List Nat) (val : Int) (is_signed is_hex : Bool) : Res (Nat × List Nat) := do
  let v : Nat := uint 64 val
  let s : Nat := 0
  -- if (is_signed && val < 0) buf[s++] = '-', v = (uint64_t) (-val);
  let (buf, s, v) ←
    if is_signed && decide (val < 0) then do
      let buf ← wr buf s 45
      pure (buf, s + 1, uint 64 (-val))
    else pure (buf, s, v)
  let (n, buf) ← m_lld_digits is_hex s 65 v 0 buf
  let buf ← m_lld_reverse s n (n + 1) 0 buf
  -- if (val == 0) buf[n++] = '0';
  let (n, buf) ←
    if val = 0 then do
      let buf ← wr buf n 48
      pure (n + 1, buf)
    else pure (n, buf)
  pure (n + s, buf)

/-! ## IEEE-754 binary64 arithmetic on bit patterns -/

/-- The sign bit of a binary64 pattern. -/
def dSign (x : Nat) : Nat := x / 2 ^ 63 % 2

/-- The biased exponent field of a binary64 pattern. -/
def dExp (x : Nat) : Nat := x / 2 ^ 52 % 2 ^ 11

/-- The fraction field of a binary64 pattern. -/
def dFrac (x : Nat) : Nat := x % 2 ^ 52

/-- The pattern is a NaN. -/
def dIsNaN (x : Nat) : Bool := dExp x == 2047 && dFrac x != 0

/-- The pattern is an infinity. -/
def dIsInf (x : Nat) : Bool := dExp x == 2047 && dFrac x == 0

/-- The pattern is a zero. -/
def dIsZero (x : Nat) : Bool := dExp x == 0 && dFrac x == 0

/-- The integer significand of a finite pattern, whose magnitude is `dSig x * 2 ^ dQ x`. -/
def dSig (x : Nat) : Nat := if dExp x = 0 then dFrac x else 2 ^ 52 + dFrac x

/-- The exponent of the unit in the last place of a finite pattern. -/
def dQ (x : Nat) : Int := if dExp x = 0 then -1074 else (dExp x : Int) - 1075

/-- The quiet NaN that the operations return. -/
def dNaN : Nat := 0x7FF8000000000000

/-- The infinity with the given sign bit. -/
def dInf (sign : Nat) : Nat := sign * 2 ^ 63 + 2047 * 2 ^ 52

/-- The zero with the given sign bit. -/
def dZero (sign : Nat) : Nat := sign * 2 ^ 63

/-- Binary search for the position of the leading bit: with `k` found so far, try to add
`2 ^ j` for each `j` below the first argument, from the largest down. -/
def ilog2_search (n : Nat) : Nat → Nat → Nat
  | 0, k => k
  | j + 1, k => ilog2_search n j (if 2 ^ (k + 2 ^ j) ≤ n then k + 2 ^ j else k)

/-- The position of the leading bit of `n`, for `0 < n < 2 ^ 4096` (the exact results of the
operations on doubles are below `2 ^ 2200`). -/
def ilog2 (n : Nat) : Nat := ilog2_search n 12 0

/-- Round the rational `num / den ≥ 0` to the nearest binary64 value, ties to even, and attach
the sign bit. With `e` the binary exponent of the quotient and `q` the exponent of the unit in
the last place of its binade (`-1074` for subnormals), the significand is `num / den / 2 ^ q`
rounded to an integer; the pattern is `(q + 1074) * 2 ^ 52` plus that integer, where a carry
out of the significand moves to the next binade by itself. -/
def dRound (sign num den : Nat) : Nat :=
  if num = 0 then dZero sign else
  let e0 : Int := (ilog2 num : Int) - (ilog2 den : Int)
  let e : Int := if den * 2 ^ e0.toNat ≤ num * 2 ^ (-e0).toNat then e0 else e0 - 1
  let q : Int := max (e - 52) (-1074)
  let N := num * 2 ^ (-q).toNat
  let D := den * 2 ^ q.toNat
  let m := N / D
  let r := N % D
  let m1 := if D < 2 * r ∨ (2 * r = D ∧ m % 2 = 1) then m + 1 else m
  let bits := (q + 1074).toNat * 2 ^ 52 + m1
  if 2047 * 2 ^ 52 ≤ bits then dInf sign else sign * 2 ^ 63 + bits

/-- Unary minus: flip the sign bit. -/
def dNeg (x : Nat) : Nat := if dSign x = 1 then x % 2 ^ 64 - 2 ^ 63 else x % 2 ^ 64 + 2 ^ 63

/-- The signed integer `k` with `x = k * 2 ^ q`, for a finite `x` and `q ≤ dQ x`. -/
def dScaled (x : Nat) (q : Int) : Int :=
  let m : Int := ((dSig x * 2 ^ (dQ x - q).toNat : Nat) : Int)
  if dSign x = 1 then -m else m

/-- Addition of doubles. -/
def dAdd (x y : Nat) : Nat :=
  if dIsNaN x || dIsNaN y then dNaN
  else if dIsInf x then (if dIsInf y && dSign x != dSign y then dNaN else x)
  else if dIsInf y then y
  else
    let q := min (dQ x) (dQ y)
    let s : Int := dScaled x q + dScaled y q
    if s = 0 then dZero (if dSign x = 1 ∧ dSign y = 1 then 1 else 0)
    else dRound (if s < 0 then 1 else 0) (s.natAbs * 2 ^ q.toNat) (2 ^ (-q).toNat)

/-- Subtraction of doubles. -/
def dSub (x y : Nat) : Nat := dAdd x (dNeg y)

/-- Multiplication of doubles. -/
def dMul (x y : Nat) : Nat :=
  let sign := (dSign x + dSign y) % 2
  if dIsNaN x || dIsNaN y then dNaN
  else if dIsInf x || dIsInf y then (if dIsZero x || dIsZero y then dNaN else dInf sign)
  else
    let q := dQ x + dQ y
    dRound sign (dSig x * dSig y * 2 ^ q.toNat) (2 ^ (-q).toNat)

/-- Division of doubles. -/
def dDiv (x y : Nat) : Nat :=
  let sign := (dSign x + dSign y) % 2
  if dIsNaN x || dIsNaN y then dNaN
  else if dIsInf x then (if dIsInf y then dNaN else dInf sign)
  else if dIsInf y then dZero sign
  else if dIsZero y then (if dIsZero x then dNaN else dInf sign)
  else
    let q := dQ x - dQ y
    dRound sign (dSig x * 2 ^ q.toNat) (dSig y * 2 ^ (-q).toNat)

/-- An integer that orders the patterns that are not NaN as their values are ordered. -/
def dKey (x : Nat) : Int :=
  if dSign x = 1 then -((x % 2 ^ 63 : Nat) : Int) else ((x % 2 ^ 63 : Nat) : Int)

/-- The comparison `x < y` of doubles. -/
def dLt (x y : Nat) : Bool := !dIsNaN x && !dIsNaN y && decide (dKey x < dKey y)

/-- The comparison `x <= y` of doubles. -/
def dLe (x y : Nat) : Bool := !dIsNaN x && !dIsNaN y && decide (dKey x ≤ dKey y)

/-- The comparison `x == y` of doubles. -/
def dEq (x y : Nat) : Bool := !dIsNaN x && !dIsNaN y && decide (dKey x = dKey y)

/-- The conversion of an `int` to `double`. -/
def dOfInt (i : Int) : Nat := dRound (if i < 0 then 1 else 0) i.natAbs 1

/-- The conversion `(int) x` of a `double`: truncation toward zero, undefined (a fault here)
when `x` is not finite or the result is not an `int`. -/
def dToInt (x : Nat) : Res Int :=
  if dIsNaN x || dIsInf x then .error .conv else
  let m : Int := ((dSig x * 2 ^ (dQ x).toNat / 2 ^ (-dQ x).toNat : Nat) : Int)
  let r : Int := if dSign x = 1 then -m else m
  if -2 ^ 31 ≤ r ∧ r < 2 ^ 31 then .ok r else .error .conv

/-- The constant `0.0`. -/
def d0 : Nat := 0

/-- The constant `1.0`. -/
def d1 : Nat := 0x3FF0000000000000

/-- The constant `10.0`. -/
def d10 : Nat := 0x4024000000000000

/-- The constant `0.1`. -/
def d01 : Nat := 0x3FB999999999999A

/-- The conversion `(char) i` of an `int`, as the value of the byte. -/
def toChar (i : Int) : Nat := (i % 256).toNat

/-! ## Float converter: `addexp`, `xisinf`, `xisnan` and the loops of `m_dtoa` -/

/-- `addexp`: write the exponent suffix at `buf + off`; returns the number of bytes to
append and the buffer. `e / 100` is C's integer division. -/
def addexp (buf : List Nat) (off : Nat) (e : Int) (sign : Nat) : Res (Nat × List Nat) := do
  -- buf[n++] = 'e'; buf[n++] = (char) sign;
  let buf ← wr buf off 101
  let buf ← wr buf (off + 1) sign
  let n : Nat := 2
  if e > 400 then pure (0, buf) else
  -- if (e < 10) buf[n++] = '0';
  let (n, buf) ← (if e < 10 then do
      let buf ← wr buf (off + n) 48
      pure (n + 1, buf)
    else pure (n, buf) : Res (Nat × List Nat))
  -- if (e >= 100) buf[n++] = (char) (e / 100 + '0'), e -= 100 * (e / 100);
  let (n, buf, e) ← (if e ≥ 100 then do
      let buf ← wr buf (off + n) (toChar (e.tdiv 100 + 48))
      pure (n + 1, buf, e - 100 * e.tdiv 100)
    else pure (n, buf, e) : Res (Nat × List Nat × Int))
  -- if (e >= 10) buf[n++] = (char) (e / 10 + '0'), e -= 10 * (e / 10);
  let (n, buf, e) ← (if e ≥ 10 then do
      let buf ← wr buf (off + n) (toChar (e.tdiv 10 + 48))
      pure (n + 1, buf, e - 10 * e.tdiv 10)
    else pure (n, buf, e) : Res (Nat × List Nat × Int))
  -- buf[n++] = (char) (e + '0');
  let buf ← wr buf (off + n) (toChar (e + 48))
  pure (n + 1, buf)

/-- `xisinf`:
`((unsigned) (u >> 32) & 0x7fffffff) == 0x7ff00000 && ((unsigned) u == 0)`. -/
def xisinf (x : Nat) : Bool :=
  (((x >>> 32) % 2 ^ 32) &&& 0x7fffffff) == 0x7ff00000 && x % 2 ^ 32 == 0

/-- `xisnan`:
`((unsigned) (u >> 32) & 0x7fffffff) + ((unsigned) u != 0) > 0x7ff00000`. -/
def xisnan (x : Nat) : Bool :=
  decide (0x7ff00000 <
    ((((x >>> 32) % 2 ^ 32) &&& 0x7fffffff) + (if x % 2 ^ 32 ≠ 0 then 1 else 0)) % 2 ^ 32)

/-- `while (d >= 10.0 && d / mul >= 10.0) mul *= 10.0;` -/
def dtoa_round_up (d : Nat) : Nat → Nat → Res Nat
  | 0, _ => .error .fuel
  | fuel + 1, mul =>
    if dLe d10 d && dLe d10 (dDiv d mul) then dtoa_round_up d fuel (dMul mul d10)
    else pure mul

/-- `while (d <= 1.0 && d / mul <= 1.0) mul /= 10.0;` -/
def dtoa_round_down (d : Nat) : Nat → Nat → Res Nat
  | 0, _ => .error .fuel
  | fuel + 1, mul =>
    if dLe d d1 && dLe (dDiv d mul) d1 then dtoa_round_down d fuel (dDiv mul d10)
    else pure mul

/-- `for (i = 0; i < width; i++) t /= 10.0;` with the number of iterations as argument. -/
def dtoa_scale : Nat → Nat → Nat
  | 0, t => t
  | k + 1, t => dtoa_scale k (dDiv t d10)

/-- `while (d >= 10.0 && d / mul >= 10.0) mul *= 10.0, e++;` -/
def dtoa_exp_up (d : Nat) : Nat → Nat → Int → Res (Nat × Int)
  | 0, _, _ => .error .fuel
  | fuel + 1, mul, e =>
    if dLe d10 d && dLe d10 (dDiv d mul) then dtoa_exp_up d fuel (dMul mul d10) (e + 1)
    else pure (mul, e)

/-- `while (d < 1.0 && d / mul < 1.0) mul /= 10.0, e--;` -/
def dtoa_exp_down (d : Nat) : Nat → Nat → Int → Res (Nat × Int)
  | 0, _, _ => .error .fuel
  | fuel + 1, mul, e =>
    if dLt d d1 && dLt (dDiv d mul) d1 then dtoa_exp_down d fuel (dDiv mul d10) (e - 1)
    else pure (mul, e)

/-- The loop of the integer part:
`for (i = 0, t = mul; t >= 1.0 && s + n < (int) sizeof(buf); i++) { int ch = (int) (d / t);
if (n > 0 || ch > 0) buf[s + n++] = (char) (ch + '0'); d -= ch * t; t /= 10.0; }`. -/
def dtoa_int_loop (s : Nat) : Nat → Nat → Nat → Nat → List Nat → Res (Nat × Nat × Nat × List Nat)
  | 0, _, _, _, _ => .error .fuel
  | fuel + 1, d, t, n, buf =>
    if dLe d1 t && decide (s + n < 40) then do
      let ch ← dToInt (dDiv d t)
      let (n, buf) ← (if n > 0 ∨ ch > 0 then do
          let buf ← wr buf (s + n) (toChar (ch + 48))
          pure (n + 1, buf)
        else pure (n, buf) : Res (Nat × List Nat))
      dtoa_int_loop s fuel (dSub d (dMul (dOfInt ch) t)) (dDiv t d10) n buf
    else pure (d, t, n, buf)

/-- `while (t >= 1.0 && n + s < (int) sizeof(buf)) buf[n++] = '0', t /= 10.0;` -/
def dtoa_zero_loop (s : Nat) : Nat → Nat → Nat → List Nat → Res (Nat × Nat × List Nat)
  | 0, _, _, _ => .error .fuel
  | fuel + 1, t, n, buf =>
    if dLe d1 t && decide (n + s < 40) then do
      let buf ← wr buf n 48
      dtoa_zero_loop s fuel (dDiv t d10) (n + 1) buf
    else pure (t, n, buf)

/-- The loop of the fraction:
`for (i = 0, t = 0.1; s + n < (int) sizeof(buf) && n < width; i++) { int ch = (int) (d / t);
buf[s + n++] = (char) (ch + '0'); d -= ch * t; t /= 10.0; }`. -/
def dtoa_frac_loop (s : Nat) (width : Int) : Nat → Nat → Nat → Nat → List Nat → Res (Nat × List Nat)
  | 0, _, _, _, _ => .error .fuel
  | fuel + 1, d, t, n, buf =>
    if decide (s + n < 40) && decide ((n : Int) < width) then do
      let ch ← dToInt (dDiv d t)
      let buf ← wr buf (s + n) (toChar (ch + 48))
      dtoa_frac_loop s width fuel (dSub d (dMul (dOfInt ch) t)) (dDiv t d10) (n + 1) buf
    else pure (n, buf)

/-- `while (n > 0 && buf[s + n - 1] == '0') n--;` -/
def dtoa_trim_loop (s : Nat) (buf : List Nat) : Nat → Nat → Res Nat
  | 0, _ => .error .fuel
  | fuel + 1, n =>
    if n > 0 then do
      let c ← rd buf (s + n - 1)
      if c = 48 then dtoa_trim_loop s buf fuel (n - 1) else pure n
    else pure n

/-- The last branch of `m_dtoa` (plain decimal notation) and the trimming after it, up to
`buf[n] = '\0'`: from the buffer with the sign, the offset `s` behind the sign, the rounded
value `d` and its power of ten `mul`, the text in `buf`. The integer loop divides `t` by
ten until it is below one, which takes at most 310 iterations from any finite `mul`; the
other loops advance `n` below 40, or decrease it. -/
def m_dtoa_plain (buf : List Nat) (s d mul : Nat) (width : Int) : Res (List Nat) := do
  let (d, t, n, buf) ← dtoa_int_loop s 400 d mul 0 buf
  -- if (n == 0) buf[s++] = '0';
  let (buf, s) ← (if n = 0 then do
      let buf ← wr buf s 48
      pure (buf, s + 1)
    else pure (buf, s) : Res (List Nat × Nat))
  let (_, n, buf) ← dtoa_zero_loop s 41 t n buf
  -- if (s + n < (int) sizeof(buf)) buf[n + s++] = '.';
  let (buf, s) ← (if s + n < 40 then do
      let buf ← wr buf (n + s) 46
      pure (buf, s + 1)
    else pure (buf, s) : Res (List Nat × Nat))
  let (n, buf) ← dtoa_frac_loop s width 41 d d01 n buf
  let n ← dtoa_trim_loop s buf (n + 1) n
  -- if (n > 0 && buf[s + n - 1] == '.') n--;
  let n ← (if n > 0 then do
      let c ← rd buf (s + n - 1)
      pure (if c = 46 then n - 1 else n)
    else pure n : Res Nat)
  -- n += s; if (n >= (int) sizeof(buf)) n = (int) sizeof(buf) - 1; buf[n] = '\0';
  let n := n + s
  let n := if n ≥ 40 then 39 else n
  wr buf n 0

/-- The rounding and the exponent of `m_dtoa`, from `mul = 1.0` after `saved = d` down to the
comment "Calculate exponent": returns `mul` and `e`. Multiplying `mul` by ten leaves the
finite range after 309 iterations and dividing it by ten reaches zero after 324, which ends
each of the loops, so 400 iterations are enough. -/
def m_dtoa_exp (d : Nat) (width : Int) : Res (Nat × Nat × Int) := do
  let mul ← dtoa_round_up d 400 d1
  let mul ← dtoa_round_down d 400 mul
  -- for (i = 0, t = mul * 5; i < width; i++) t /= 10.0;
  let t := dtoa_scale width.toNat (dMul mul (dOfInt 5))
  let d := dAdd d t
  let (mul, e) ← dtoa_exp_up d 400 d1 0
  let (mul, e) ← dtoa_exp_down d 400 mul e
  pure (d, mul, e)

/-! ## The `%M` functions that call nothing else: `m_fmt_esc`, `m_fmt_b64` -/

/-- The characters to escape: `"\b\f\n\r\t\\\""`. -/
def esc1 : List Nat := [8, 12, 10, 13, 9, 92, 34, 0]

/-- The letters of their escapes: `"bfnrt\\\""`. -/
def esc2 : List Nat := [98, 102, 110, 114, 116, 92, 34, 0]

/-- The loop of `m_esc`:
`for (p = esc ? esc1 : esc2; *p != '\0'; p++) if (*p == c) return esc ? esc2[p - esc1] :
esc1[p - esc2]; return 0;`, with `p` as an index. -/
def m_esc_loop (c : Nat) (esc : Bool) : Nat → Nat → Res Nat
  | 0, _ => .error .fuel
  | fuel + 1, p => do
    let x ← rd (if esc then esc1 else esc2) p
    if x ≠ 0 then
      if x = c then rd (if esc then esc2 else esc1) p
      else m_esc_loop c esc fuel (p + 1)
    else pure 0

/-- `m_esc`; the tables have seven characters and a terminator. -/
def m_esc (c : Nat) (esc : Bool) : Res Nat := m_esc_loop c esc 8 0

/-- The loop of `m_fmt_esc`:
`for (i = 0; s != NULL && s[i] != '\0'; i++) { char c = m_esc(s[i], 1); if (c) { out('\\',
param), out(c, param), n += 2; } else { out(s[i], param); n++; } }`. -/
def m_fmt_esc_loop {σ : Type} (out : Nat → σ → σ) (s : Option (List Nat)) :
    Nat → Nat → Nat → σ → Res (Nat × σ)
  | 0, _, _, _ => .error .fuel
  | fuel + 1, i, n, param =>
    match s with
    | none => pure (n, param)
    | some m => do
      let si ← rd m i
      if si ≠ 0 then do
        let c ← m_esc si true
        if c ≠ 0 then m_fmt_esc_loop out s fuel (i + 1) (n + 2) (out c (out 92 param))
        else m_fmt_esc_loop out s fuel (i + 1) (n + 1) (out si param)
      else pure (n, param)

/-- `m_fmt_esc`. -/
def m_fmt_esc {σ : Type} (out : Nat → σ → σ) (param : σ) (ap : List Arg) :
    Res (Nat × σ × List Arg) := do
  let (s, ap) ← va_ptr ap
  let (n, param) ← m_fmt_esc_loop out s ((deref s).length + 1) 0 0 param
  pure (n, param, ap)

/-- The base64 alphabet,
`"ABCDEFGHIJKLMNOPQRSTUVWXYZabcdefghijklmnopqrstuvwxyz0123456789+/"`. -/
def b64_t : List Nat :=
  [65, 66, 67, 68, 69, 70, 71, 72, 73, 74, 75, 76, 77, 78, 79, 80, 81, 82, 83, 84, 85, 86,
   87, 88, 89, 90, 97, 98, 99, 100, 101, 102, 103, 104, 105, 106, 107, 108, 109, 110, 111,
   112, 113, 114, 115, 116, 117, 118, 119, 120, 121, 122, 48, 49, 50, 51, 52, 53, 54, 55,
   56, 57, 43, 47, 0]

/-- The loop of `m_fmt_b64`: `for (i = 0; i < len; i += 3) { ... }`. -/
def m_fmt_b64_loop {σ : Type} (out : Nat → σ → σ) (buf : List Nat) (len : Nat) :
    Nat → Nat → Nat → σ → Res (Nat × σ)
  | 0, _, _, _ => .error .fuel
  | fuel + 1, i, n, param =>
    if i < len then do
      -- uint8_t c1 = buf[i], c2 = i + 1 < len ? buf[i + 1] : 0, c3 = i + 2 < len ? buf[i + 2] : 0;
      let c1 ← rd buf i
      let c2 ← (if i + 1 < len then rd buf (i + 1) else pure 0 : Res Nat)
      let c3 ← (if i + 2 < len then rd buf (i + 2) else pure 0 : Res Nat)
      -- char tmp[4] = {t[c1 >> 2], t[(c1 & 3) << 4 | (c2 >> 4)], '=', '='};
      let t0 ← rd b64_t (c1 >>> 2)
      let t1 ← rd b64_t (((c1 &&& 3) <<< 4) ||| (c2 >>> 4))
      -- if (i + 1 < len) tmp[2] = t[(c2 & 15) << 2 | (c3 >> 6)];
      let t2 ← (if i + 1 < len then rd b64_t (((c2 &&& 15) <<< 2) ||| (c3 >>> 6))
                else pure 61 : Res Nat)
      -- if (i + 2 < len) tmp[3] = t[c3 & 63];
      let t3 ← (if i + 2 < len then rd b64_t (c3 &&& 63) else pure 61 : Res Nat)
      let (k, param) ← scpy out param [t0, t1, t2, t3] 4
      m_fmt_b64_loop out buf len fuel (i + 3) (n + k) param
    else pure (n, param)

/-- `m_fmt_b64`. -/
def m_fmt_b64 {σ : Type} (out : Nat → σ → σ) (param : σ) (ap : List Arg) :
    Res (Nat × σ × List Arg) := do
  let (len, ap) ← va_unsigned ap
  let (buf, ap) ← va_ptr ap
  let (n, param) ← m_fmt_b64_loop out (deref buf) len (len + 1) 0 0 param
  pure (n, param, ap)

/-! ## The directive parser of `m_vxprintf` -/

/-- The locals of `m_vxprintf` after the flags, width, precision and length modifier of a
directive have been read: `c` is the conversion character and `i` its index. -/
structure Directive where
  x : Nat
  minus : Nat
  pad : Nat
  w : Nat
  pr : Nat
  is_long : Nat
  c : Nat
  i : Nat
deriving DecidableEq, Repr

/-- `while (m_isdigit(c)) w *= 10, w += (size_t) (c - '0'), c = fmt[++i];`
(the same loop reads the precision). Returns `w`, `i` and `c`. -/
def parse_num (fmt : List Nat) : Nat → Nat → Nat → Nat → Res (Nat × Nat × Nat)
  | 0, _, _, _ => .error .fuel
  | fuel + 1, w, i, c =>
    if m_isdigit c then do
      let c1 ← rd fmt (i + 1)
      parse_num fmt fuel ((w * 10 + (c - 48)) % 2 ^ 64) (i + 1) c1
    else pure (w, i, c)

/-- `while (c == 'h') c = fmt[++i];` Returns `i` and `c`. -/
def skip_h (fmt : List Nat) : Nat → Nat → Nat → Res (Nat × Nat)
  | 0, _, _ => .error .fuel
  | fuel + 1, i, c =>
    if c = 104 then do
      let c1 ← rd fmt (i + 1)
      skip_h fmt fuel (i + 1) c1
    else pure (i, c)

/-- The unset precision, `~0U` converted to `size_t`. -/
def pr_unset : Nat := 4294967295

/-- A flag of a directive, `if (c == k) ..., c = fmt[++i];`: returns whether the character `k`
was there, `i` and `c`. -/
def parse_flag (fmt : List Nat) (k i c : Nat) : Res (Bool × Nat × Nat) :=
  if c = k then do
    let c1 ← rd fmt (i + 1)
    pure (true, i + 1, c1)
  else pure (false, i, c)

/-- The precision of a directive, lines 280 to 289:
`if (c == '.') { c = fmt[++i]; if (c == '*') { pr = (size_t) va_arg(*ap, int); c = fmt[++i]; }
else { pr = 0; while (m_isdigit(c)) pr *= 10, pr += (size_t) (c - '0'), c = fmt[++i]; } }`.
Returns `pr`, `i`, `c` and the arguments. -/
def parse_prec (fmt : List Nat) (i c : Nat) (ap : List Arg) : Res (Nat × Nat × Nat × List Arg) :=
  if c = 46 then do
    let c1 ← rd fmt (i + 1)
    if c1 = 42 then do
      let (v, ap) ← va_int ap
      let c2 ← rd fmt (i + 2)
      pure (uint 64 v, i + 2, c2, ap)
    else do
      let (pr, i, c) ← parse_num fmt (fmt.length + 1) 0 (i + 1) c1
      pure (pr, i, c, ap)
  else pure (pr_unset, i, c, ap)

/-- The length modifier `l` or `ll`, lines 291 to 294:
`if (c == 'l') { is_long++, c = fmt[++i]; if (c == 'l') is_long++, c = fmt[++i]; }`.
Returns `is_long`, `i` and `c`. -/
def parse_long (fmt : List Nat) (i c : Nat) : Res (Nat × Nat × Nat) :=
  if c = 108 then do
    let c1 ← rd fmt (i + 1)
    if c1 = 108 then do
      let c2 ← rd fmt (i + 2)
      pure (2, i + 2, c2)
    else pure (1, i + 1, c1)
  else pure (0, i, c)

/-- Lines 274 to 294 of `m_vxprintf`: from the index `i` of a `'%'`, read the directive.
Each iteration of the loops reads a further byte of `fmt`. -/
def parse_directive (fmt : List Nat) (i : Nat) (ap : List Arg) : Res (Directive × List Arg) := do
  -- char pad = ' ', minus = 0, c = fmt[++i];
  let i := i + 1
  let c ← rd fmt i
  -- if (c == '#') x++, c = fmt[++i];
  let (hash, i, c) ← parse_flag fmt 35 i c
  -- if (c == '-') minus++, c = fmt[++i];
  let (minus, i, c) ← parse_flag fmt 45 i c
  -- if (c == '0') pad = '0', c = fmt[++i];
  let (zero, i, c) ← parse_flag fmt 48 i c
  -- while (m_isdigit(c)) w *= 10, w += (size_t) (c - '0'), c = fmt[++i];
  let (w, i, c) ← parse_num fmt (fmt.length + 1) 0 i c
  let (pr, i, c, ap) ← parse_prec fmt i c ap
  -- while (c == 'h') c = fmt[++i];
  let (i, c) ← skip_h fmt (fmt.length + 1) i c
  let (is_long, i, c) ← parse_long fmt i c
  pure ({ x := if hash then 1 else 0, minus := if minus then 1 else 0,
          pad := if zero then 48 else 32, w := w, pr := pr, is_long := is_long, c := c,
          i := i }, ap)

/-! ## The conversions of `m_vxprintf` -/

/-- A padding loop of `m_vxprintf`,
`for (j = 0; cond && k < w && j + k < w; j++) n += scpy(out, param, &pad, 1);`
where `cond` is the test on `pad` and `minus` of that loop. It runs `w - k` times at most. -/
def pad_loop {σ : Type} (out : Nat → σ → σ) (pad : Nat) (cond : Bool) (k w : Nat) :
    Nat → Nat → Nat → σ → Res (Nat × σ)
  | 0, _, _, _ => .error .fuel
  | fuel + 1, j, n, param =>
    if cond && decide (k < w) && decide (j + k < w) then do
      let (m, param) ← scpy out param [pad] 1
      pad_loop out pad cond k w fuel (j + 1) (n + m) param
    else pure (n, param)

/-- `for (j = 0; j < xl && w > 0; j++) w--;` It runs `xl` times at most. -/
def shrink_w (xl : Nat) : Nat → Nat → Nat → Nat
  | 0, _, w => w
  | fuel + 1, j, w => if j < xl ∧ w > 0 then shrink_w xl fuel (j + 1) (w - 1) else w

/-- Lines 321 to 329: the text `tmp` of length `k` of a number, with its prefix and padding. -/
def emit_num {σ : Type} (out : Nat → σ → σ) (pad minus w xl k : Nat) (tmp : List Nat) (n : Nat)
    (param : σ) : Res (Nat × σ) := do
  let w := shrink_w xl xl 0 w
  -- for (j = 0; pad == ' ' && !minus && k < w && j + k < w; j++) n += scpy(out, param, &pad, 1);
  let (n, param) ← pad_loop out pad (pad == 32 && minus == 0) k w (w + 1) 0 n param
  -- n += scpy(out, param, (char *) "0x", xl);
  let (m, param) ← scpy out param [48, 120, 0] xl
  let n := n + m
  -- for (j = 0; pad == '0' && k < w && j + k < w; j++) n += scpy(out, param, &pad, 1);
  let (n, param) ← pad_loop out pad (pad == 48) k w (w + 1) 0 n param
  -- n += scpy(out, param, tmp, k);
  let (m, param) ← scpy out param tmp k
  let n := n + m
  -- for (j = 0; pad == ' ' && minus && k < w && j + k < w; j++) n += scpy(out, param, &pad, 1);
  pad_loop out pad (pad == 32 && minus != 0) k w (w + 1) 0 n param

/-- Lines 311 to 320: pull the integer argument of the resolved width and convert it. -/
def conv_int (is_long : Nat) (s h : Bool) (tmp : List Nat) (ap : List Arg) :
    Res (Nat × List Nat × List Arg) := do
  if is_long = 2 then do
    -- int64_t v = va_arg(*ap, int64_t); k = m_lld(tmp, v, s, h);
    let (v, ap) ← va_long ap
    let (k, tmp) ← m_lld tmp v s h
    pure (k, tmp, ap)
  else if is_long = 1 then do
    -- long v = va_arg(*ap, long);
    -- k = m_lld(tmp, s ? (int64_t) v : (int64_t) (unsigned long) v, s, h);
    let (v, ap) ← va_long ap
    let (k, tmp) ← m_lld tmp (if s then v else sint 64 (uint 64 v)) s h
    pure (k, tmp, ap)
  else do
    -- int v = va_arg(*ap, int);
    -- k = m_lld(tmp, s ? (int64_t) v : (int64_t) (unsigned) v, s, h);
    let (v, ap) ← va_int ap
    let (k, tmp) ← m_lld tmp (if s then v else (uint 32 v : Int)) s h
    pure (k, tmp, ap)

/-- Lines 337 to 345: the conversion `s`. -/
def conv_s {σ : Type} (out : Nat → σ → σ) (pad minus w pr : Nat) (n : Nat) (param : σ)
    (ap : List Arg) : Res (Nat × σ × List Arg) := do
  let (p, ap) ← va_ptr ap
  -- if (pr == ~0U) pr = p == NULL ? 0 : m_strlen(p);
  let pr ← (if pr = pr_unset then
      match p with
      | none => pure 0
      | some m => m_strlen m
    else pure pr : Res Nat)
  -- for (j = 0; !minus && pr < w && j + pr < w; j++) n += f(out, param, &pad, 1);
  let (n, param) ← pad_loop out pad (minus == 0) pr w (w + 1) 0 n param
  -- n += f(out, param, p, pr);
  let (m, param) ← scpy out param (deref p) pr
  let n := n + m
  -- for (j = 0; minus && pr < w && j + pr < w; j++) n += f(out, param, &pad, 1);
  let (n, param) ← pad_loop out pad (minus != 0) pr w (w + 1) 0 n param
  pure (n, param, ap)

/-- The body of the `if (fmt[i] == '%')` of `m_vxprintf`, lines 274 to 354, with the two calls
that can come back to `m_vxprintf` as parameters: `dtoa` is `m_dtoa` and `fcall` is the call
`f(out, param, ap)` of a `%M` function. Returns `i`, `n`, the sink and the arguments. -/
def vx_directive {σ : Type} (dtoa : List Nat → Nat → Nat → Int → Res (Nat × List Nat))
    (fcall : FmtFn → σ → List Arg → Res (Nat × σ × List Arg)) (out : Nat → σ → σ)
    (fmt : List Nat) (i n : Nat) (param : σ) (ap : List Arg) :
    Res (Nat × Nat × σ × List Arg) := do
  let (D, ap) ← parse_directive fmt i ap
  let c := D.c
  -- if (c == 'p') x = 1, is_long = 1;
  let x := if c = 112 then 1 else D.x
  let is_long := if c = 112 then 1 else D.is_long
  let (n, param, ap) ← (
    if c = 100 ∨ c = 117 ∨ c = 120 ∨ c = 88 ∨ c = 112 ∨ c = 103 ∨ c = 102 then do
      -- int s = (c == 'd'), h = (c == 'x' || c == 'X' || c == 'p');
      let s := decide (c = 100)
      let h := decide (c = 120 ∨ c = 88 ∨ c = 112)
      -- char tmp[40];
      let tmp := List.replicate 40 0
      -- size_t xl = x ? 2 : 0;
      let xl := if x ≠ 0 then 2 else 0
      let (k, tmp, ap) ← (if c = 103 ∨ c = 102 then do
          -- double v = va_arg(*ap, double); if (pr == ~0U) pr = 6;
          -- k = m_dtoa(tmp, sizeof(tmp), v, (int) pr);
          let (v, ap) ← va_double ap
          let pr := if D.pr = pr_unset then 6 else D.pr
          let (k, tmp) ← dtoa tmp 40 v (sint 32 pr)
          pure (k, tmp, ap)
        else conv_int is_long s h tmp ap : Res (Nat × List Nat × List Arg))
      let (n, param) ← emit_num out D.pad D.minus D.w xl k tmp n param
      pure (n, param, ap)
    else if c = 77 then do
      -- m_fmt_t f = va_arg(*ap, m_fmt_t); n += f(out, param, ap);
      let (f, ap) ← va_fn ap
      let (m, param, ap) ← fcall f param ap
      pure (n + m, param, ap)
    else if c = 99 then do
      -- int ch = va_arg(*ap, int); out((char) ch, param); n++;
      let (ch, ap) ← va_int ap
      pure (n + 1, out (toChar ch) param, ap)
    else if c = 115 then conv_s out D.pad D.minus D.w D.pr n param ap
    else if c = 37 then
      -- out('%', param); n++;
      pure (n + 1, out 37 param, ap)
    else
      -- out('%', param); out(c, param); n += 2;
      pure (n + 2, out c (out 37 param), ap) : Res (Nat × σ × List Arg))
  -- i++;
  pure (D.i + 1, n, param, ap)

/-- The loop of `m_vxprintf`, lines 272 to 358, with the same two parameters. Each iteration
leaves `i` behind a byte of `fmt` that it has read. -/
def vx_loop {σ : Type} (dtoa : List Nat → Nat → Nat → Int → Res (Nat × List Nat))
    (fcall : FmtFn → σ → List Arg → Res (Nat × σ × List Arg)) (out : Nat → σ → σ)
    (fmt : List Nat) : Nat → Nat → Nat → σ → List Arg → Res (Nat × σ × List Arg)
  | 0, _, _, _, _ => .error .fuel
  | fuel + 1, i, n, param, ap => do
    let c ← rd fmt i
    if c ≠ 0 then
      if c = 37 then do
        let (i, n, param, ap) ← vx_directive dtoa fcall out fmt i n param ap
        vx_loop dtoa fcall out fmt fuel i n param ap
      else
        -- out(fmt[i], param), n++, i++;
        vx_loop dtoa fcall out fmt fuel (i + 1) (n + 1) (out c param) ap
    else pure (n, param, ap)

/-- The body of `m_fmt_quo`, lines 234 to 241, with the call `f(out, param, ap)` through the
pointer that it pulls as the parameter `fcall`, as in `vx_directive`. -/
def fmt_quo {σ : Type} (fcall : FmtFn → σ → List Arg → Res (Nat × σ × List Arg))
    (out : Nat → σ → σ) (param : σ) (ap : List Arg) : Res (Nat × σ × List Arg) := do
  -- m_fmt_t f = va_arg(*ap, m_fmt_t); size_t n = 2;
  let (f, ap) ← va_fn ap
  -- out('"', param); n += f(out, param, ap); out('"', param);
  let (m, param, ap) ← fcall f (out 34 param) ap
  -- return n;
  pure (2 + m, out 34 param, ap)

/-! ## The functions that call each other: `m_vxprintf`, `m_dtoa`, the wrappers, `%M` -/

mutual

/-- `m_vxprintf`: returns `n`, the sink, and the arguments that are left. -/
def m_vxprintf (depth : Nat) (σ : Type) (out : Nat → σ → σ) (param : σ) (fmt : List Nat)
    (ap : List Arg) : Res (Nat × σ × List Arg) :=
  match depth with
  | 0 => .error .stack
  | depth + 1 =>
    vx_loop (fun dst dstlen d width => m_dtoa depth dst dstlen d width)
      (fun f param ap => m_fmt_call depth σ out f param ap) out fmt (fmt.length + 1) 0 0 param ap

/-- `m_xprintf`, with the variadic arguments as a list. -/
def m_xprintf (depth : Nat) (σ : Type) (out : Nat → σ → σ) (ptr : σ) (fmt : List Nat)
    (args : List Arg) : Res (Nat × σ) :=
  match depth with
  | 0 => .error .stack
  | depth + 1 => do
    let (len, ptr, _) ← m_vxprintf depth σ out ptr fmt args
    pure (len, ptr)

/-- `m_vsnprintf`: returns `n`, the buffer, and the arguments that are left. -/
def m_vsnprintf (depth : Nat) (buf : List Nat) (len : Nat) (fmt : List Nat) (ap : List Arg) :
    Res (Nat × List Nat × List Arg) :=
  match depth with
  | 0 => .error .stack
  | depth + 1 => do
    -- struct m_buf mb = {buf, len, 0};
    let (n, mb, ap) ← m_vxprintf depth m_buf m_out_buf { buf := buf, size := len, len := 0 } fmt ap
    -- if (len > 0) buf[n < len ? n : len - 1] = '\0';
    let buf := if len > 0 then mb.buf.set (if n < len then n else len - 1) 0 else mb.buf
    pure (n, buf, ap)

/-- `m_snprintf`, with the variadic arguments as a list. -/
def m_snprintf (depth : Nat) (buf : List Nat) (len : Nat) (fmt : List Nat) (args : List Arg) :
    Res (Nat × List Nat) :=
  match depth with
  | 0 => .error .stack
  | depth + 1 => do
    let (n, buf, _) ← m_vsnprintf depth buf len fmt args
    pure (n, buf)

/-- `m_dtoa`: the text of the double `d` with `width` significant digits, written to `dst`
of capacity `dstlen`; returns the length and `dst`. -/
def m_dtoa (depth : Nat) (dst : List Nat) (dstlen : Nat) (d : Nat) (width : Int) :
    Res (Nat × List Nat) :=
  match depth with
  | 0 => .error .stack
  | depth + 1 =>
    -- char buf[40];
    let buf := List.replicate 40 0
    -- if (d == 0.0) return m_snprintf(dst, dstlen, "%s", "0");
    if dEq d d0 then m_snprintf depth dst dstlen [37, 115, 0] [.ptr (some [48, 0])]
    -- if (xisinf(d)) return m_snprintf(dst, dstlen, "%s", d > 0 ? "inf" : "-inf");
    else if xisinf d then
      m_snprintf depth dst dstlen [37, 115, 0]
        [.ptr (some (if dLt d0 d then [105, 110, 102, 0] else [45, 105, 110, 102, 0]))]
    -- if (xisnan(d)) return m_snprintf(dst, dstlen, "%s", "nan");
    else if xisnan d then m_snprintf depth dst dstlen [37, 115, 0] [.ptr (some [110, 97, 110, 0])]
    else do
      -- if (d < 0.0) d = -d, buf[s++] = '-';
      let (d, buf, s) ← (if dLt d d0 then do
          let buf ← wr buf 0 45
          pure (dNeg d, buf, 1)
        else pure (d, buf, 0) : Res (Nat × List Nat × Nat))
      let saved := d
      let (d, mul, e) ← m_dtoa_exp d width
      if e ≥ width then do
        -- n = (int) m_dtoa(buf, sizeof(buf), saved / mul, width);
        let (n, buf) ← m_dtoa depth buf 40 (dDiv saved mul) width
        -- n += addexp(buf + s + n, e, '+');
        let (k, buf) ← addexp buf (s + n) e 43
        -- return m_snprintf(dst, dstlen, "%.*s", n, buf);
        m_snprintf depth dst dstlen [37, 46, 42, 115, 0] [.int (n + k : Nat), .ptr (some buf)]
      else if e ≤ -width then do
        let (n, buf) ← m_dtoa depth buf 40 (dDiv saved mul) width
        -- n += addexp(buf + s + n, -e, '-');
        let (k, buf) ← addexp buf (s + n) (-e) 45
        m_snprintf depth dst dstlen [37, 46, 42, 115, 0] [.int (n + k : Nat), .ptr (some buf)]
      else do
        let buf ← m_dtoa_plain buf s d mul width
        -- return m_snprintf(dst, dstlen, "%s", buf);
        m_snprintf depth dst dstlen [37, 115, 0] [.ptr (some buf)]

/-- `m_fmt_ip4`; the format is `"%d.%d.%d.%d"`. -/
def m_fmt_ip4 (depth : Nat) (σ : Type) (out : Nat → σ → σ) (arg : σ) (ap : List Arg) :
    Res (Nat × σ × List Arg) :=
  match depth with
  | 0 => .error .stack
  | depth + 1 => do
    let (p, ap) ← va_ptr ap
    let p0 ← rd (deref p) 0
    let p1 ← rd (deref p) 1
    let p2 ← rd (deref p) 2
    let p3 ← rd (deref p) 3
    let (n, arg) ← m_xprintf depth σ out arg [37, 100, 46, 37, 100, 46, 37, 100, 46, 37, 100, 0]
      [.int p0, .int p1, .int p2, .int p3]
    pure (n, arg, ap)

/-- `m_fmt_ip6`; the format is `"[%x:%x:%x:%x:%x:%x:%x:%x]"` and `U16(p)` is
`(((uint16_t) (p)[0]) << 8) | (p)[1]`. -/
def m_fmt_ip6 (depth : Nat) (σ : Type) (out : Nat → σ → σ) (arg : σ) (ap : List Arg) :
    Res (Nat × σ × List Arg) :=
  match depth with
  | 0 => .error .stack
  | depth + 1 => do
    let (p, ap) ← va_ptr ap
    let u16 (k : Nat) : Res Arg := do
      let a ← rd (deref p) k
      let b ← rd (deref p) (k + 1)
      pure (.int (((a <<< 8) ||| b : Nat) : Int))
    let a0 ← u16 0
    let a1 ← u16 2
    let a2 ← u16 4
    let a3 ← u16 6
    let a4 ← u16 8
    let a5 ← u16 10
    let a6 ← u16 12
    let a7 ← u16 14
    let (n, arg) ← m_xprintf depth σ out arg
      [91, 37, 120, 58, 37, 120, 58, 37, 120, 58, 37, 120, 58, 37, 120, 58, 37, 120, 58, 37, 120,
       58, 37, 120, 93, 0]
      [a0, a1, a2, a3, a4, a5, a6, a7]
    pure (n, arg, ap)

/-- `m_fmt_mac`; the format is `"%02x:%02x:%02x:%02x:%02x:%02x"`. -/
def m_fmt_mac (depth : Nat) (σ : Type) (out : Nat → σ → σ) (arg : σ) (ap : List Arg) :
    Res (Nat × σ × List Arg) :=
  match depth with
  | 0 => .error .stack
  | depth + 1 => do
    let (p, ap) ← va_ptr ap
    let p0 ← rd (deref p) 0
    let p1 ← rd (deref p) 1
    let p2 ← rd (deref p) 2
    let p3 ← rd (deref p) 3
    let p4 ← rd (deref p) 4
    let p5 ← rd (deref p) 5
    let (n, arg) ← m_xprintf depth σ out arg
      [37, 48, 50, 120, 58, 37, 48, 50, 120, 58, 37, 48, 50, 120, 58, 37, 48, 50, 120, 58, 37, 48,
       50, 120, 58, 37, 48, 50, 120, 0]
      [.int p0, .int p1, .int p2, .int p3, .int p4, .int p5]
    pure (n, arg, ap)

/-- `m_fmt_quo`: the function that it pulls is called with one level of nesting less. -/
def m_fmt_quo (depth : Nat) (σ : Type) (out : Nat → σ → σ) (param : σ) (ap : List Arg) :
    Res (Nat × σ × List Arg) :=
  match depth with
  | 0 => .error .stack
  | depth + 1 => fmt_quo (fun f param ap => m_fmt_call depth σ out f param ap) out param ap

/-- The call `f(out, param, ap)` through a pointer of type `m_fmt_t`. -/
def m_fmt_call (depth : Nat) (σ : Type) (out : Nat → σ → σ) (f : FmtFn) (param : σ)
    (ap : List Arg) : Res (Nat × σ × List Arg) :=
  match depth with
  | 0 => .error .stack
  | depth + 1 =>
    match f with
    | .ip4 => m_fmt_ip4 depth σ out param ap
    | .ip6 => m_fmt_ip6 depth σ out param ap
    | .mac => m_fmt_mac depth σ out param ap
    | .b64 => m_fmt_b64 out param ap
    | .esc => m_fmt_esc out param ap
    | .quo => m_fmt_quo depth σ out param ap

end

/-! ## Definitions used to state the properties -/

/-- The bytes `l` passed to the sink one after the other. -/
def emit {σ : Type} (out : Nat → σ → σ) (p : σ) (l : List Nat) : σ := l.foldl (fun s b => out b s) p

/-- The letter of a digit below 16. -/
def digitChar (d : Nat) : Nat := if d < 10 then 48 + d else 87 + d

/-- The value that a digit letter stands for. -/
def digitVal (c : Nat) : Nat := if c < 58 then c - 48 else c - 87

/-- The number that a text of digits, most significant first, denotes in a base. -/
def parseNat (base : Nat) (t : List Nat) : Nat := t.foldl (fun a c => a * base + digitVal c) 0

/-- The text that `m_lld` is to produce: the digits of `mag`, most significant first, behind a
minus sign if `neg`. -/
def lldText (base : Nat) (neg : Bool) (mag : Nat) : List Nat :=
  (if neg then [45] else []) ++
    (if mag = 0 then [48] else (Nat.digits base mag).reverse.map digitChar)

/-- The bytes that `scpy` copies from an object: those in front of the first NUL among the
first `len`. -/
def scpySpan (buf : List Nat) (len : Nat) : List Nat := (buf.take len).takeWhile (· != 0)

/-- The decimal digits of `n`, most significant first, as characters; no digit for zero. -/
def decText (n : Nat) : List Nat := (Nat.digits 10 n).reverse.map (· + 48)

/-- The decimal numeral of `n`, `"0"` for zero. -/
def decimal (n : Nat) : List Nat := if n = 0 then [48] else decText n

/-- The length modifiers that the parser knows. -/
inductive LenMod
  | none
  | hh
  | h
  | l
  | ll
deriving DecidableEq, Repr

/-- The text of a length modifier. -/
def LenMod.text : LenMod → List Nat
  | .none => []
  | .hh => [104, 104]
  | .h => [104]
  | .l => [108]
  | .ll => [108, 108]

/-- The value of `is_long` for a length modifier. -/
def LenMod.is_long : LenMod → Nat
  | .l => 1
  | .ll => 2
  | _ => 0

/-- The precision of a directive as it is written: absent, `.*` with the value of the `int`
argument, or `.` and a decimal numeral. -/
inductive Prec
  | unset
  | star (v : Int)
  | digits (p : Nat)
deriving DecidableEq, Repr

/-- The text of a precision. -/
def Prec.text : Prec → List Nat
  | .unset => []
  | .star _ => [46, 42]
  | .digits p => 46 :: decimal p

/-- The value of `pr` for a precision. -/
def Prec.pr : Prec → Nat
  | .unset => pr_unset
  | .star v => uint 64 (sint 32 v)
  | .digits p => p % 2 ^ 64

/-- The arguments that a precision pulls. -/
def Prec.args : Prec → List Arg
  | .star v => [.int v]
  | _ => []

/-- The text of a directive between `'%'` and the conversion character: the flags in the
order `#`, `-`, `0`, the width (nothing for zero), the precision, the length modifier. -/
def dirText (hash minus zero : Bool) (W : Nat) (prec : Prec) (lm : LenMod) : List Nat :=
  (if hash then [35] else []) ++ ((if minus then [45] else []) ++ ((if zero then [48] else []) ++
    (decText W ++ (prec.text ++ lm.text))))

/-- One step of the loop that reads a number: `w *= 10, w += (size_t) (c - '0')`. -/
def numStep (a d : Nat) : Nat := (a * 10 + (d - 48)) % 2 ^ 64

/-- The text that `m_vxprintf` emits for a number whose converted text is `body`: the number
with its `0x` prefix (if `x`) and its padding, for the pad character, the `minus` flag and
the width `w` of the directive. -/
def numText (pad minus w : Nat) (x : Bool) (body : List Nat) : List Nat :=
  List.replicate (if pad = 32 ∧ minus = 0 then w - (if x then 2 else 0) - body.length else 0) 32 ++
    ((if x then [48, 120] else []) ++
      (List.replicate (if pad = 48 then w - (if x then 2 else 0) - body.length else 0) 48 ++
        (body ++
          List.replicate
            (if pad = 32 ∧ minus ≠ 0 then w - (if x then 2 else 0) - body.length else 0) 32)))

/-- The text that `m_lld` produces for the integer argument `v` of a directive: `s` and `h`
are the flags for a signed and for a hexadecimal conversion, `long` tells whether the
argument has 64 bits. -/
def convText (s h long : Bool) (v : Int) : List Nat :=
  if s then
    lldText (if h then 16 else 10) (decide (sint (if long then 64 else 32) v < 0))
      (sint (if long then 64 else 32) v).natAbs
  else lldText (if h then 16 else 10) false (uint (if long then 64 else 32) v)

/-- The argument of an integer conversion, as the caller passes it. -/
def intArg (long : Bool) (v : Int) : Arg := if long then .long v else .int v

/-- The sink that records the bytes it is given, in order. -/
def traceOut (b : Nat) (l : List Nat) : List Nat := l ++ [b]

/-- The number of bits of the type that a length modifier names. -/
def LenMod.bits : LenMod → Nat
  | .hh => 8
  | .h => 16
  | .none => 32
  | .l => 64
  | .ll => 64

/-- The letter of a digit in the C standard's `printf`: `abcdef` for `x`, `ABCDEF` for `X`. -/
def stdDigit (upper : Bool) (d : Nat) : Nat :=
  if d < 10 then 48 + d else (if upper then 55 else 87) + d

/-- The digits of a magnitude as the C standard's `printf` writes them with the default
precision 1: most significant first, no leading zero, `"0"` for zero. -/
def stdDigits (base : Nat) (upper : Bool) (m : Nat) : List Nat :=
  if m = 0 then [48] else (Nat.digits base m).reverse.map (stdDigit upper)

/-- The sign or radix prefix, and the digits, that the C standard (C11 7.21.6.1) defines for
the conversions `d`, `u`, `x`, `X` of the argument `v`, which is first converted to the type
that the length modifier names. For `d` a negative value has the prefix `-`; with the `#`
flag a non-zero `x` (`X`) result has the prefix `0x` (`0X`), and `#` is undefined for `d` and
`u` (the result is `none`). -/
def std_int_parts (hash : Bool) (lm : LenMod) (conv : Nat) (v : Int) :
    Option (List Nat × List Nat) :=
  if conv = 100 then
    if hash then none
    else some (if sint lm.bits v < 0 then [45] else [], stdDigits 10 false (sint lm.bits v).natAbs)
  else if conv = 117 then
    if hash then none else some ([], stdDigits 10 false (uint lm.bits v))
  else if conv = 120 then
    some (if hash = true ∧ uint lm.bits v ≠ 0 then [48, 120] else [],
      stdDigits 16 false (uint lm.bits v))
  else if conv = 88 then
    some (if hash = true ∧ uint lm.bits v ≠ 0 then [48, 88] else [],
      stdDigits 16 true (uint lm.bits v))
  else none

/-- The text that the C standard (C11 7.21.6.1) defines for a directive with the flags `#`,
`-`, `0`, the field width `W`, a length modifier and one of the conversions `d`, `u`, `x`,
`X`: the converted value is padded to the field width with spaces on the left, or on the
right with the `-` flag, or with zeros behind the sign or prefix with the `0` flag, which is
ignored when `-` is present. -/
def std_printf_int (hash minus zero : Bool) (W : Nat) (lm : LenMod) (conv : Nat) (v : Int) :
    Option (List Nat) :=
  (std_int_parts hash lm conv v).map fun parts =>
    if minus then parts.1 ++ parts.2 ++ List.replicate (W - (parts.1.length + parts.2.length)) 32
    else if zero then
      parts.1 ++ List.replicate (W - (parts.1.length + parts.2.length)) 48 ++ parts.2
    else List.replicate (W - (parts.1.length + parts.2.length)) 32 ++ parts.1 ++ parts.2

/-- The length of the text of the C standard for a directive without its padding. -/
def std_int_width (hash : Bool) (lm : LenMod) (conv : Nat) (v : Int) : Nat :=
  match std_int_parts hash lm conv v with
  | some parts => parts.1.length + parts.2.length
  | none => 0

/-- The text that `m_vxprintf` emits for the conversion `s`: the span that `scpy` copies from
the object `mem` under the precision `pr` in force, with `w - pr` pad characters in front of
it, or behind it when `minus` is set. -/
def strText (pad minus w pr : Nat) (mem : List Nat) : List Nat :=
  List.replicate (if minus = 0 then w - pr else 0) pad ++
    (scpySpan mem pr ++ List.replicate (if minus ≠ 0 then w - pr else 0) pad)

/-- The destination `dst` after `m_vsnprintf` has stored the bytes `t` with the capacity `c`:
unchanged for `c = 0`, else the first `min (length t) (c - 1)` bytes of `t`, a NUL, and the old
bytes behind. -/
def stored (dst : List Nat) (c : Nat) (t : List Nat) : List Nat :=
  if c = 0 then dst
  else t.take (min t.length (c - 1)) ++ 0 :: dst.drop (min t.length (c - 1) + 1)

/-- The conversion characters that `m_vxprintf` knows: `d u x X p g f c s M %`. -/
def isConv (c : Nat) : Bool := decide (c ∈ [100, 117, 120, 88, 112, 103, 102, 99, 115, 77, 37])

/-- The characters that the parser of a directive takes for a part of the directive, and not
for its conversion: `# - . h l` and the digits. -/
def isDirChar (c : Nat) : Bool := decide (c ∈ [35, 45, 46, 104, 108]) || m_isdigit c

/-- The letter that follows the backslash in the escape of a byte, for the seven bytes that
have one: backspace `b`, form feed `f`, newline `n`, carriage return `r`, tab `t`, backslash
and double quote themselves. -/
def escLetter (b : Nat) : Option Nat :=
  if b = 8 then some 98
  else if b = 12 then some 102
  else if b = 10 then some 110
  else if b = 13 then some 114
  else if b = 9 then some 116
  else if b = 92 then some 92
  else if b = 34 then some 34
  else none

/-- The escaped text of a string: each byte that has an escape becomes a backslash and its
letter, every other byte stays. -/
def escText : List Nat → List Nat
  | [] => []
  | b :: s =>
    (match escLetter b with
      | some l => [92, l]
      | none => [b]) ++ escText s

/-- The base64 alphabet of RFC 4648, table 1: the character of a 6-bit value, `A` to `Z` for
0 to 25, `a` to `z` for 26 to 51, `0` to `9` for 52 to 61, `+` for 62 and `/` for 63. -/
def b64char (v : Nat) : Nat :=
  if v < 26 then 65 + v
  else if v < 52 then 97 + (v - 26)
  else if v < 62 then 48 + (v - 52)
  else if v = 62 then 43
  else 47

/-- The 6-bit value of a character of the base64 alphabet. -/
def b64val (c : Nat) : Nat :=
  if 65 ≤ c ∧ c ≤ 90 then c - 65
  else if 97 ≤ c ∧ c ≤ 122 then c - 97 + 26
  else if 48 ≤ c ∧ c ≤ 57 then c - 48 + 52
  else if c = 43 then 62
  else 63

/-- The base64 encoding of RFC 4648, section 4: each group of three bytes, read as 24 bits,
gives four 6-bit values; a last group of one byte gives two characters and `==`, a last group
of two bytes gives three characters and `=`, the missing bits being zero. -/
def base64_encode : List Nat → List Nat
  | [] => []
  | [a] => [b64char (a / 4), b64char (a % 4 * 16), 61, 61]
  | [a, b] => [b64char (a / 4), b64char (a % 4 * 16 + b / 16), b64char (b % 16 * 4), 61]
  | a :: b :: c :: rest =>
    b64char (a / 4) :: b64char (a % 4 * 16 + b / 16) :: b64char (b % 16 * 4 + c / 64) ::
      b64char (c % 64) :: base64_encode rest

/-- The base64 decoding of RFC 4648: each group of four characters gives three bytes, a
group that ends in `==` gives one byte and a group that ends in `=` gives two. -/
def base64_decode : List Nat → List Nat
  | c0 :: c1 :: c2 :: c3 :: rest =>
    if c2 = 61 then [b64val c0 * 4 + b64val c1 / 16]
    else if c3 = 61 then [b64val c0 * 4 + b64val c1 / 16, b64val c1 % 16 * 16 + b64val c2 / 4]
    else
      (b64val c0 * 4 + b64val c1 / 16) :: (b64val c1 % 16 * 16 + b64val c2 / 4) ::
        (b64val c2 % 4 * 64 + b64val c3) :: base64_decode rest
  | _ => []

/-! ## Lemmas on memory and on the helpers -/

theorem rd_append_cons (L : List Nat) (x : Nat) (T : List Nat) (i : Nat) (h : i = L.length) :
    rd (L ++ x :: T) i = .ok x := by
  subst h
  have h1 : (L ++ x :: T)[L.length]? = some x := by
    rw [List.getElem?_append_right (Nat.le_refl _)]; simp
  simp only [rd, h1]

theorem wr_append_cons (L : List Nat) (x : Nat) (T : List Nat) (i z : Nat) (h : i = L.length) :
    wr (L ++ x :: T) i z = .ok (L ++ z :: T) := by
  subst h; simp [wr]

theorem rd_letters (d : Nat) (h : d < 16) : rd letters d = .ok (digitChar d) := by
  interval_cases d <;> rfl

theorem m_lld_digits_spec (is_hex : Bool) (s : Nat) :
    ∀ (fuel v n : Nat) (A R : List Nat), A.length = s + n →
      (Nat.digits (if is_hex then 16 else 10) v).length < fuel →
      (Nat.digits (if is_hex then 16 else 10) v).length ≤ R.length →
      m_lld_digits is_hex s fuel v n (A ++ R) =
        .ok (n + (Nat.digits (if is_hex then 16 else 10) v).length,
          A ++ (Nat.digits (if is_hex then 16 else 10) v).map digitChar ++
            R.drop (Nat.digits (if is_hex then 16 else 10) v).length) := by
  intro fuel
  induction fuel with
  | zero => intro v n A R _ h; omega
  | succ fuel ih =>
    intro v n A R hA hf hR
    have hb : 1 < (if is_hex then 16 else 10) := by split <;> omega
    by_cases hv : v = 0
    · subst hv; simp [m_lld_digits]; rfl
    · have hpos : 0 < v := Nat.pos_of_ne_zero hv
      rw [Nat.digits_def' hb hpos] at hf hR ⊢
      simp only [List.length_cons] at hf hR
      obtain ⟨r, R', rfl⟩ : ∃ r R', R = r :: R' := by
        cases R with
        | nil => simp at hR
        | cons r R' => exact ⟨r, R', rfl⟩
      have hstep : (if is_hex then v >>> 4 else v / 10) = v / (if is_hex then 16 else 10) := by
        split
        · exact Nat.shiftRight_eq_div_pow v 4
        · rfl
      have hdig : (if is_hex then v &&& 15 else v % 10) = v % (if is_hex then 16 else 10) := by
        split
        · exact Nat.and_pow_two_sub_one_eq_mod v 4
        · rfl
      have hlt : v % (if is_hex then 16 else 10) < 16 := by
        cases is_hex <;> simp <;> omega
      rw [m_lld_digits, if_pos hv, hdig, hstep, rd_letters _ hlt]
      simp only [bind, Except.bind]
      rw [wr_append_cons A r R' (s + n) _ hA.symm]
      simp only []
      have := ih (v / (if is_hex then 16 else 10)) (n + 1) (A ++ [digitChar (v % (if is_hex then 16 else 10))]) R'
        (by simp [hA]; omega) (by omega) (by simpa using hR)
      simp only [List.append_assoc, List.singleton_append] at this
      rw [this]
      simp [Nat.add_assoc, Nat.add_comm 1]

theorem m_lld_reverse_spec (s n : Nat) :
    ∀ (fuel i : Nat) (L M R : List Nat), L.length = s + i → n = 2 * i + M.length →
      M.length / 2 < fuel →
      m_lld_reverse s n fuel i (L ++ M ++ R) = .ok (L ++ M.reverse ++ R) := by
  intro fuel
  induction fuel with
  | zero => intro i L M R _ _ h; omega
  | succ fuel ih =>
    intro i L M R hL hn hf
    by_cases h2 : i < n / 2
    · -- at least two elements are left in the middle
      obtain ⟨x, M1, rfl⟩ : ∃ x M1, M = x :: M1 := by
        cases M with
        | nil => simp at hn; omega
        | cons x M1 => exact ⟨x, M1, rfl⟩
      have hM1 : M1 ≠ [] := by
        intro h; subst h; simp at hn; omega
      obtain ⟨M2, y, rfl⟩ : ∃ M2 y, M1 = M2 ++ [y] :=
        ⟨M1.dropLast, M1.getLast hM1, (List.dropLast_append_getLast hM1).symm⟩
      simp only [List.length_cons, List.length_append, List.length_singleton, List.length_nil] at hn hf
      rw [m_lld_reverse, if_pos h2]
      have e1 : L ++ x :: (M2 ++ [y]) ++ R = L ++ x :: (M2 ++ y :: R) := by simp
      have e2 : L ++ x :: (M2 ++ y :: R) = (L ++ x :: M2) ++ y :: R := by simp
      have e3 : L ++ y :: (M2 ++ y :: R) = (L ++ y :: M2) ++ y :: R := by simp
      rw [e1, rd_append_cons L x _ (s + i) hL.symm]
      simp only [bind, Except.bind]
      rw [e2, rd_append_cons (L ++ x :: M2) y R (s + n - i - 1) (by simp [hL]; omega)]
      simp only []
      rw [← e2, wr_append_cons L x _ (s + i) y hL.symm]
      simp only []
      rw [e3, wr_append_cons (L ++ y :: M2) y R (s + n - i - 1) x (by simp [hL]; omega)]
      simp only []
      have := ih (i + 1) (L ++ [y]) M2 (x :: R) (by simp [hL]; omega) (by omega) (by omega)
      simp only [List.append_assoc, List.singleton_append, List.cons_append,
        List.nil_append] at this
      simp only [List.append_assoc, List.cons_append]
      rw [this]
      simp
    · rw [m_lld_reverse, if_neg h2]
      have hlen : M.length ≤ 1 := by omega
      have : M.reverse = M := by
        match M, hlen with
        | [], _ => rfl
        | [_], _ => rfl
      rw [this]; rfl

theorem digits_length_le {b v k : Nat} (hb : 1 < b) (h : v < b ^ k) :
    (Nat.digits b v).length ≤ k := by
  by_cases hv : v = 0
  · subst hv; simp
  · have h1 := Nat.base_pow_length_digits_le b v hb hv
    have h2 : b ^ (Nat.digits b v).length < b ^ (k + 1) := by
      calc b ^ (Nat.digits b v).length ≤ b * v := h1
        _ < b * b ^ k := Nat.mul_lt_mul_of_pos_left h (by omega)
        _ = b ^ (k + 1) := by ring
    exact Nat.lt_succ_iff.mp ((Nat.pow_lt_pow_iff_right hb).mp h2)

theorem digitVal_digitChar (d : Nat) (h : d < 16) : digitVal (digitChar d) = d := by
  unfold digitVal digitChar; split <;> split <;> omega

theorem parseNat_digits (b v : Nat) (hb : 1 < b) (hb16 : b ≤ 16) :
    parseNat b ((Nat.digits b v).reverse.map digitChar) = v := by
  have key : ∀ l : List Nat, (∀ d ∈ l, d < 16) →
      parseNat b (l.reverse.map digitChar) = Nat.ofDigits b l := by
    intro l hl
    induction l with
    | nil => rfl
    | cons d l ih =>
      have hd := hl d (List.mem_cons_self _ _)
      have ih' := ih (fun x hx => hl x (List.mem_cons_of_mem _ hx))
      simp only [parseNat] at ih' ⊢
      simp only [List.reverse_cons, List.map_append, List.map_cons, List.map_nil,
        List.foldl_append, List.foldl_cons, List.foldl_nil, ih', Nat.ofDigits_cons,
        digitVal_digitChar d hd]
      rw [Nat.mul_comm, Nat.add_comm]
  rw [key _ (fun d hd => lt_of_lt_of_le (Nat.digits_lt_base hb hd) hb16), Nat.ofDigits_digits]

theorem m_lld_eq (buf : List Nat) (val : Int) (is_signed is_hex : Bool)
    (hlo : -2 ^ 63 ≤ val) (hhi : val < 2 ^ 63) (hbuf : 21 ≤ buf.length) :
    m_lld buf val is_signed is_hex =
      .ok ((lldText (if is_hex then 16 else 10) (is_signed && decide (val < 0))
              (if (is_signed && decide (val < 0)) = true then val.natAbs else uint 64 val)).length,
           lldText (if is_hex then 16 else 10) (is_signed && decide (val < 0))
              (if (is_signed && decide (val < 0)) = true then val.natAbs else uint 64 val) ++
           buf.drop (lldText (if is_hex then 16 else 10) (is_signed && decide (val < 0))
              (if (is_signed && decide (val < 0)) = true then val.natAbs else uint 64 val)).length) := by
  have hb : 1 < (if is_hex then 16 else 10) := by split <;> omega
  have hpow : (2 : Nat) ^ 64 ≤ (if is_hex then 16 else 10) ^ 20 := by
    cases is_hex <;> norm_num
  -- the magnitude and the sign
  set neg : Bool := is_signed && decide (val < 0) with hneg
  set mag : Nat := if neg = true then val.natAbs else uint 64 val with hmag
  have hmag64 : mag < 2 ^ 64 := by
    rw [hmag]; split
    · omega
    · unfold uint; omega
  have hlen : (Nat.digits (if is_hex then 16 else 10) mag).length ≤ 20 :=
    digits_length_le hb (lt_of_lt_of_le hmag64 hpow)
  have hv : (if neg = true then uint 64 (-val) else uint 64 val) = mag := by
    rw [hmag]; split
    · rename_i h
      have : val < 0 := by
        rw [hneg] at h; simp at h; exact h.2
      unfold uint; omega
    · rfl
  have hzero : val = 0 ↔ mag = 0 := by
    rw [hmag]; split
    · omega
    · unfold uint; omega
  obtain ⟨b0, B, rfl⟩ : ∃ b0 B, buf = b0 :: B := by
    cases buf with
    | nil => simp at hbuf
    | cons b0 B => exact ⟨b0, B, rfl⟩
  simp only [List.length_cons] at hbuf
  unfold m_lld
  simp only [← hneg]
  cases hn : neg
  · -- no sign
    simp only [Bool.false_eq_true, if_false, hn] at hv ⊢
    simp only [bind, Except.bind, pure, Except.pure, hv]
    have h1 := m_lld_digits_spec is_hex 0 65 mag 0 [] (b0 :: B) rfl (by omega)
      (by simp only [List.length_cons]; omega)
    simp only [List.nil_append, Nat.zero_add] at h1
    rw [h1]
    simp only []
    have h2 := m_lld_reverse_spec 0 (Nat.digits (if is_hex then 16 else 10) mag).length
      ((Nat.digits (if is_hex then 16 else 10) mag).length + 1) 0 []
      ((Nat.digits (if is_hex then 16 else 10) mag).map digitChar)
      ((b0 :: B).drop (Nat.digits (if is_hex then 16 else 10) mag).length) rfl (by simp)
      (by simp; omega)
    simp only [List.nil_append] at h2
    rw [h2]
    simp only []
    by_cases hz : val = 0
    · have hm0 : mag = 0 := hzero.mp hz
      simp only [hz, if_true, hm0, Nat.digits_zero, List.length_nil, List.map_nil,
        List.reverse_nil, List.nil_append, List.drop_zero, lldText]
      rw [show b0 :: B = [] ++ b0 :: B from rfl, wr_append_cons [] b0 B 0 48 rfl]
      simp
    · have hm0 : mag ≠ 0 := fun h => hz (hzero.mpr h)
      simp only [hz, if_false, lldText, hm0, List.nil_append, List.length_map,
        List.length_reverse, List.map_reverse, Nat.add_zero, Bool.false_eq_true]
  · -- a minus sign
    simp only [if_true, hn] at hv ⊢
    rw [show b0 :: B = [] ++ b0 :: B from rfl, wr_append_cons [] b0 B 0 45 rfl]
    simp only [bind, Except.bind, pure, Except.pure, hv, List.nil_append]
    have hB : 20 ≤ B.length := by omega
    have h1 := m_lld_digits_spec is_hex 1 65 mag 0 [45] B rfl (by omega) (by omega)
    simp only [List.singleton_append, Nat.zero_add] at h1
    rw [show (0 : Nat) + 1 = 1 from rfl, h1]
    simp only []
    have h2 := m_lld_reverse_spec 1 (Nat.digits (if is_hex then 16 else 10) mag).length
      ((Nat.digits (if is_hex then 16 else 10) mag).length + 1) 0 [45]
      ((Nat.digits (if is_hex then 16 else 10) mag).map digitChar)
      (B.drop (Nat.digits (if is_hex then 16 else 10) mag).length) rfl (by simp)
      (by simp; omega)
    simp only [List.singleton_append, List.cons_append, List.nil_append] at h2
    simp only [List.cons_append]
    rw [h2]
    have hz : val ≠ 0 := by
      intro h; rw [hneg, h] at hn; simp at hn
    have hm0 : mag ≠ 0 := fun h => hz (hzero.mpr h)
    simp only [hz, if_false, lldText, hm0, List.length_map, if_true,
        List.length_reverse, List.map_reverse, List.singleton_append, List.length_cons,
        List.cons_append, List.drop_succ_cons]
    simp [Nat.add_comm]

theorem rd_of_drop {m : List Nat} {i x : Nat} {t : List Nat} (h : m.drop i = x :: t) :
    rd m i = .ok x := by
  have h1 : m[i]? = some x := by
    have := congrArg List.head? h
    rwa [List.head?_drop, List.head?_cons] at this
  simp only [rd, h1]

theorem drop_succ_of_drop {m : List Nat} {i x : Nat} {t : List Nat} (h : m.drop i = x :: t) :
    m.drop (i + 1) = t := by
  have := congrArg List.tail h
  simpa [List.tail_drop] using this

theorem rd_of_drop_nil {m : List Nat} {i : Nat} (h : m.drop i = []) : rd m i = .error .oob := by
  have h1 : m[i]? = none := by
    have := congrArg List.head? h
    rwa [List.head?_drop, List.head?_nil] at this
  simp only [rd, h1]

theorem emit_nil {σ : Type} (out : Nat → σ → σ) (p : σ) : emit out p [] = p := rfl

theorem emit_cons {σ : Type} (out : Nat → σ → σ) (p : σ) (b : Nat) (l : List Nat) :
    emit out p (b :: l) = emit out (out b p) l := rfl

theorem emit_append {σ : Type} (out : Nat → σ → σ) (p : σ) (l1 l2 : List Nat) :
    emit out p (l1 ++ l2) = emit out (emit out p l1) l2 := by
  simp [emit, List.foldl_append]

theorem scpy_loop_spec {σ : Type} (o : Nat → σ → σ) (buf : List Nat) :
    ∀ (rest i : Nat) (p : σ),
      ((scpySpan (buf.drop i) rest).length = rest ∨
        i + (scpySpan (buf.drop i) rest).length < buf.length) →
      scpy_loop o buf rest i p =
        .ok (i + (scpySpan (buf.drop i) rest).length, emit o p (scpySpan (buf.drop i) rest)) := by
  intro rest
  induction rest with
  | zero => intro i p _; simp [scpy_loop, scpySpan, emit]
  | succ rest ih =>
    intro i p h
    rcases hd : buf.drop i with _ | ⟨x, t⟩
    · rw [hd] at h
      simp only [scpySpan, List.take_nil, List.takeWhile_nil, List.length_nil] at h
      have : buf.length ≤ i := by
        have := congrArg List.length hd
        simp at this; omega
      omega
    · have ht := drop_succ_of_drop hd
      rw [scpy_loop, rd_of_drop hd]
      rw [hd] at h
      simp only [bind, Except.bind]
      by_cases hx : x = 0
      · subst hx
        simp [scpySpan, emit, pure, Except.pure]
      · have hspan : scpySpan (x :: t) (rest + 1) = x :: scpySpan t rest := by
          simp [scpySpan, List.take_succ_cons, List.takeWhile_cons, hx]
        rw [hspan] at h ⊢
        simp only [List.length_cons] at h
        rw [if_pos hx, ih (i + 1) (o x p) (by rw [ht]; omega), ht]
        simp only [List.length_cons, emit_cons]
        congr 2
        omega

theorem scpy_spec {σ : Type} (o : Nat → σ → σ) (p : σ) (buf : List Nat) (len : Nat)
    (h : (scpySpan buf len).length = len ∨ (scpySpan buf len).length < buf.length) :
    scpy o p buf len = .ok ((scpySpan buf len).length, emit o p (scpySpan buf len)) := by
  have := scpy_loop_spec o buf len 0 p (by simpa using h)
  simpa [scpy] using this

theorem scpy_pad {σ : Type} (o : Nat → σ → σ) (p : σ) (pad : Nat) (h : pad ≠ 0) :
    scpy o p [pad] 1 = .ok (1, o pad p) := by
  simp [scpy, scpy_loop, rd, h, bind, Except.bind]

theorem pad_loop_spec {σ : Type} (out : Nat → σ → σ) (pad : Nat) (hpad : pad ≠ 0) (cond : Bool)
    (k w : Nat) :
    ∀ (fuel j n : Nat) (p : σ), w - k - j < fuel →
      pad_loop out pad cond k w fuel j n p =
        .ok (n + (if cond = true then w - k - j else 0),
          emit out p (List.replicate (if cond = true then w - k - j else 0) pad)) := by
  intro fuel
  induction fuel with
  | zero => intro j n p h; omega
  | succ fuel ih =>
    intro j n p h
    rw [pad_loop]
    by_cases hc : (cond && decide (k < w) && decide (j + k < w)) = true
    · rw [if_pos hc, scpy_pad out p pad hpad]
      simp only [Bool.and_eq_true, decide_eq_true_eq] at hc
      obtain ⟨⟨hc1, hc2⟩, hc3⟩ := hc
      simp only [bind, Except.bind]
      rw [ih (j + 1) (n + 1) (out pad p) (by omega)]
      simp only [hc1, if_true]
      have : w - k - j = (w - k - (j + 1)) + 1 := by omega
      rw [this, List.replicate_succ, emit_cons]
      congr 2
      omega
    · rw [if_neg hc]
      simp only [Bool.and_eq_true, decide_eq_true_eq, not_and, not_lt] at hc
      by_cases hc1 : cond = true
      · have : w - k - j = 0 := by
          by_cases hkw : k < w
          · have := hc ⟨hc1, hkw⟩; omega
          · omega
        simp [hc1, this, emit, pure, Except.pure]
      · simp [hc1, emit, pure, Except.pure]

theorem m_strlen_loop_spec (m : List Nat) :
    ∀ (fuel n : Nat) (s rest : List Nat), m.drop n = s ++ 0 :: rest → (∀ b ∈ s, b ≠ 0) →
      s.length < fuel → m_strlen_loop m fuel n = .ok (n + s.length) := by
  intro fuel
  induction fuel with
  | zero => intro n s rest _ _ h; omega
  | succ fuel ih =>
    intro n s rest hd hs hf
    cases s with
    | nil =>
      rw [m_strlen_loop, rd_of_drop hd]
      simp [bind, Except.bind, pure, Except.pure]
    | cons x s =>
      have hx : x ≠ 0 := hs x (List.mem_cons_self _ _)
      rw [m_strlen_loop, rd_of_drop hd]
      simp only [bind, Except.bind, if_pos hx]
      rw [ih (n + 1) s rest (drop_succ_of_drop hd) (fun b hb => hs b (List.mem_cons_of_mem _ hb))
        (by simp at hf; omega)]
      simp only [List.length_cons]
      congr 1
      omega

theorem m_strlen_spec (s rest : List Nat) (hs : ∀ b ∈ s, b ≠ 0) :
    m_strlen (s ++ 0 :: rest) = .ok s.length := by
  have := m_strlen_loop_spec (s ++ 0 :: rest) ((s ++ 0 :: rest).length + 1) 0 s rest rfl hs
    (by simp; omega)
  simpa [m_strlen] using this

/-! ## Lemmas on the directive parser -/

theorem parse_flag_hit {fmt : List Nat} {k i c1 : Nat} {T : List Nat}
    (h : fmt.drop i = k :: c1 :: T) : parse_flag fmt k i k = .ok (true, i + 1, c1) := by
  have h1 := drop_succ_of_drop h
  simp [parse_flag, rd_of_drop h1, bind, Except.bind, pure, Except.pure]

theorem parse_flag_miss (fmt : List Nat) {k c : Nat} (i : Nat) (h : c ≠ k) :
    parse_flag fmt k i c = .ok (false, i, c) := by
  simp [parse_flag, h, pure, Except.pure]

theorem parse_num_spec (fmt : List Nat) (c : Nat) (T : List Nat) (hc : m_isdigit c = false) :
    ∀ (ds : List Nat) (fuel w i c0 : Nat) (T0 : List Nat), fmt.drop i = c0 :: T0 →
      c0 :: T0 = ds ++ c :: T → (∀ d ∈ ds, m_isdigit d = true) → ds.length < fuel →
      parse_num fmt fuel w i c0 = .ok (ds.foldl numStep w, i + ds.length, c) := by
  intro ds
  induction ds with
  | nil =>
    intro fuel w i c0 T0 _ he _ hf
    simp only [List.nil_append, List.cons.injEq] at he
    obtain ⟨rfl, rfl⟩ := he
    obtain ⟨fuel, rfl⟩ : ∃ f, fuel = f + 1 := ⟨fuel - 1, by simp at hf; omega⟩
    simp [parse_num, hc, pure, Except.pure]
  | cons d ds ih =>
    intro fuel w i c0 T0 hd he hds hf
    simp only [List.cons_append, List.cons.injEq] at he
    obtain ⟨rfl, rfl⟩ := he
    obtain ⟨fuel, rfl⟩ : ∃ f, fuel = f + 1 := ⟨fuel - 1, by simp at hf; omega⟩
    have hdig : m_isdigit c0 = true := hds c0 (List.mem_cons_self _ _)
    obtain ⟨c1, T1, hT1⟩ : ∃ c1 T1, ds ++ c :: T = c1 :: T1 := by
      cases ds with
      | nil => exact ⟨c, T, rfl⟩
      | cons a b => exact ⟨a, b ++ c :: T, rfl⟩
    have hd1 : fmt.drop (i + 1) = c1 :: T1 := by rw [drop_succ_of_drop hd, hT1]
    rw [parse_num, if_pos hdig, rd_of_drop hd1]
    simp only [bind, Except.bind]
    rw [ih fuel _ (i + 1) c1 T1 hd1 hT1.symm (fun x hx => hds x (List.mem_cons_of_mem _ hx))
      (by simp at hf; omega)]
    simp only [List.foldl_cons, List.length_cons, numStep]
    rw [Nat.add_assoc, Nat.add_comm 1]

theorem foldl_numStep_mod (ds : List Nat) :
    ∀ w w' : Nat, w % 2 ^ 64 = w' % 2 ^ 64 →
      ds.foldl numStep w % 2 ^ 64 = ds.foldl (fun a d => a * 10 + (d - 48)) w' % 2 ^ 64 := by
  induction ds with
  | nil => intro w w' h; simpa using h
  | cons d ds ih =>
    intro w w' h
    simp only [List.foldl_cons]
    apply ih
    unfold numStep
    omega

theorem foldl_numStep_lt (ds : List Nat) : ∀ w : Nat, w < 2 ^ 64 → ds.foldl numStep w < 2 ^ 64 := by
  induction ds with
  | nil => intro w h; simpa using h
  | cons d ds ih =>
    intro w _
    simp only [List.foldl_cons]
    apply ih
    unfold numStep
    omega

theorem foldl_decText (n : Nat) : (decText n).foldl (fun a d => a * 10 + (d - 48)) 0 = n := by
  have key : ∀ l : List Nat,
      (l.reverse.map (· + 48)).foldl (fun a d => a * 10 + (d - 48)) 0 = Nat.ofDigits 10 l := by
    intro l
    induction l with
    | nil => rfl
    | cons d l ih =>
      simp only [List.reverse_cons, List.map_append, List.map_cons, List.map_nil,
        List.foldl_append, List.foldl_cons, List.foldl_nil, ih, Nat.ofDigits_cons]
      omega
  rw [decText, key, Nat.ofDigits_digits]

theorem foldl_numStep_decText (n : Nat) : (decText n).foldl numStep 0 = n % 2 ^ 64 := by
  have h1 := foldl_numStep_mod (decText n) 0 0 rfl
  have h2 := foldl_numStep_lt (decText n) 0 (by norm_num)
  rw [foldl_decText] at h1
  rw [← h1, Nat.mod_eq_of_lt h2]

theorem decText_isdigit (n : Nat) : ∀ d ∈ decText n, m_isdigit d = true := by
  intro d hd
  simp only [decText, List.mem_map, List.mem_reverse] at hd
  obtain ⟨a, ha, rfl⟩ := hd
  have := Nat.digits_lt_base (by norm_num : 1 < 10) ha
  simp [m_isdigit]; omega

theorem decText_head (n : Nat) (hn : n ≠ 0) :
    ∃ d t, decText n = d :: t ∧ 49 ≤ d ∧ d ≤ 57 := by
  have hne : Nat.digits 10 n ≠ [] := Nat.digits_ne_nil_iff_ne_zero.mpr hn
  have hlast := Nat.getLast_digit_ne_zero 10 hn
  have hlt := Nat.digits_lt_base (by norm_num : 1 < 10) (List.getLast_mem hne)
  obtain ⟨l, hl⟩ : ∃ l, Nat.digits 10 n = l ++ [(Nat.digits 10 n).getLast hne] :=
    ⟨_, (List.dropLast_append_getLast hne).symm⟩
  refine ⟨(Nat.digits 10 n).getLast hne + 48, l.reverse.map (· + 48), ?_, by omega, by omega⟩
  conv_lhs => rw [decText, hl]
  simp

theorem decText_zero : decText 0 = [] := by simp [decText]

theorem decimal_isdigit (n : Nat) : ∀ d ∈ decimal n, m_isdigit d = true := by
  intro d hd
  unfold decimal at hd
  split at hd
  · simp at hd; subst hd; rfl
  · exact decText_isdigit n d hd

theorem foldl_numStep_decimal (n : Nat) : (decimal n).foldl numStep 0 = n % 2 ^ 64 := by
  unfold decimal
  split
  · rename_i h; subst h; rfl
  · exact foldl_numStep_decText n

theorem drop_add_of_drop {m : List Nat} {i : Nat} (A : List Nat) {S : List Nat}
    (h : m.drop i = A ++ S) : m.drop (i + A.length) = S := by
  rw [← List.drop_drop, h, List.drop_left]

theorem rd_of_drop_add {m : List Nat} {i : Nat} (A : List Nat) {x : Nat} {t : List Nat}
    (h : m.drop i = A ++ x :: t) : rd m (i + A.length) = .ok x :=
  rd_of_drop (drop_add_of_drop A h)

theorem length_le_of_drop {m : List Nat} {i : Nat} {A S : List Nat} (h : m.drop i = A ++ S) :
    A.length ≤ m.length := by
  have := congrArg List.length h
  simp at this
  omega

theorem flag_stage {fmt : List Nat} {k j : Nat} (b : Bool) {S : List Nat} {x : Nat} {t : List Nat}
    (hd : fmt.drop j = (if b then [k] else []) ++ S) (hS : S = x :: t) (hx : x ≠ k) :
    rd fmt j = .ok (if b then k else x) ∧
    parse_flag fmt k j (if b then k else x) = .ok (b, j + (if b then 1 else 0), x) ∧
    fmt.drop (j + (if b then 1 else 0)) = S := by
  subst hS
  cases b
  · simp only [Bool.false_eq_true, if_false, List.nil_append, Nat.add_zero] at hd ⊢
    exact ⟨rd_of_drop hd, parse_flag_miss fmt j hx, hd⟩
  · simp only [if_true, List.singleton_append] at hd ⊢
    exact ⟨rd_of_drop hd, parse_flag_hit hd, drop_succ_of_drop hd⟩

theorem num_stage {fmt : List Nat} {j : Nat} (ds : List Nat) {S : List Nat} {x : Nat}
    {t : List Nat} (hd : fmt.drop j = ds ++ S) (hS : S = x :: t) (hx : m_isdigit x = false)
    (hds : ∀ d ∈ ds, m_isdigit d = true) :
    ∃ c0 T0, ds ++ S = c0 :: T0 ∧
      parse_num fmt (fmt.length + 1) 0 j c0 = .ok (ds.foldl numStep 0, j + ds.length, x) ∧
      fmt.drop (j + ds.length) = S := by
  subst hS
  obtain ⟨c0, T0, h0⟩ : ∃ c0 T0, ds ++ x :: t = c0 :: T0 := by
    cases ds with
    | nil => exact ⟨x, t, rfl⟩
    | cons a b => exact ⟨a, b ++ x :: t, rfl⟩
  refine ⟨c0, T0, h0, ?_, drop_add_of_drop ds hd⟩
  exact parse_num_spec fmt x t hx ds (fmt.length + 1) 0 j c0 T0 (by rw [hd, h0]) h0.symm hds
    (by have := length_le_of_drop hd; omega)

theorem prec_stage {fmt : List Nat} {j : Nat} (prec : Prec) (ap : List Arg) {S : List Nat}
    {x : Nat} {t : List Nat} (hd : fmt.drop j = prec.text ++ S) (hS : S = x :: t)
    (hx : m_isdigit x = false) (hx46 : x ≠ 46) :
    ∃ c0 T0, prec.text ++ S = c0 :: T0 ∧
      parse_prec fmt j c0 (prec.args ++ ap) = .ok (prec.pr, j + prec.text.length, x, ap) ∧
      fmt.drop (j + prec.text.length) = S := by
  subst hS
  cases prec with
  | unset =>
    refine ⟨x, t, rfl, ?_, by simpa [Prec.text] using hd⟩
    simp [parse_prec, hx46, Prec.pr, Prec.args, Prec.text, pure, Except.pure]
  | star v =>
    simp only [Prec.text, List.cons_append, List.nil_append] at hd
    refine ⟨46, 42 :: x :: t, rfl, ?_, by simpa [Prec.text] using drop_add_of_drop [46, 42] hd⟩
    have h1 := rd_of_drop_add [46] hd
    have h2 := rd_of_drop_add [46, 42] hd
    simp only [List.length_cons, List.length_nil] at h1 h2
    simp [parse_prec, h1, h2, Prec.pr, Prec.args, Prec.text, va_int, bind, Except.bind, pure,
      Except.pure]
  | digits p =>
    simp only [Prec.text, List.cons_append] at hd
    have hd1 : fmt.drop (j + 1) = decimal p ++ x :: t := drop_succ_of_drop hd
    obtain ⟨c0, T0, h0, hp, hdr⟩ := num_stage (decimal p) hd1 rfl hx (decimal_isdigit p)
    refine ⟨46, decimal p ++ x :: t, rfl, ?_, ?_⟩
    · have hc0 : rd fmt (j + 1) = .ok c0 := by rw [rd_of_drop (by rw [hd1, h0])]
      have hne : c0 ≠ 42 := by
        have : c0 ∈ decimal p := by
          have hnil : decimal p ≠ [] := by
            unfold decimal
            split
            · simp
            · rename_i hp0
              obtain ⟨d, t', hd', _⟩ := decText_head p hp0
              rw [hd']; simp
          cases hdp : decimal p with
          | nil => exact absurd hdp hnil
          | cons a b =>
            rw [hdp] at h0
            simp only [List.cons_append, List.cons.injEq] at h0
            rw [← h0.1]; exact List.mem_cons_self _ _
        have := decimal_isdigit p c0 this
        simp [m_isdigit] at this
        omega
      simp only [parse_prec, if_true, hc0, bind, Except.bind, if_neg hne, hp,
        foldl_numStep_decimal, Prec.pr, Prec.args, Prec.text, List.nil_append, pure, Except.pure,
        List.length_cons]
      congr 3
      omega
    · simp only [Prec.text, List.length_cons]
      rw [show j + ((decimal p).length + 1) = j + 1 + (decimal p).length by omega]
      exact hdr

theorem skip_h_spec (fmt : List Nat) (c : Nat) (T : List Nat) (hc : c ≠ 104) :
    ∀ (k fuel i c0 : Nat) (T0 : List Nat), fmt.drop i = c0 :: T0 →
      c0 :: T0 = List.replicate k 104 ++ c :: T → k < fuel →
      skip_h fmt fuel i c0 = .ok (i + k, c) := by
  intro k
  induction k with
  | zero =>
    intro fuel i c0 T0 _ he hf
    simp only [List.replicate_zero, List.nil_append, List.cons.injEq] at he
    obtain ⟨rfl, rfl⟩ := he
    obtain ⟨fuel, rfl⟩ : ∃ f, fuel = f + 1 := ⟨fuel - 1, by omega⟩
    simp [skip_h, hc, pure, Except.pure]
  | succ k ih =>
    intro fuel i c0 T0 hd he hf
    simp only [List.replicate_succ, List.cons_append, List.cons.injEq] at he
    obtain ⟨rfl, rfl⟩ := he
    obtain ⟨fuel, rfl⟩ : ∃ f, fuel = f + 1 := ⟨fuel - 1, by omega⟩
    obtain ⟨c1, T1, hT1⟩ : ∃ c1 T1, List.replicate k 104 ++ c :: T = c1 :: T1 := by
      cases k with
      | zero => exact ⟨c, T, rfl⟩
      | succ k => exact ⟨104, List.replicate k 104 ++ c :: T, by simp [List.replicate_succ]⟩
    have hd1 : fmt.drop (i + 1) = c1 :: T1 := by rw [drop_succ_of_drop hd, hT1]
    rw [skip_h, if_pos rfl, rd_of_drop hd1]
    simp only [bind, Except.bind]
    rw [ih fuel (i + 1) c1 T1 hd1 hT1.symm (by omega)]
    rw [Nat.add_assoc, Nat.add_comm 1]

theorem lm_stage {fmt : List Nat} {j : Nat} (lm : LenMod) {c : Nat} {T : List Nat}
    (hd : fmt.drop j = lm.text ++ c :: T) (hc104 : c ≠ 104) (hc108 : c ≠ 108) :
    ∃ c0 T0 i1 c1, lm.text ++ c :: T = c0 :: T0 ∧
      skip_h fmt (fmt.length + 1) j c0 = .ok (i1, c1) ∧
      parse_long fmt i1 c1 = .ok (lm.is_long, j + lm.text.length, c) ∧
      fmt.drop (j + lm.text.length) = c :: T := by
  have hlen := length_le_of_drop hd
  cases lm with
  | none =>
    simp only [LenMod.text, List.nil_append] at hd
    refine ⟨c, T, j + 0, c, rfl, skip_h_spec fmt c T hc104 0 _ j c T hd rfl (by omega), ?_,
      by simpa [LenMod.text] using hd⟩
    simp [parse_long, hc108, LenMod.is_long, LenMod.text, pure, Except.pure]
  | hh =>
    simp only [LenMod.text] at hd hlen
    refine ⟨104, 104 :: c :: T, j + 2, c, rfl,
      skip_h_spec fmt c T hc104 2 _ j 104 (104 :: c :: T) hd rfl (by simp at hlen; omega), ?_,
      by simpa [LenMod.text] using drop_add_of_drop [104, 104] hd⟩
    simp [parse_long, hc108, LenMod.is_long, LenMod.text, pure, Except.pure]
  | h =>
    simp only [LenMod.text] at hd hlen
    refine ⟨104, c :: T, j + 1, c, rfl,
      skip_h_spec fmt c T hc104 1 _ j 104 (c :: T) hd rfl (by simp at hlen; omega), ?_,
      by simpa [LenMod.text] using drop_add_of_drop [104] hd⟩
    simp [parse_long, hc108, LenMod.is_long, LenMod.text, pure, Except.pure]
  | l =>
    simp only [LenMod.text, List.cons_append, List.nil_append] at hd
    refine ⟨108, c :: T, j + 0, 108, rfl,
      skip_h_spec fmt 108 (c :: T) (by omega) 0 _ j 108 (c :: T) hd rfl (by omega), ?_,
      by simpa [LenMod.text] using drop_add_of_drop [108] hd⟩
    have h1 := rd_of_drop_add [108] hd
    simp only [List.length_cons, List.length_nil] at h1
    simp [bind, Except.bind, parse_long, hc108, h1, LenMod.is_long, LenMod.text, pure, Except.pure]
  | ll =>
    simp only [LenMod.text, List.cons_append, List.nil_append] at hd
    refine ⟨108, 108 :: c :: T, j + 0, 108, rfl,
      skip_h_spec fmt 108 (108 :: c :: T) (by omega) 0 _ j 108 (108 :: c :: T) hd rfl (by omega),
      ?_, by simpa [LenMod.text] using drop_add_of_drop [108, 108] hd⟩
    have h1 := rd_of_drop_add [108] hd
    have h2 := rd_of_drop_add [108, 108] hd
    simp only [List.length_cons, List.length_nil] at h1 h2
    simp [bind, Except.bind, parse_long, h1, h2, LenMod.is_long, LenMod.text, pure, Except.pure]

theorem lm_head (lm : LenMod) (c : Nat) (T : List Nat) :
    ∃ x t, lm.text ++ c :: T = x :: t ∧ (x = 104 ∨ x = 108 ∨ x = c) := by
  cases lm <;> simp [LenMod.text]

theorem prec_head (prec : Prec) {S : List Nat} {P : Nat → Prop}
    (hS : ∃ x t, S = x :: t ∧ P x) :
    ∃ x t, prec.text ++ S = x :: t ∧ (x = 46 ∨ P x) := by
  obtain ⟨x, t, rfl, hx⟩ := hS
  cases prec <;> simp [Prec.text, hx]

theorem width_head (W : Nat) {S : List Nat} {P : Nat → Prop} (hS : ∃ x t, S = x :: t ∧ P x) :
    ∃ x t, decText W ++ S = x :: t ∧ ((49 ≤ x ∧ x ≤ 57) ∨ P x) := by
  obtain ⟨x, t, rfl, hx⟩ := hS
  by_cases hW : W = 0
  · subst hW; simp [decText_zero, hx]
  · obtain ⟨d, t', hd, h1, h2⟩ := decText_head W hW
    rw [hd]; simp [h1, h2]

theorem flag_head (b : Bool) (k : Nat) {S : List Nat} {P : Nat → Prop}
    (hS : ∃ x t, S = x :: t ∧ P x) :
    ∃ x t, (if b then [k] else []) ++ S = x :: t ∧ (x = k ∨ P x) := by
  obtain ⟨x, t, rfl, hx⟩ := hS
  cases b <;> simp [hx]

/-- The record that the parser builds from a directive. -/
theorem parse_directive_spec (fmt : List Nat) (i : Nat) (hash minus zero : Bool) (W : Nat)
    (prec : Prec) (lm : LenMod) (c : Nat) (T : List Nat) (ap : List Arg)
    (h : fmt.drop (i + 1) = dirText hash minus zero W prec lm ++ c :: T) (hW : W < 2 ^ 64)
    (hc35 : c ≠ 35) (hc45 : c ≠ 45) (hc46 : c ≠ 46) (hc104 : c ≠ 104) (hc108 : c ≠ 108)
    (hcd : m_isdigit c = false) :
    parse_directive fmt i (prec.args ++ ap) =
      .ok ({ x := if hash then 1 else 0, minus := if minus then 1 else 0,
             pad := if zero then 48 else 32, w := W, pr := prec.pr, is_long := lm.is_long,
             c := c, i := i + 1 + (dirText hash minus zero W prec lm).length }, ap) ∧
    fmt.drop (i + 1 + (dirText hash minus zero W prec lm).length) = c :: T := by
  have hdig : ∀ x, m_isdigit x = true ↔ 48 ≤ x ∧ x ≤ 57 := by
    intro x; simp [m_isdigit]
  have hcnd : ¬ (48 ≤ c ∧ c ≤ 57) := by
    intro hh; rw [← hdig] at hh; rw [hcd] at hh; exact absurd hh (by simp)
  -- the heads of the suffixes of the text
  obtain ⟨x4, t4, e4, p4⟩ := lm_head lm c T
  obtain ⟨x3, t3, e3, p3⟩ :=
    prec_head prec (P := fun x => x = 104 ∨ x = 108 ∨ x = c) ⟨x4, t4, e4, p4⟩
  have n46 : x4 ≠ 46 := by omega
  have nd4 : m_isdigit x4 = false := by
    cases hx : m_isdigit x4
    · rfl
    · rw [hdig] at hx; omega
  clear p4
  obtain ⟨x2, t2, e2, p2⟩ :=
    width_head W (P := fun x => x = 46 ∨ x = 104 ∨ x = 108 ∨ x = c) ⟨x3, t3, e3, p3⟩
  have nd3 : m_isdigit x3 = false := by
    cases hx : m_isdigit x3
    · rfl
    · rw [hdig] at hx; omega
  clear p3
  obtain ⟨x1, t1, e1, p1⟩ :=
    flag_head zero 48 (P := fun x => (49 ≤ x ∧ x ≤ 57) ∨ x = 46 ∨ x = 104 ∨ x = 108 ∨ x = c)
      ⟨x2, t2, e2, p2⟩
  have n2 : x2 ≠ 48 := by omega
  clear p2
  obtain ⟨x0, t0, e0, p0⟩ :=
    flag_head minus 45
      (P := fun x => x = 48 ∨ (49 ≤ x ∧ x ≤ 57) ∨ x = 46 ∨ x = 104 ∨ x = 108 ∨ x = c)
      ⟨x1, t1, e1, p1⟩
  have n1 : x1 ≠ 45 := by omega
  clear p1
  have n0 : x0 ≠ 35 := by omega
  clear p0
  have hx0 : (if minus = true then 45 else x1) = x0 := by
    rw [e1] at e0
    cases minus <;> simp at e0 <;> simp [e0.1]
  have hx1 : (if zero = true then 48 else x2) = x1 := by
    rw [e2] at e1
    cases zero <;> simp at e1 <;> simp [e1.1]
  simp only [dirText, List.append_assoc] at h
  -- the stages
  obtain ⟨r0, f0, d0⟩ := flag_stage hash h e0 n0
  obtain ⟨_, f1, d1⟩ := flag_stage minus (by rw [d0]) e1 n1
  obtain ⟨_, f2, d2⟩ := flag_stage zero (by rw [d1]) e2 n2
  rw [hx0] at f1
  rw [hx1] at f2
  obtain ⟨c2, T2, h2, f3, d3⟩ := num_stage (decText W) d2 e3 nd3 (decText_isdigit W)
  rw [e2] at h2
  simp only [List.cons.injEq] at h2
  obtain ⟨rfl, rfl⟩ := h2
  obtain ⟨c3, T3, h3, f4, d4⟩ := prec_stage prec ap d3 e4 nd4 n46
  rw [e3] at h3
  simp only [List.cons.injEq] at h3
  obtain ⟨rfl, rfl⟩ := h3
  obtain ⟨c4, T4, i1, c1, h4, f5, f6, d5⟩ := lm_stage lm d4 hc104 hc108
  rw [e4] at h4
  simp only [List.cons.injEq] at h4
  obtain ⟨rfl, rfl⟩ := h4
  have hlen : i + 1 + (dirText hash minus zero W prec lm).length =
      i + 1 + (if hash = true then 1 else 0) + (if minus = true then 1 else 0) +
        (if zero = true then 1 else 0) + (decText W).length + prec.text.length +
        lm.text.length := by
    simp only [dirText, List.length_append]
    cases hash <;> cases minus <;> cases zero <;> simp <;> omega
  refine ⟨?_, by rw [hlen]; exact d5⟩
  unfold parse_directive
  simp only [bind, Except.bind, r0, f0, f1, f2, f3, f4, f5, f6, pure, Except.pure,
    foldl_numStep_decText, Nat.mod_eq_of_lt hW, hlen]

/-! ## Lemmas on the conversions -/

theorem shrink_w_spec (xl : Nat) :
    ∀ (fuel j w : Nat), shrink_w xl fuel j w = w - min fuel (xl - j) := by
  intro fuel
  induction fuel with
  | zero => intro j w; simp [shrink_w]
  | succ fuel ih =>
    intro j w
    rw [shrink_w]
    split
    · rw [ih]; omega
    · omega

theorem scpy_radix {σ : Type} (out : Nat → σ → σ) (p : σ) (x : Bool) :
    scpy out p [48, 120, 0] (if x then 2 else 0) =
      .ok ((if x then [48, 120] else []).length, emit out p (if x then [48, 120] else [])) := by
  cases x <;> simp [scpy, scpy_loop, rd, bind, Except.bind, emit, pure, Except.pure]

theorem emit_num_spec {σ : Type} (out : Nat → σ → σ) (pad minus w k : Nat) (x : Bool)
    (tmp body : List Nat) (n : Nat) (p : σ) (hpad : pad = 32 ∨ pad = 48)
    (hb : scpySpan tmp k = body) (hk : body.length = k) :
    emit_num out pad minus w (if x then 2 else 0) k tmp n p =
      .ok (n + (numText pad minus w x body).length, emit out p (numText pad minus w x body)) := by
  have hpad0 : pad ≠ 0 := by omega
  have hw : shrink_w (if x then 2 else 0) (if x then 2 else 0) 0 w = w - (if x then 2 else 0) := by
    rw [shrink_w_spec]; simp
  unfold emit_num
  simp only [hw, bind, Except.bind]
  rw [pad_loop_spec out pad hpad0 _ k _ _ 0 n p (by omega)]
  simp only []
  rw [scpy_radix]
  simp only []
  rw [pad_loop_spec out pad hpad0 _ k _ _ 0 _ _ (by omega)]
  simp only []
  rw [scpy_spec out _ tmp k (Or.inl (by rw [hb, hk])), hb]
  simp only []
  rw [pad_loop_spec out pad hpad0 _ k _ _ 0 _ _ (by omega)]
  subst hk
  have c1 : ((pad == 32 && minus == 0) = true) ↔ (pad = 32 ∧ minus = 0) := by simp
  have c2 : ((pad == 48) = true) ↔ pad = 48 := by simp
  have c3 : ((pad == 32 && minus != 0) = true) ↔ (pad = 32 ∧ minus ≠ 0) := by simp
  simp only [numText, emit_append, List.length_append, List.length_replicate, c1, c2, c3,
    Nat.sub_zero]
  rcases hpad with rfl | rfl
  · simp only [if_neg (show ¬ (32 = 48) by omega), List.replicate_zero, emit_nil]
    congr 2
    by_cases hm : minus = 0 <;> simp [hm] <;> omega
  · simp only [show ¬ (48 = 32 ∧ minus = 0) by omega, show ¬ (48 = 32 ∧ minus ≠ 0) by omega,
      if_false, if_true, List.replicate_zero, emit_nil]
    congr 2
    simp
    omega

theorem sint64_range (v : Int) : -2 ^ 63 ≤ sint 64 v ∧ sint 64 v < 2 ^ 63 := by
  simp only [sint]; norm_num; omega

theorem sint32_range (v : Int) : -2 ^ 31 ≤ sint 32 v ∧ sint 32 v < 2 ^ 31 := by
  simp only [sint]; norm_num; omega

theorem uint32_lt (v : Int) : uint 32 v < 2 ^ 32 := by
  simp only [uint]; omega

theorem uint64_lt (v : Int) : uint 64 v < 2 ^ 64 := by
  simp only [uint]; omega

theorem uint64_sint64 (v : Int) : uint 64 (sint 64 v) = uint 64 v := by
  simp only [sint, uint]; norm_num; omega

theorem uint32_sint32 (v : Int) : uint 32 (sint 32 v) = uint 32 v := by
  simp only [sint, uint]; norm_num; omega

theorem sint64_uint64 (v : Int) : sint 64 (uint 64 v : Int) = sint 64 v := by
  simp only [sint, uint]; norm_num; omega

theorem sint64_sint64 (v : Int) : sint 64 (sint 64 v) = sint 64 v := by
  simp only [sint]; norm_num

theorem uint64_uint32 (v : Int) : uint 64 (uint 32 v : Int) = uint 32 v := by
  simp only [uint]; omega

theorem digitChar_ne_zero (d : Nat) : digitChar d ≠ 0 := by
  unfold digitChar; split <;> omega

theorem lldText_ne_zero (base : Nat) (neg : Bool) (mag : Nat) :
    ∀ c ∈ lldText base neg mag, c ≠ 0 := by
  intro c hc
  simp only [lldText, List.mem_append] at hc
  rcases hc with hc | hc
  · cases neg
    · simp at hc
    · simp at hc; omega
  · split at hc
    · simp at hc; omega
    · simp only [List.mem_map, List.mem_reverse] at hc
      obtain ⟨d, _, rfl⟩ := hc
      exact digitChar_ne_zero d

theorem lldText_length_le (base : Nat) (hb : base = 10 ∨ base = 16) (neg : Bool) (mag : Nat)
    (hm : mag < 2 ^ 64) : (lldText base neg mag).length ≤ 21 := by
  have hb1 : 1 < base := by omega
  have hpow : (2 : Nat) ^ 64 ≤ base ^ 20 := by rcases hb with rfl | rfl <;> norm_num
  have := digits_length_le hb1 (lt_of_lt_of_le hm hpow)
  simp only [lldText, List.length_append]
  by_cases hm0 : mag = 0
  · cases neg <;> simp [hm0]
  · cases neg <;> simp [hm0] <;> omega

theorem scpySpan_of_ne_zero (t rest : List Nat) (ht : ∀ c ∈ t, c ≠ 0) :
    scpySpan (t ++ rest) t.length = t := by
  simp only [scpySpan, List.take_left']
  rw [List.takeWhile_eq_self_iff]
  intro c hc
  simpa using ht c hc

theorem convText_ne_zero (s h long : Bool) (v : Int) : ∀ c ∈ convText s h long v, c ≠ 0 := by
  unfold convText; split <;> exact lldText_ne_zero _ _ _

theorem convText_length_le (s h long : Bool) (v : Int) : (convText s h long v).length ≤ 21 := by
  have hb : (if h = true then 16 else 10) = 10 ∨ (if h = true then 16 else 10) = 16 := by
    cases h <;> simp
  unfold convText
  split
  · apply lldText_length_le _ hb
    cases long
    · have := sint32_range v; simp only [Bool.false_eq_true, if_false]; omega
    · have := sint64_range v; simp only [if_true]; omega
  · apply lldText_length_le _ hb
    cases long
    · have := uint32_lt v; simp only [Bool.false_eq_true, if_false]; omega
    · have := uint64_lt v; simp only [if_true]; omega

theorem m_lld_tmp (val : Int) (s h : Bool) (hlo : -2 ^ 63 ≤ val) (hhi : val < 2 ^ 63) :
    m_lld (List.replicate 40 0) val s h =
      .ok ((lldText (if h then 16 else 10) (s && decide (val < 0))
              (if (s && decide (val < 0)) = true then val.natAbs else uint 64 val)).length,
           lldText (if h then 16 else 10) (s && decide (val < 0))
              (if (s && decide (val < 0)) = true then val.natAbs else uint 64 val) ++
           List.replicate (40 - (lldText (if h then 16 else 10) (s && decide (val < 0))
              (if (s && decide (val < 0)) = true then val.natAbs else uint 64 val)).length) 0) := by
  rw [m_lld_eq _ val s h hlo hhi (by simp)]
  simp only [List.drop_replicate]

theorem conv_int_spec (is_long : Nat) (hl : is_long ≤ 2) (s h : Bool) (v : Int) (ap : List Arg) :
    conv_int is_long s h (List.replicate 40 0) (intArg (decide (is_long ≠ 0)) v :: ap) =
      .ok ((convText s h (decide (is_long ≠ 0)) v).length,
           convText s h (decide (is_long ≠ 0)) v ++
             List.replicate (40 - (convText s h (decide (is_long ≠ 0)) v).length) 0, ap) := by
  have key : ∀ (val : Int) (long : Bool), -2 ^ 63 ≤ val → val < 2 ^ 63 →
      (if s = true then val = sint (if long then 64 else 32) v
       else uint 64 val = uint (if long then 64 else 32) v) →
      m_lld (List.replicate 40 0) val s h =
        .ok ((convText s h long v).length,
          convText s h long v ++ List.replicate (40 - (convText s h long v).length) 0) := by
    intro val long hlo hhi hval
    rw [m_lld_tmp val s h hlo hhi]
    have : lldText (if h then 16 else 10) (s && decide (val < 0))
        (if (s && decide (val < 0)) = true then val.natAbs else uint 64 val) =
        convText s h long v := by
      unfold convText
      cases s
      · simp only [Bool.false_eq_true, if_false, Bool.false_and] at hval ⊢
        rw [hval]
      · simp only [if_true, Bool.true_and] at hval ⊢
        subst hval
        congr 1
        by_cases hn : sint (if long = true then 64 else 32) v < 0
        · simp [hn]
        · simp only [hn, decide_False, Bool.false_eq_true, if_false]
          simp only [uint]
          omega
    rw [this]
  unfold conv_int
  have h64 := sint64_range v
  have h32 := sint32_range v
  have hu32 := uint32_lt (sint 32 v)
  rcases (show is_long = 0 ∨ is_long = 1 ∨ is_long = 2 by omega) with rfl | rfl | rfl
  · simp only [intArg, va_int, bind, Except.bind, pure, Except.pure]
    simp only [show ¬ ((0 : Nat) = 2) by omega, show ¬ ((0 : Nat) = 1) by omega, if_false,
      ne_eq, not_true_eq_false, decide_False, Bool.false_eq_true]
    rw [key _ false (by split <;> omega) (by split <;> omega)
      (by cases s <;> simp [uint32_sint32, uint64_uint32])]
  · simp only [intArg, va_long, bind, Except.bind, pure, Except.pure]
    simp only [show ¬ ((1 : Nat) = 2) by omega, if_false, if_true, ne_eq,
      show ¬ ((1 : Nat) = 0) by omega, not_false_eq_true, decide_True]
    rw [key _ true (by split <;> (try simp only [sint64_uint64, sint64_sint64]) <;> omega)
      (by split <;> (try simp only [sint64_uint64, sint64_sint64]) <;> omega)
      (by cases s <;> simp [uint64_sint64, sint64_uint64, sint64_sint64])]
  · simp only [intArg, va_long, bind, Except.bind, pure, Except.pure]
    simp only [if_true, ne_eq, show ¬ ((2 : Nat) = 0) by omega, not_false_eq_true, decide_True]
    rw [key _ true h64.1 h64.2 (by cases s <;> simp [uint64_sint64])]

/-! ## Lemmas on the loop of `m_vxprintf` -/

theorem vx_loop_end {σ : Type} (dtoa : List Nat → Nat → Nat → Int → Res (Nat × List Nat))
    (fcall : FmtFn → σ → List Arg → Res (Nat × σ × List Arg)) (out : Nat → σ → σ)
    (fmt : List Nat) (fuel i n : Nat) (p : σ) (ap : List Arg) {T : List Nat}
    (h : fmt.drop i = 0 :: T) :
    vx_loop dtoa fcall out fmt (fuel + 1) i n p ap = .ok (n, p, ap) := by
  simp [vx_loop, rd_of_drop h, bind, Except.bind, pure, Except.pure]

theorem vx_loop_directive {σ : Type} (dtoa : List Nat → Nat → Nat → Int → Res (Nat × List Nat))
    (fcall : FmtFn → σ → List Arg → Res (Nat × σ × List Arg)) (out : Nat → σ → σ)
    (fmt : List Nat) (fuel i n : Nat) (p : σ) (ap : List Arg) {T : List Nat}
    (h : fmt.drop i = 37 :: T) {i1 n1 : Nat} {p1 : σ} {ap1 : List Arg}
    (hd : vx_directive dtoa fcall out fmt i n p ap = .ok (i1, n1, p1, ap1)) :
    vx_loop dtoa fcall out fmt (fuel + 1) i n p ap = vx_loop dtoa fcall out fmt fuel i1 n1 p1 ap1 := by
  simp [vx_loop, rd_of_drop h, hd, bind, Except.bind]

theorem vx_loop_literal {σ : Type} (dtoa : List Nat → Nat → Nat → Int → Res (Nat × List Nat))
    (fcall : FmtFn → σ → List Arg → Res (Nat × σ × List Arg)) (out : Nat → σ → σ)
    (fmt : List Nat) (fuel i n : Nat) (p : σ) (ap : List Arg) {c : Nat} {T : List Nat}
    (h : fmt.drop i = c :: T) (h0 : c ≠ 0) (h37 : c ≠ 37) :
    vx_loop dtoa fcall out fmt (fuel + 1) i n p ap =
      vx_loop dtoa fcall out fmt fuel (i + 1) (n + 1) (out c p) ap := by
  simp [vx_loop, rd_of_drop h, h0, h37, bind, Except.bind]

/-- A format text that is one directive: the run of `m_vxprintf` is the run of the directive. -/
theorem m_vxprintf_single (depth : Nat) (σ : Type) (out : Nat → σ → σ) (p : σ) (body : List Nat)
    (ap : List Arg) {n1 : Nat} {p1 : σ} {ap1 : List Arg}
    (hd : ∀ dtoa fcall, vx_directive dtoa fcall out (37 :: (body ++ [0])) 0 0 p ap =
      .ok (body.length + 1, n1, p1, ap1)) :
    m_vxprintf (depth + 1) σ out p (37 :: (body ++ [0])) ap = .ok (n1, p1, ap1) := by
  rw [m_vxprintf]
  have hlen : (37 :: (body ++ [0])).length + 1 = (body.length + 1) + 1 + 1 := by simp
  rw [hlen, vx_loop_directive _ _ out _ _ 0 0 p ap (T := body ++ [0]) rfl (hd _ _)]
  have hdrop : (37 :: (body ++ [0])).drop (body.length + 1) = [0] := by simp
  exact vx_loop_end _ _ out _ _ _ _ _ _ hdrop

theorem vx_directive_int {σ : Type} (dtoa : List Nat → Nat → Nat → Int → Res (Nat × List Nat))
    (fcall : FmtFn → σ → List Arg → Res (Nat × σ × List Arg)) (out : Nat → σ → σ)
    (fmt : List Nat) (i n : Nat) (p : σ) (hash minus zero : Bool) (W : Nat) (prec : Prec)
    (lm : LenMod) (c : Nat) (T : List Nat) (v : Int) (ap : List Arg)
    (h : fmt.drop (i + 1) = dirText hash minus zero W prec lm ++ c :: T) (hW : W < 2 ^ 64)
    (hc : c = 100 ∨ c = 117 ∨ c = 120 ∨ c = 88) :
    vx_directive dtoa fcall out fmt i n p
        (prec.args ++ intArg (decide (lm.is_long ≠ 0)) v :: ap) =
      .ok (i + 1 + (dirText hash minus zero W prec lm).length + 1,
        n + (numText (if zero then 48 else 32) (if minus then 1 else 0) W hash
              (convText (decide (c = 100)) (decide (c = 120 ∨ c = 88))
                (decide (lm.is_long ≠ 0)) v)).length,
        emit out p (numText (if zero then 48 else 32) (if minus then 1 else 0) W hash
              (convText (decide (c = 100)) (decide (c = 120 ∨ c = 88))
                (decide (lm.is_long ≠ 0)) v)), ap) := by
  have hcd : m_isdigit c = false := by
    rcases hc with rfl | rfl | rfl | rfl <;> rfl
  obtain ⟨hp, _⟩ := parse_directive_spec fmt i hash minus zero W prec lm c T
    (intArg (decide (lm.is_long ≠ 0)) v :: ap) h hW (by omega) (by omega) (by omega) (by omega)
    (by omega) hcd
  have hl : lm.is_long ≤ 2 := by cases lm <;> simp [LenMod.is_long]
  have hx : (if (if hash then 1 else 0) ≠ 0 then 2 else 0) = (if hash then 2 else 0) := by
    cases hash <;> rfl
  have hh : decide (c = 120 ∨ c = 88 ∨ c = 112) = decide (c = 120 ∨ c = 88) := by
    rcases hc with rfl | rfl | rfl | rfl <;> rfl
  unfold vx_directive
  simp only [hp, bind, Except.bind]
  simp only [show ¬ (c = 112) by omega, if_false, hx, hh,
    show ¬ (c = 103 ∨ c = 102) by omega, conv_int_spec _ hl]
  rw [if_pos (by omega)]
  rw [emit_num_spec out _ _ W _ hash _ _ n p (by cases zero <;> simp)
    (scpySpan_of_ne_zero _ _ (convText_ne_zero _ _ _ _)) rfl]
  simp only [pure, Except.pure]
  simp only [or_false]

theorem lldText_eq_std (base : Nat) (neg : Bool) (mag : Nat) :
    lldText base neg mag = (if neg then [45] else []) ++ stdDigits base false mag := by
  have : digitChar = stdDigit false := by
    funext d; simp [digitChar, stdDigit]
  simp [lldText, stdDigits, this]

/-- The text of a directive for an integer, as `m_vxprintf` emits it. -/
theorem m_vxprintf_int (depth : Nat) (σ : Type) (out : Nat → σ → σ) (p : σ)
    (hash minus zero : Bool) (W : Nat) (prec : Prec) (lm : LenMod) (c : Nat) (v : Int)
    (hW : W < 2 ^ 64) (hc : c = 100 ∨ c = 117 ∨ c = 120 ∨ c = 88) :
    m_vxprintf (depth + 1) σ out p (37 :: (dirText hash minus zero W prec lm ++ [c] ++ [0]))
        (prec.args ++ [intArg (decide (lm.is_long ≠ 0)) v]) =
      .ok ((numText (if zero then 48 else 32) (if minus then 1 else 0) W hash
              (convText (decide (c = 100)) (decide (c = 120 ∨ c = 88))
                (decide (lm.is_long ≠ 0)) v)).length,
        emit out p (numText (if zero then 48 else 32) (if minus then 1 else 0) W hash
              (convText (decide (c = 100)) (decide (c = 120 ∨ c = 88))
                (decide (lm.is_long ≠ 0)) v)), []) := by
  apply m_vxprintf_single
  intro dtoa fcall
  have := vx_directive_int dtoa fcall out
    (37 :: (dirText hash minus zero W prec lm ++ [c] ++ [0])) 0 0 p hash minus zero W prec lm c
    [0] v [] (by simp) hW hc
  simp only [Nat.zero_add] at this
  rw [this]
  simp [Nat.add_comm]
/-- The layout of `m_vxprintf` for a number is the layout of the C standard when the `0`
flag comes without `-` and without a sign, or when no padding is needed. -/
theorem numText_eq_std (hash minus zero : Bool) (W : Nat) (sign digits : List Nat)
    (hs : hash = true → sign = [])
    (hz : zero = true → (minus = true ∨ sign ≠ []) →
      W ≤ (if hash then [48, 120] else sign).length + digits.length) :
    numText (if zero then 48 else 32) (if minus then 1 else 0) W hash (sign ++ digits) =
      (if minus then
        (if hash then [48, 120] else sign) ++ digits ++
          List.replicate (W - ((if hash then [48, 120] else sign).length + digits.length)) 32
      else if zero then
        (if hash then [48, 120] else sign) ++
          List.replicate (W - ((if hash then [48, 120] else sign).length + digits.length)) 48 ++
          digits
      else
        List.replicate (W - ((if hash then [48, 120] else sign).length + digits.length)) 32 ++
          (if hash then [48, 120] else sign) ++ digits) := by
  cases hash
  · simp only [Bool.false_eq_true, if_false] at hz ⊢
    cases zero
    · cases minus
      · simp [numText, Nat.sub_sub, Nat.add_comm]
      · simp [numText, Nat.sub_sub, Nat.add_comm]
    · cases minus
      · by_cases hsg : sign = []
        · subst hsg; simp [numText]
        · have := hz rfl (Or.inr hsg)
          have h0 : W - (sign.length + digits.length) = 0 := by omega
          simp [numText, h0]
      · have := hz rfl (Or.inl rfl)
        have h0 : W - (sign.length + digits.length) = 0 := by omega
        simp [numText, h0]
  · have hsg := hs rfl
    subst hsg
    simp only [if_true, List.nil_append] at hz ⊢
    cases zero
    · cases minus
      · simp [numText, Nat.sub_sub]
      · simp [numText, Nat.sub_sub]
    · cases minus
      · simp [numText, Nat.sub_sub]
      · have := hz rfl (Or.inl rfl)
        simp only [List.length_cons, List.length_nil] at this
        have h0 : W - 2 - digits.length = 0 := by omega
        have h1 : W - (2 + digits.length) = 0 := by omega
        simp [numText, h0, h1]
/-! ## Lemmas on the buffer sink -/

theorem emit_out_buf_size (t : List Nat) :
    ∀ mb : m_buf, (emit m_out_buf mb t).size = mb.size ∧
      (emit m_out_buf mb t).len = mb.len + t.length ∧
      (emit m_out_buf mb t).buf.length = mb.buf.length := by
  induction t with
  | nil => intro mb; simp [emit]
  | cons b t ih =>
    intro mb
    rw [emit_cons]
    obtain ⟨h1, h2, h3⟩ := ih (m_out_buf b mb)
    rw [h1, h2, h3]
    refine ⟨rfl, ?_, ?_⟩
    · simp [m_out_buf]; omega
    · simp only [m_out_buf]; split <;> simp

theorem emit_out_buf_full (t : List Nat) :
    ∀ mb : m_buf, mb.size ≤ mb.len → (emit m_out_buf mb t).buf = mb.buf := by
  induction t with
  | nil => intro mb _; rfl
  | cons b t ih =>
    intro mb h
    rw [emit_cons, ih (m_out_buf b mb) (by simp [m_out_buf]; omega)]
    simp [m_out_buf, Nat.not_lt.mpr h]

theorem list_split (l : List Nat) (i : Nat) (h : i < l.length) :
    ∃ A x B, l = A ++ x :: B ∧ A.length = i :=
  ⟨l.take i, l[i], l.drop (i + 1), by simp, by simp; omega⟩

theorem drop_append_cons (A B : List Nat) (b k : Nat) :
    (A ++ b :: B).drop (A.length + 1 + k) = B.drop k := by
  rw [Nat.add_assoc, List.drop_append, Nat.add_comm 1 k, List.drop_succ_cons]

theorem emit_out_buf_buf (t : List Nat) :
    ∀ mb : m_buf, mb.len ≤ mb.size → mb.size ≤ mb.buf.length →
      (emit m_out_buf mb t).buf =
        mb.buf.take mb.len ++ (t.take (mb.size - mb.len) ++
          mb.buf.drop (mb.len + min t.length (mb.size - mb.len))) := by
  induction t with
  | nil => intro mb _ _; simp [emit]
  | cons b t ih =>
    intro mb h1 h2
    rw [emit_cons]
    by_cases hlt : mb.len < mb.size
    · obtain ⟨A, x, B, hAB, hA⟩ := list_split mb.buf mb.len (by omega)
      have hb : (m_out_buf b mb).buf = A ++ b :: B := by
        simp only [m_out_buf, if_pos hlt, hAB]; rw [← hA]; simp
      rw [ih (m_out_buf b mb) (by simp [m_out_buf]; omega)
        (by rw [hb]; rw [hAB] at h2; simpa [m_out_buf] using h2)]
      rw [hb, hAB]
      simp only [m_out_buf, List.length_cons]
      have e3 : mb.size - mb.len = (mb.size - (mb.len + 1)) + 1 := by omega
      rw [e3, List.take_succ_cons, ← hA]
      have e4 : A.length + (t.length + 1) ⊓ (mb.size - (A.length + 1) + 1) =
          A.length + 1 + t.length ⊓ (mb.size - (A.length + 1)) := by omega
      rw [e4, drop_append_cons, drop_append_cons]
      simp [List.take_append_eq_append_take]
    · have he : mb.len = mb.size := by omega
      rw [emit_out_buf_full t _ (by simp [m_out_buf]; omega)]
      simp [m_out_buf, hlt, he]

/-- The buffer that `m_vsnprintf` leaves for the output `t`. -/
theorem m_vsnprintf_of_vx (depth : Nat) (buf : List Nat) (len : Nat) (fmt : List Nat)
    (ap : List Arg) (t : List Nat) (ap1 : List Arg)
    (h : m_vxprintf depth m_buf m_out_buf { buf := buf, size := len, len := 0 } fmt ap =
      .ok (t.length, emit m_out_buf { buf := buf, size := len, len := 0 } t, ap1)) :
    m_vsnprintf (depth + 1) buf len fmt ap =
      .ok (t.length,
        if len > 0 then
          (emit m_out_buf { buf := buf, size := len, len := 0 } t).buf.set
            (if t.length < len then t.length else len - 1) 0
        else (emit m_out_buf { buf := buf, size := len, len := 0 } t).buf, ap1) := by
  rw [m_vsnprintf, h]
  rfl
theorem m_vsnprintf_fits (depth : Nat) (buf : List Nat) (cap : Nat) (fmt : List Nat)
    (ap : List Arg) (t : List Nat) (ap1 : List Arg)
    (h : m_vxprintf depth m_buf m_out_buf { buf := buf, size := cap, len := 0 } fmt ap =
      .ok (t.length, emit m_out_buf { buf := buf, size := cap, len := 0 } t, ap1))
    (ht : t.length < cap) (hcap : cap ≤ buf.length) :
    m_vsnprintf (depth + 1) buf cap fmt ap =
      .ok (t.length, t ++ 0 :: buf.drop (t.length + 1), ap1) := by
  rw [m_vsnprintf_of_vx depth buf cap fmt ap t ap1 h]
  rw [emit_out_buf_buf t _ (Nat.zero_le _) hcap]
  obtain ⟨A, x, B, hAB, hA⟩ := list_split buf t.length (by omega)
  simp only [if_pos (show cap > 0 by omega), if_pos ht, List.take_zero, List.nil_append,
    Nat.sub_zero, Nat.zero_add, Nat.min_eq_left (Nat.le_of_lt ht),
    List.take_of_length_le (Nat.le_of_lt ht)]
  rw [hAB, ← hA]
  have e1 : (A ++ x :: B).drop A.length = x :: B := by simp
  have e2 := drop_append_cons A B x 0
  simp only [Nat.add_zero, List.drop_zero] at e2
  rw [e1, e2, hA]
  simp

theorem convText_parts (hash : Bool) (lm : LenMod) (conv : Nat) (v : Int)
    (hconv : conv = 100 ∨ conv = 117 ∨ conv = 120)
    (hv : if conv = 100 then sint lm.bits v = sint (if lm.is_long ≠ 0 then 64 else 32) v
          else uint lm.bits v = uint (if lm.is_long ≠ 0 then 64 else 32) v)
    (hhash : hash = true → conv = 120 ∧ uint lm.bits v ≠ 0) :
    ∃ sign digits,
      convText (decide (conv = 100)) (decide (conv = 120 ∨ conv = 88))
        (decide (lm.is_long ≠ 0)) v = sign ++ digits ∧
      std_int_parts hash lm conv v = some (if hash then [48, 120] else sign, digits) ∧
      (hash = true → sign = []) ∧ (sign ≠ [] → conv = 100 ∧ sint lm.bits v < 0) := by
  have hbits : ∀ (a b : Nat), (if decide (lm.is_long ≠ 0) = true then a else b) =
      (if lm.is_long ≠ 0 then a else b) := by
    intro a b; by_cases h : lm.is_long ≠ 0 <;> simp [h]
  rcases hconv with rfl | rfl | rfl
  · have hh : hash = false := by
      cases hash
      · rfl
      · exact absurd (hhash rfl).1 (by omega)
    subst hh
    simp only [if_true] at hv
    refine ⟨if sint lm.bits v < 0 then [45] else [], stdDigits 10 false (sint lm.bits v).natAbs,
      ?_, ?_, by simp, ?_⟩
    · simp only [convText, decide_True, if_true, lldText_eq_std, hbits, ← hv]
      simp
    · simp [std_int_parts]
    · intro h; split at h
      · exact ⟨rfl, by assumption⟩
      · exact absurd rfl h
  · have hh : hash = false := by
      cases hash
      · rfl
      · exact absurd (hhash rfl).1 (by omega)
    subst hh
    simp only [show ¬ ((117 : Nat) = 100) by omega, if_false] at hv
    refine ⟨[], stdDigits 10 false (uint lm.bits v), ?_, ?_, by simp, by simp⟩
    · simp only [convText, lldText_eq_std, hbits, ← hv]
      simp
    · simp [std_int_parts]
  · simp only [show ¬ ((120 : Nat) = 100) by omega, if_false] at hv
    refine ⟨[], stdDigits 16 false (uint lm.bits v), ?_, ?_, by simp, by simp⟩
    · simp only [convText, lldText_eq_std, hbits, ← hv]
      simp
    · cases hash
      · simp [std_int_parts]
      · have := (hhash rfl).2
        simp [std_int_parts, this]

/-- C1 (amended): for the conversions `d`, `u` and `x` with the flags `#`, `-`, `0` in this
order, a decimal width below `2 ^ 31` and a length modifier, and for every argument value
that the type named by the length modifier can hold, `m_vxprintf` emits the text that the C
standard defines and returns its length, and `m_vsnprintf` stores that text and a NUL in a
buffer that is large enough, provided that `#` comes only with `x` and a non-zero value, and
that the `0` flag comes together with `-` or with a negative value only when the width asks
for no padding. -/
theorem C1_int_matches_printf (depth : Nat) (σ : Type) (out : Nat → σ → σ) (p : σ)
    (buf : List Nat) (cap : Nat) (hash minus zero : Bool) (W : Nat) (lm : LenMod) (conv : Nat)
    (v : Int) (hconv : conv = 100 ∨ conv = 117 ∨ conv = 120) (hW : W < 2 ^ 31)
    (hv : if conv = 100 then sint lm.bits v = sint (if lm.is_long ≠ 0 then 64 else 32) v
          else uint lm.bits v = uint (if lm.is_long ≠ 0 then 64 else 32) v)
    (hhash : hash = true → conv = 120 ∧ uint lm.bits v ≠ 0)
    (hzero : zero = true → (minus = true ∨ (conv = 100 ∧ sint lm.bits v < 0)) →
      W ≤ std_int_width hash lm conv v) :
    ∃ t, std_printf_int hash minus zero W lm conv v = some t ∧
      m_vxprintf (depth + 1) σ out p
          (37 :: (dirText hash minus zero W .unset lm ++ [conv] ++ [0]))
          [intArg (decide (lm.is_long ≠ 0)) v] = .ok (t.length, emit out p t, []) ∧
      (t.length < cap → cap ≤ buf.length →
        m_vsnprintf (depth + 2) buf cap
          (37 :: (dirText hash minus zero W .unset lm ++ [conv] ++ [0]))
          [intArg (decide (lm.is_long ≠ 0)) v] =
          .ok (t.length, t ++ 0 :: buf.drop (t.length + 1), [])) := by
  obtain ⟨sign, digits, hbody, hparts, hs, hsign⟩ := convText_parts hash lm conv v hconv hv hhash
  have hwidth : std_int_width hash lm conv v =
      (if hash then [48, 120] else sign).length + digits.length := by
    simp [std_int_width, hparts]
  have hlay := numText_eq_std hash minus zero W sign digits hs
    (by
      intro hz hms
      rw [← hwidth]
      apply hzero hz
      rcases hms with h | h
      · exact Or.inl h
      · exact Or.inr (hsign h))
  have hrun : ∀ (τ : Type) (o : Nat → τ → τ) (q : τ),
      m_vxprintf (depth + 1) τ o q
          (37 :: (dirText hash minus zero W .unset lm ++ [conv] ++ [0]))
          [intArg (decide (lm.is_long ≠ 0)) v] =
        .ok ((numText (if zero then 48 else 32) (if minus then 1 else 0) W hash
                (sign ++ digits)).length,
          emit o q (numText (if zero then 48 else 32) (if minus then 1 else 0) W hash
                (sign ++ digits)), []) := by
    intro τ o q
    have := m_vxprintf_int depth τ o q hash minus zero W .unset lm conv v
      (lt_trans hW (by norm_num)) (by omega)
    simp only [Prec.args, List.nil_append, hbody] at this
    exact this
  refine ⟨_, ?_, hrun σ out p, ?_⟩
  · simp only [std_printf_int, hparts, Option.map_some']
    rw [hlay]
  · intro ht hcap
    exact m_vsnprintf_fits (depth + 1) buf cap _ _ _ [] (hrun m_buf m_out_buf _) ht hcap

/-- C1, as stated, fails: `%X` prints lower case letters, `%#x` gives zero a prefix, `%05d`
puts the zeros in front of the minus sign, and `%-05d` pads with zeros on the left. -/
theorem C1_counterexample :
    (std_printf_int false false false 0 .none 88 255 = some [70, 70] ∧
      m_vxprintf 1 (List Nat) traceOut [] [37, 88, 0] [.int 255] = .ok (2, [102, 102], [])) ∧
    (std_printf_int true false false 0 .none 120 0 = some [48] ∧
      m_vxprintf 1 (List Nat) traceOut [] [37, 35, 120, 0] [.int 0] =
        .ok (3, [48, 120, 48], [])) ∧
    (std_printf_int false false true 5 .none 100 (-42) = some [45, 48, 48, 52, 50] ∧
      m_vxprintf 1 (List Nat) traceOut [] [37, 48, 53, 100, 0] [.int (-42)] =
        .ok (5, [48, 48, 45, 52, 50], [])) ∧
    (std_printf_int false true true 5 .none 100 42 = some [52, 50, 32, 32, 32] ∧
      m_vxprintf 1 (List Nat) traceOut [] [37, 45, 48, 53, 100, 0] [.int 42] =
        .ok (5, [48, 48, 48, 52, 50], [])) := by
  have h1 : uint 32 255 = 255 := by decide
  have h2 : uint 32 0 = 0 := by decide
  have h3 : sint 32 (-42) = -42 := by decide
  have h4 : sint 32 42 = 42 := by decide
  refine ⟨⟨?_, by decide!⟩, ⟨?_, by decide!⟩, ⟨?_, by decide!⟩, ⟨?_, by decide!⟩⟩
  · simp [std_printf_int, std_int_parts, stdDigits, stdDigit, h1, LenMod.bits]
  · simp [std_printf_int, std_int_parts, stdDigits, stdDigit, h2, LenMod.bits]
  · simp [std_printf_int, std_int_parts, stdDigits, stdDigit, h3, LenMod.bits, List.replicate]
  · simp [std_printf_int, std_int_parts, stdDigits, stdDigit, h4, LenMod.bits, List.replicate]

/-- C1 (amended) at `"%#06x"` with the argument 15, which gives `0x000f`. -/
theorem C1_witness :
    ∃ t, std_printf_int true false true 6 .none 120 15 = some t ∧
      m_vxprintf 1 (List Nat) traceOut []
          (37 :: (dirText true false true 6 .unset .none ++ [120] ++ [0]))
          [intArg (decide (LenMod.none.is_long ≠ 0)) 15] = .ok (t.length, emit traceOut [] t, []) ∧
      (t.length < 10 → 10 ≤ (List.replicate 10 1).length →
        m_vsnprintf 2 (List.replicate 10 1) 10
          (37 :: (dirText true false true 6 .unset .none ++ [120] ++ [0]))
          [intArg (decide (LenMod.none.is_long ≠ 0)) 15] =
          .ok (t.length, t ++ 0 :: (List.replicate 10 1).drop (t.length + 1), [])) :=
  C1_int_matches_printf 0 (List Nat) traceOut [] (List.replicate 10 1) 10 true false true 6 .none
    120 15 (by decide) (by decide) (by decide) (by decide) (by intro _ h; simp at h)
theorem lldDigits_props (base mag : Nat) (hb : base = 10 ∨ base = 16) :
    let digits := if mag = 0 then [48] else (Nat.digits base mag).reverse.map digitChar
    (∀ c ∈ digits, (48 ≤ c ∧ c ≤ 57) ∨ (base = 16 ∧ 97 ≤ c ∧ c ≤ 102)) ∧
    digits ≠ [] ∧ (digits.head? = some 48 → digits = [48]) ∧ parseNat base digits = mag := by
  have hb1 : 1 < base := by omega
  intro digits
  by_cases hm : mag = 0
  · subst hm
    simp [digits, parseNat, digitVal]
  · have hne : Nat.digits base mag ≠ [] := Nat.digits_ne_nil_iff_ne_zero.mpr hm
    have hd : digits = (Nat.digits base mag).reverse.map digitChar := by simp [digits, hm]
    rw [hd]
    refine ⟨?_, by simpa using hne, ?_, parseNat_digits base mag hb1 (by omega)⟩
    · intro c hc
      simp only [List.mem_map, List.mem_reverse] at hc
      obtain ⟨d, hdm, rfl⟩ := hc
      have := Nat.digits_lt_base hb1 hdm
      unfold digitChar
      split
      · left; omega
      · right; omega
    · intro hh
      exfalso
      have hlast := Nat.getLast_digit_ne_zero base hm
      have hlt := Nat.digits_lt_base hb1 (List.getLast_mem hne)
      obtain ⟨l, hl⟩ : ∃ l, Nat.digits base mag = l ++ [(Nat.digits base mag).getLast hne] :=
        ⟨_, (List.dropLast_append_getLast hne).symm⟩
      rw [hl] at hh
      simp only [List.reverse_append, List.reverse_cons, List.reverse_nil, List.nil_append,
        List.singleton_append, List.map_cons, List.head?_cons, Option.some.injEq] at hh
      unfold digitChar at hh
      split at hh <;> omega

/-- C4: for every 64-bit value `val` and both flags, `m_lld` writes at the start of the buffer
a minus sign exactly when `is_signed` and `val < 0`, followed by the digits of the magnitude
(of `val` read as unsigned when not signed), most significant first: decimal digits, or
lower case hexadecimal digits when `is_hex`, with no leading zero, the single digit `0` for
zero; the rest of the buffer is untouched, the returned length is the number of bytes
written, and the digits read back in the base give the magnitude, hence with the sign the
value. -/
theorem C4_m_lld_canonical (buf : List Nat) (val : Int) (is_signed is_hex : Bool)
    (hlo : -2 ^ 63 ≤ val) (hhi : val < 2 ^ 63) (hbuf : 21 ≤ buf.length) :
    ∃ sign digits : List Nat,
      m_lld buf val is_signed is_hex =
        .ok ((sign ++ digits).length, sign ++ digits ++ buf.drop (sign ++ digits).length) ∧
      sign = (if is_signed = true ∧ val < 0 then [45] else []) ∧
      (∀ c ∈ digits, (48 ≤ c ∧ c ≤ 57) ∨ (is_hex = true ∧ 97 ≤ c ∧ c ≤ 102)) ∧
      digits ≠ [] ∧ (digits.head? = some 48 → digits = [48]) ∧ (val = 0 → digits = [48]) ∧
      parseNat (if is_hex then 16 else 10) digits =
        (if is_signed = true ∧ val < 0 then val.natAbs else uint 64 val) ∧
      (if is_signed = true ∧ val < 0 then -(parseNat (if is_hex then 16 else 10) digits : Int)
        else (parseNat (if is_hex then 16 else 10) digits : Int)) =
        (if is_signed = true then val else (uint 64 val : Int)) := by
  have hb : (if is_hex = true then 16 else 10) = 10 ∨ (if is_hex = true then 16 else 10) = 16 := by
    cases is_hex <;> simp
  have hneg : ((is_signed && decide (val < 0)) = true) ↔ (is_signed = true ∧ val < 0) := by simp
  obtain ⟨h1, h2, h3, h4⟩ := lldDigits_props (if is_hex then 16 else 10)
    (if (is_signed && decide (val < 0)) = true then val.natAbs else uint 64 val) hb
  refine ⟨if is_signed = true ∧ val < 0 then [45] else [], _, ?_, rfl, ?_, h2, h3, ?_, ?_, ?_⟩
  · rw [m_lld_eq buf val is_signed is_hex hlo hhi hbuf]
    simp only [lldText, hneg]
  · intro c hc
    rcases h1 c hc with h | h
    · exact Or.inl h
    · refine Or.inr ⟨?_, h.2⟩
      cases is_hex
      · simp at h
      · rfl
  · intro hv
    subst hv
    simp [uint]
  · rw [h4]; simp only [hneg]
  · rw [h4]; simp only [hneg]
    by_cases hc : is_signed = true ∧ val < 0
    · simp only [hc, and_self, if_true]; omega
    · simp only [hc, if_false]
      by_cases hs : is_signed = true
      · simp only [hs, if_true]
        have : ¬ val < 0 := fun h => hc ⟨hs, h⟩
        simp only [uint]; omega
      · simp [hs]

/-- C4 at `-1234`, signed, decimal, in a buffer of 40 bytes. -/
theorem C4_witness :
    ∃ sign digits : List Nat,
      m_lld (List.replicate 40 0) (-1234) true false =
        .ok ((sign ++ digits).length,
          sign ++ digits ++ (List.replicate 40 0).drop (sign ++ digits).length) ∧
      sign = (if true = true ∧ (-1234 : Int) < 0 then [45] else []) ∧
      (∀ c ∈ digits, (48 ≤ c ∧ c ≤ 57) ∨ (false = true ∧ 97 ≤ c ∧ c ≤ 102)) ∧
      digits ≠ [] ∧ (digits.head? = some 48 → digits = [48]) ∧
      ((-1234 : Int) = 0 → digits = [48]) ∧
      parseNat (if false then 16 else 10) digits =
        (if true = true ∧ (-1234 : Int) < 0 then (-1234 : Int).natAbs else uint 64 (-1234)) ∧
      (if true = true ∧ (-1234 : Int) < 0 then -(parseNat (if false then 16 else 10) digits : Int)
        else (parseNat (if false then 16 else 10) digits : Int)) =
        (if true = true then (-1234 : Int) else (uint 64 (-1234) : Int)) :=
  C4_m_lld_canonical (List.replicate 40 0) (-1234) true false (by decide) (by decide) (by decide)

/-! ## Lemmas on the conversion `s` -/

theorem conv_s_spec {σ : Type} (out : Nat → σ → σ) (pad minus w pr n : Nat) (param : σ)
    (p : Option (List Nat)) (ap : List Arg) (pr1 : Nat) (hpad : pad ≠ 0)
    (hpr : (if pr = pr_unset then
        match p with
        | none => pure 0
        | some m => m_strlen m
      else pure pr : Res Nat) = .ok pr1)
    (hspan : (scpySpan (deref p) pr1).length = pr1 ∨
      (scpySpan (deref p) pr1).length < (deref p).length) :
    conv_s out pad minus w pr n param (.ptr p :: ap) =
      .ok (n + (strText pad minus w pr1 (deref p)).length,
        emit out param (strText pad minus w pr1 (deref p)), ap) := by
  unfold conv_s
  simp only [va_ptr, bind, Except.bind, hpr]
  rw [pad_loop_spec out pad hpad _ pr1 w _ 0 n param (by omega)]
  simp only []
  rw [scpy_spec out _ (deref p) pr1 hspan]
  simp only []
  rw [pad_loop_spec out pad hpad _ pr1 w _ 0 _ _ (by omega)]
  have c1 : ((minus == 0) = true) ↔ minus = 0 := by simp
  have c2 : ((minus != 0) = true) ↔ minus ≠ 0 := by simp
  simp only [strText, emit_append, List.length_append, List.length_replicate, c1, c2,
    Nat.sub_zero, pure, Except.pure, Nat.add_assoc]

theorem vx_directive_s {σ : Type} (dtoa : List Nat → Nat → Nat → Int → Res (Nat × List Nat))
    (fcall : FmtFn → σ → List Arg → Res (Nat × σ × List Arg)) (out : Nat → σ → σ)
    (fmt : List Nat) (i n : Nat) (param : σ) (hash minus zero : Bool) (W : Nat) (prec : Prec)
    (lm : LenMod) (T : List Nat) (p : Option (List Nat)) (ap : List Arg) (pr1 : Nat)
    (h : fmt.drop (i + 1) = dirText hash minus zero W prec lm ++ 115 :: T) (hW : W < 2 ^ 64)
    (hpr : (if prec.pr = pr_unset then
        match p with
        | none => pure 0
        | some m => m_strlen m
      else pure prec.pr : Res Nat) = .ok pr1)
    (hspan : (scpySpan (deref p) pr1).length = pr1 ∨
      (scpySpan (deref p) pr1).length < (deref p).length) :
    vx_directive dtoa fcall out fmt i n param (prec.args ++ .ptr p :: ap) =
      .ok (i + 1 + (dirText hash minus zero W prec lm).length + 1,
        n + (strText (if zero then 48 else 32) (if minus then 1 else 0) W pr1 (deref p)).length,
        emit out param (strText (if zero then 48 else 32) (if minus then 1 else 0) W pr1 (deref p)),
        ap) := by
  obtain ⟨hp, _⟩ := parse_directive_spec fmt i hash minus zero W prec lm 115 T
    (.ptr p :: ap) h hW (by omega) (by omega) (by omega) (by omega) (by omega) rfl
  unfold vx_directive
  simp only [hp, bind, Except.bind]
  simp only [Nat.reduceEqDiff, or_self, if_false, if_true]
  rw [conv_s_spec out _ _ W prec.pr n param p ap pr1 (by cases zero <;> simp) hpr hspan]
  simp only [pure, Except.pure]

/-- The text of a directive with the conversion `s`, as `m_vxprintf` emits it. -/
theorem m_vxprintf_s (depth : Nat) (σ : Type) (out : Nat → σ → σ) (q : σ)
    (hash minus zero : Bool) (W : Nat) (prec : Prec) (lm : LenMod) (p : Option (List Nat))
    (pr1 : Nat) (hW : W < 2 ^ 64)
    (hpr : (if prec.pr = pr_unset then
        match p with
        | none => pure 0
        | some m => m_strlen m
      else pure prec.pr : Res Nat) = .ok pr1)
    (hspan : (scpySpan (deref p) pr1).length = pr1 ∨
      (scpySpan (deref p) pr1).length < (deref p).length) :
    m_vxprintf (depth + 1) σ out q (37 :: (dirText hash minus zero W prec lm ++ [115] ++ [0]))
        (prec.args ++ [.ptr p]) =
      .ok ((strText (if zero then 48 else 32) (if minus then 1 else 0) W pr1 (deref p)).length,
        emit out q (strText (if zero then 48 else 32) (if minus then 1 else 0) W pr1 (deref p)),
        []) := by
  apply m_vxprintf_single
  intro dtoa fcall
  have := vx_directive_s dtoa fcall out
    (37 :: (dirText hash minus zero W prec lm ++ [115] ++ [0])) 0 0 q hash minus zero W prec lm
    [0] p [] pr1 (by simp) hW hpr hspan
  simp only [Nat.zero_add] at this
  rw [this]
  simp [Nat.add_comm]

theorem scpySpan_cstr (s rest : List Nat) (hs : ∀ b ∈ s, b ≠ 0) (pr : Nat) :
    scpySpan (s ++ 0 :: rest) pr = s.take pr := by
  unfold scpySpan
  by_cases h : pr ≤ s.length
  · rw [List.take_append_of_le_length h, List.takeWhile_eq_self_iff]
    intro c hc
    simpa using hs c (List.mem_of_mem_take hc)
  · have h1 : s.length ≤ pr := by omega
    obtain ⟨k, hk⟩ : ∃ k, pr = s.length + (k + 1) := ⟨pr - s.length - 1, by omega⟩
    rw [List.take_of_length_le h1, hk, List.take_append, List.take_succ_cons,
      List.takeWhile_append_of_pos (by intro c hc; simpa using hs c hc)]
    simp
theorem prec_pr_explicit (prec : Prec) (p : Nat) (hp : p < 2 ^ 31)
    (h : prec = Prec.digits p ∨ prec = Prec.star (p : Int)) :
    prec.pr = p ∧ prec.pr ≠ pr_unset := by
  have h1 : prec.pr = p := by
    rcases h with rfl | rfl
    · simp only [Prec.pr]; omega
    · simp only [Prec.pr, sint, uint]; norm_num; omega
  refine ⟨h1, ?_⟩
  rw [h1]; simp only [pr_unset]; omega

theorem strText_plain (pr : Nat) (mem : List Nat) : strText 32 0 0 pr mem = scpySpan mem pr := by
  simp [strText]

/-- C8: for every NUL-terminated string `s` (without or with bytes behind its terminator)
and every explicit precision `p` in the range of an `int`, written as digits or passed for
`*`, the directive `%s` without a width emits the first `min p (length s)` bytes of `s` and
returns that count, without reading past the terminator; with the precision unset it emits
all of `s`; with a null pointer and the precision unset it emits nothing. -/
theorem C8_string_precision (depth : Nat) (σ : Type) (out : Nat → σ → σ) (q : σ)
    (s rest : List Nat) (p : Nat) (hs : ∀ b ∈ s, b ≠ 0) (hp : p < 2 ^ 31) :
    (∀ prec : Prec, prec = Prec.digits p ∨ prec = Prec.star (p : Int) →
      m_vxprintf (depth + 1) σ out q
          (37 :: (dirText false false false 0 prec .none ++ [115] ++ [0]))
          (prec.args ++ [.ptr (some (s ++ 0 :: rest))]) =
        .ok (min p s.length, emit out q (s.take p), [])) ∧
    m_vxprintf (depth + 1) σ out q [37, 115, 0] [.ptr (some (s ++ 0 :: rest))] =
      .ok (s.length, emit out q s, []) ∧
    m_vxprintf (depth + 1) σ out q [37, 115, 0] [.ptr none] = .ok (0, q, []) := by
  refine ⟨?_, ?_, ?_⟩
  · intro prec hprec
    obtain ⟨h1, h2⟩ := prec_pr_explicit prec p hp hprec
    have := m_vxprintf_s depth σ out q false false false 0 prec .none
      (some (s ++ 0 :: rest)) p (by norm_num) (by rw [if_neg h2, h1]; rfl)
      (by
        simp only [deref, Option.getD_some, scpySpan_cstr s rest hs, List.length_take,
          List.length_append, List.length_cons]
        omega)
    rw [this]
    simp only [Bool.false_eq_true, if_false, strText_plain, deref, Option.getD_some,
      scpySpan_cstr s rest hs, List.length_take]
  · have := m_vxprintf_s depth σ out q false false false 0 .unset .none
      (some (s ++ 0 :: rest)) s.length (by norm_num)
      (by simp only [Prec.pr, if_true]; exact m_strlen_spec s rest hs)
      (by
        simp only [deref, Option.getD_some, scpySpan_cstr s rest hs, List.length_take,
          List.length_append, List.length_cons]
        omega)
    simp only [dirText, Bool.false_eq_true, if_false, decText_zero, Prec.text, LenMod.text,
      List.nil_append, List.append_nil, Prec.args, List.singleton_append, strText_plain, deref,
      Option.getD_some, scpySpan_cstr s rest hs, List.take_length] at this
    exact this
  · have := m_vxprintf_s depth σ out q false false false 0 .unset .none none 0 (by norm_num)
      (by simp only [Prec.pr, if_true]; rfl) (by simp [scpySpan])
    simp only [dirText, Bool.false_eq_true, if_false, decText_zero, Prec.text, LenMod.text,
      List.nil_append, List.append_nil, Prec.args, List.singleton_append, strText_plain, deref,
      Option.getD_none] at this
    simpa [scpySpan, emit] using this

/-- C8 at the string `"ab"` and the precision 1, as in the test `"%.*s", 1, "ab"`. -/
theorem C8_witness :
    (∀ prec : Prec, prec = Prec.digits 1 ∨ prec = Prec.star ((1 : Nat) : Int) →
      m_vxprintf 1 (List Nat) traceOut []
          (37 :: (dirText false false false 0 prec .none ++ [115] ++ [0]))
          (prec.args ++ [.ptr (some ([97, 98] ++ 0 :: []))]) =
        .ok (min 1 [97, 98].length, emit traceOut [] ([97, 98].take 1), [])) ∧
    m_vxprintf 1 (List Nat) traceOut [] [37, 115, 0] [.ptr (some ([97, 98] ++ 0 :: []))] =
      .ok ([97, 98].length, emit traceOut [] [97, 98], []) ∧
    m_vxprintf 1 (List Nat) traceOut [] [37, 115, 0] [.ptr none] = .ok (0, [], []) :=
  C8_string_precision 0 (List Nat) traceOut [] [97, 98] [] 1 (by decide) (by decide)

/-- C9, as stated, fails: the precision 3 on the bytes `'a'`, 0, `'b'` copies one byte and
reports 1, for `scpy` stops at the zero byte. -/
theorem C9_counterexample :
    m_vxprintf 1 (List Nat) traceOut [] [37, 46, 42, 115, 0] [.int 3, .ptr (some [97, 0, 98])] =
      .ok (1, [97], []) := by decide!

/-- C9 (amended): for every explicit precision `p` in the range of an `int` and every byte
buffer of at least `p` bytes, the directive `%.*s` copies to the sink the bytes in front of
the first zero byte among the first `p` bytes of the buffer, all `p` of them when none is
zero, and reports their number. -/
theorem C9_precision_span (depth : Nat) (σ : Type) (out : Nat → σ → σ) (q : σ)
    (mem : List Nat) (p : Nat) (hp : p < 2 ^ 31) (hmem : p ≤ mem.length) :
    m_vxprintf (depth + 1) σ out q [37, 46, 42, 115, 0] [.int p, .ptr (some mem)] =
      .ok (((mem.take p).takeWhile (· != 0)).length,
        emit out q ((mem.take p).takeWhile (· != 0)), []) ∧
    ((∀ b ∈ mem.take p, b ≠ 0) → (mem.take p).takeWhile (· != 0) = mem.take p) := by
  obtain ⟨h1, h2⟩ := prec_pr_explicit (.star p) p hp (Or.inr rfl)
  refine ⟨?_, ?_⟩
  · have hle : (scpySpan mem p).length ≤ p := by
      unfold scpySpan
      exact le_trans (List.takeWhile_sublist _).length_le (List.length_take_le _ _)
    have := m_vxprintf_s depth σ out q false false false 0 (.star p) .none (some mem) p
      (by norm_num) (by rw [if_neg h2, h1]; rfl)
      (by simp only [deref, Option.getD_some]; omega)
    simp only [dirText, Bool.false_eq_true, if_false, decText_zero, Prec.text, LenMod.text,
      List.nil_append, List.append_nil, Prec.args, List.singleton_append, strText_plain, deref,
      Option.getD_some, List.cons_append] at this
    exact this
  · intro h
    rw [List.takeWhile_eq_self_iff]
    intro c hc
    simpa using h c hc

/-- C9 (amended) at the precision 2 and the bytes `'a'`, `'b'`, `'c'`. -/
theorem C9_witness :
    m_vxprintf 1 (List Nat) traceOut [] [37, 46, 42, 115, 0]
        [.int ((2 : Nat) : Int), .ptr (some [97, 98, 99])] =
      .ok ((([97, 98, 99].take 2).takeWhile (· != 0)).length,
        emit traceOut [] (([97, 98, 99].take 2).takeWhile (· != 0)), []) ∧
    ((∀ b ∈ [97, 98, 99].take 2, b ≠ 0) →
      ([97, 98, 99].take 2).takeWhile (· != 0) = [97, 98, 99].take 2) :=
  C9_precision_span 0 (List Nat) traceOut [] [97, 98, 99] 2 (by decide) (by decide)

/-- C10, at the failing input: `"%5.4s"` of the string `"a"` emits a single space and `a`,
two bytes, where the claim and `printf` have five. -/
theorem C10_failing_input :
    m_vxprintf 1 (List Nat) traceOut [] [37, 53, 46, 52, 115, 0] [.ptr (some [97, 0])] =
      .ok (2, [32, 97], []) := by decide!

/-! ## The bytes emitted do not depend on the sink

Every function that writes to a sink is, for some list of bytes that depends on its other
arguments only, the function that passes these bytes to the sink one after the other and
counts them. -/

theorem scpy_loop_uniform (buf : List Nat) :
    ∀ (rest i : Nat), ∃ r : Res (List Nat), ∀ (σ : Type) (o : Nat → σ → σ) (p : σ),
      scpy_loop o buf rest i p = r.map (fun t => (i + t.length, emit o p t)) := by
  intro rest
  induction rest with
  | zero =>
    intro i
    exact ⟨.ok [], fun σ o p => by simp [scpy_loop, Except.map, emit]⟩
  | succ rest ih =>
    intro i
    obtain ⟨r1, h1⟩ := ih (i + 1)
    cases hrd : rd buf i with
    | error e =>
      exact ⟨.error e, fun σ o p => by simp [scpy_loop, hrd, bind, Except.bind, Except.map]⟩
    | ok c =>
      by_cases hc : c = 0
      · exact ⟨.ok [], fun σ o p => by
          simp [scpy_loop, hrd, hc, bind, Except.bind, Except.map, emit, pure, Except.pure]⟩
      · refine ⟨r1.map (fun t => c :: t), fun σ o p => ?_⟩
        simp only [scpy_loop, hrd, bind, Except.bind, hc, ne_eq, not_false_eq_true, if_true, h1]
        cases r1 with
        | error e => rfl
        | ok t =>
          simp only [Except.map, List.length_cons, emit_cons]
          congr 2
          omega

theorem scpy_uniform (buf : List Nat) (len : Nat) :
    ∃ r : Res (List Nat), ∀ (σ : Type) (o : Nat → σ → σ) (p : σ),
      scpy o p buf len = r.map (fun t => (t.length, emit o p t)) := by
  obtain ⟨r, h⟩ := scpy_loop_uniform buf len 0
  exact ⟨r, fun σ o p => by rw [scpy, h]; cases r <;> simp [Except.map]⟩

theorem emit_num_uniform (pad minus w xl k : Nat) (tmp : List Nat) (hpad : pad = 32 ∨ pad = 48) :
    ∃ r : Res (List Nat), ∀ (σ : Type) (out : Nat → σ → σ) (p : σ) (n : Nat),
      emit_num out pad minus w xl k tmp n p = r.map (fun t => (n + t.length, emit out p t)) := by
  have hpad0 : pad ≠ 0 := by omega
  obtain ⟨r1, h1⟩ := scpy_uniform [48, 120, 0] xl
  obtain ⟨r2, h2⟩ := scpy_uniform tmp k
  refine ⟨r1.bind (fun t1 => r2.map (fun t2 =>
    List.replicate (if (pad == 32 && minus == 0) = true then shrink_w xl xl 0 w - k - 0 else 0) pad ++
      (t1 ++ (List.replicate (if (pad == 48) = true then shrink_w xl xl 0 w - k - 0 else 0) pad ++
        (t2 ++ List.replicate
          (if (pad == 32 && minus != 0) = true then shrink_w xl xl 0 w - k - 0 else 0) pad))))),
    fun σ out p n => ?_⟩
  unfold emit_num
  simp only [bind, Except.bind]
  rw [pad_loop_spec out pad hpad0 _ k _ _ 0 n p (by omega)]
  simp only [h1]
  cases r1 with
  | error e => rfl
  | ok t1 =>
    simp only [Except.map]
    rw [pad_loop_spec out pad hpad0 _ k _ _ 0 _ _ (by omega)]
    simp only [h2]
    cases r2 with
    | error e => rfl
    | ok t2 =>
      simp only [Except.map]
      rw [pad_loop_spec out pad hpad0 _ k _ _ 0 _ _ (by omega)]
      simp only [emit_append, List.length_append, List.length_replicate, Nat.add_assoc]

theorem conv_s_uniform (pad minus w pr : Nat) (ap : List Arg) (hpad : pad = 32 ∨ pad = 48) :
    ∃ r : Res (List Nat × List Arg), ∀ (σ : Type) (out : Nat → σ → σ) (p : σ) (n : Nat),
      conv_s out pad minus w pr n p ap =
        r.map (fun x => (n + x.1.length, emit out p x.1, x.2)) := by
  have hpad0 : pad ≠ 0 := by omega
  have hbad : ∀ e, va_ptr ap = .error e →
      ∃ r : Res (List Nat × List Arg), ∀ (σ : Type) (out : Nat → σ → σ) (p : σ) (n : Nat),
        conv_s out pad minus w pr n p ap =
          r.map (fun x => (n + x.1.length, emit out p x.1, x.2)) := fun e hva =>
    ⟨.error e, fun σ out p n => by simp [conv_s, hva, bind, Except.bind, Except.map]⟩
  rcases ap with _ | ⟨a, ap1⟩
  · exact hbad _ rfl
  cases a with
  | int v => exact hbad _ rfl
  | long v => exact hbad _ rfl
  | dbl v => exact hbad _ rfl
  | fn f => exact hbad _ rfl
  | ptr q =>
    clear hbad
    have key : ∀ rp : Res Nat, (if pr = pr_unset then
        match q with
        | none => pure 0
        | some m => m_strlen m
      else pure pr : Res Nat) = rp →
      ∃ r : Res (List Nat × List Arg), ∀ (σ : Type) (out : Nat → σ → σ) (p : σ) (n : Nat),
        conv_s out pad minus w pr n p (.ptr q :: ap1) =
          r.map (fun x => (n + x.1.length, emit out p x.1, x.2)) := by
      intro rp hpr
      cases rp with
      | error e =>
        exact ⟨.error e, fun σ out p n => by
          simp [conv_s, va_ptr, hpr, bind, Except.bind, Except.map]⟩
      | ok pr1 =>
        obtain ⟨r2, h2⟩ := scpy_uniform (deref q) pr1
        refine ⟨r2.map (fun t2 =>
          (List.replicate (if (minus == 0) = true then w - pr1 - 0 else 0) pad ++
            (t2 ++ List.replicate (if (minus != 0) = true then w - pr1 - 0 else 0) pad), ap1)),
          fun σ out p n => ?_⟩
        unfold conv_s
        simp only [va_ptr, bind, Except.bind, hpr]
        rw [pad_loop_spec out pad hpad0 _ pr1 w _ 0 n p (by omega)]
        simp only [h2]
        cases r2 with
        | error e => rfl
        | ok t2 =>
          simp only [Except.map]
          rw [pad_loop_spec out pad hpad0 _ pr1 w _ 0 _ _ (by omega)]
          simp only [emit_append, List.length_append, List.length_replicate, Nat.add_assoc, pure,
            Except.pure]
    exact key _ rfl
theorem m_fmt_esc_loop_uniform (s : Option (List Nat)) :
    ∀ (fuel i : Nat), ∃ r : Res (List Nat),
      ∀ (σ : Type) (out : Nat → σ → σ) (p : σ) (n : Nat),
        m_fmt_esc_loop out s fuel i n p = r.map (fun t => (n + t.length, emit out p t)) := by
  intro fuel
  induction fuel with
  | zero => intro i; exact ⟨.error .fuel, fun σ out p n => rfl⟩
  | succ fuel ih =>
    intro i
    obtain ⟨r1, h1⟩ := ih (i + 1)
    cases s with
    | none => exact ⟨.ok [], fun σ out p n => by simp [m_fmt_esc_loop, Except.map, emit, pure, Except.pure]⟩
    | some m =>
      cases hrd : rd m i with
      | error e =>
        exact ⟨.error e, fun σ out p n => by
          simp [m_fmt_esc_loop, hrd, bind, Except.bind, Except.map]⟩
      | ok si =>
        by_cases hsi : si = 0
        · exact ⟨.ok [], fun σ out p n => by
            simp [m_fmt_esc_loop, hrd, hsi, bind, Except.bind, Except.map, emit, pure, Except.pure]⟩
        · cases hesc : m_esc si true with
          | error e =>
            exact ⟨.error e, fun σ out p n => by
              simp [m_fmt_esc_loop, hrd, hsi, hesc, bind, Except.bind, Except.map]⟩
          | ok c =>
            by_cases hc : c = 0
            · refine ⟨r1.map (fun t => si :: t), fun σ out p n => ?_⟩
              simp only [m_fmt_esc_loop, hrd, bind, Except.bind, hsi, ne_eq, not_false_eq_true,
                if_true, hesc, hc, not_true_eq_false, if_false, h1]
              cases r1 with
              | error e => rfl
              | ok t =>
                simp only [Except.map, List.length_cons, emit_cons]
                congr 2
                omega
            · refine ⟨r1.map (fun t => 92 :: c :: t), fun σ out p n => ?_⟩
              simp only [m_fmt_esc_loop, hrd, bind, Except.bind, hsi, ne_eq, not_false_eq_true,
                if_true, hesc, hc, h1]
              cases r1 with
              | error e => rfl
              | ok t =>
                simp only [Except.map, List.length_cons, emit_cons]
                congr 2
                omega

theorem m_fmt_esc_uniform (ap : List Arg) :
    ∃ r : Res (List Nat × List Arg), ∀ (σ : Type) (out : Nat → σ → σ) (p : σ),
      m_fmt_esc out p ap = r.map (fun x => (x.1.length, emit out p x.1, x.2)) := by
  cases hva : va_ptr ap with
  | error e =>
    exact ⟨.error e, fun σ out p => by simp [m_fmt_esc, hva, bind, Except.bind, Except.map]⟩
  | ok x =>
    obtain ⟨s, ap1⟩ := x
    obtain ⟨r1, h1⟩ := m_fmt_esc_loop_uniform s ((deref s).length + 1) 0
    refine ⟨r1.map (fun t => (t, ap1)), fun σ out p => ?_⟩
    simp only [m_fmt_esc, hva, bind, Except.bind, h1]
    cases r1 with
    | error e => rfl
    | ok t => simp [Except.map, pure, Except.pure]

theorem m_fmt_b64_loop_uniform (buf : List Nat) (len : Nat) :
    ∀ (fuel i : Nat), ∃ r : Res (List Nat),
      ∀ (σ : Type) (out : Nat → σ → σ) (p : σ) (n : Nat),
        m_fmt_b64_loop out buf len fuel i n p = r.map (fun t => (n + t.length, emit out p t)) := by
  intro fuel
  induction fuel with
  | zero => intro i; exact ⟨.error .fuel, fun σ out p n => rfl⟩
  | succ fuel ih =>
    intro i
    obtain ⟨r1, h1⟩ := ih (i + 3)
    by_cases hi : i < len
    · have hstep : ∀ (σ : Type) (out : Nat → σ → σ) (p : σ) (n : Nat),
          m_fmt_b64_loop out buf len (fuel + 1) i n p =
            Except.bind
              (do
                let c1 ← rd buf i
                let c2 ← (if i + 1 < len then rd buf (i + 1) else pure 0 : Res Nat)
                let c3 ← (if i + 2 < len then rd buf (i + 2) else pure 0 : Res Nat)
                let t0 ← rd b64_t (c1 >>> 2)
                let t1 ← rd b64_t (((c1 &&& 3) <<< 4) ||| (c2 >>> 4))
                let t2 ← (if i + 1 < len then rd b64_t (((c2 &&& 15) <<< 2) ||| (c3 >>> 6))
                          else pure 61 : Res Nat)
                let t3 ← (if i + 2 < len then rd b64_t (c3 &&& 63) else pure 61 : Res Nat)
                pure [t0, t1, t2, t3] : Res (List Nat))
              (fun tmp => Except.bind (scpy out p tmp 4)
                (fun v => m_fmt_b64_loop out buf len fuel (i + 3) (n + v.1) v.2)) := by
        intro σ out p n
        rw [m_fmt_b64_loop, if_pos hi]
        simp only [bind, Except.bind, pure, Except.pure]
        repeat' split
        all_goals rfl
      generalize (do
                let c1 ← rd buf i
                let c2 ← (if i + 1 < len then rd buf (i + 1) else pure 0 : Res Nat)
                let c3 ← (if i + 2 < len then rd buf (i + 2) else pure 0 : Res Nat)
                let t0 ← rd b64_t (c1 >>> 2)
                let t1 ← rd b64_t (((c1 &&& 3) <<< 4) ||| (c2 >>> 4))
                let t2 ← (if i + 1 < len then rd b64_t (((c2 &&& 15) <<< 2) ||| (c3 >>> 6))
                          else pure 61 : Res Nat)
                let t3 ← (if i + 2 < len then rd b64_t (c3 &&& 63) else pure 61 : Res Nat)
                pure [t0, t1, t2, t3] : Res (List Nat)) = rq at hstep
      cases rq with
      | error e => exact ⟨.error e, fun σ out p n => by rw [hstep]; rfl⟩
      | ok tmp =>
        obtain ⟨r2, h2⟩ := scpy_uniform tmp 4
        refine ⟨r2.bind (fun t2 => r1.map (fun t => t2 ++ t)), fun σ out p n => ?_⟩
        rw [hstep]
        simp only [Except.bind, h2]
        cases r2 with
        | error e => rfl
        | ok t2 =>
          simp only [Except.map, h1, Except.bind]
          cases r1 with
          | error e => rfl
          | ok t =>
            simp only [Except.map, List.length_append, emit_append, Nat.add_assoc]
    · exact ⟨.ok [], fun σ out p n => by
        simp [m_fmt_b64_loop, hi, Except.map, emit, pure, Except.pure]⟩

theorem m_fmt_b64_uniform (ap : List Arg) :
    ∃ r : Res (List Nat × List Arg), ∀ (σ : Type) (out : Nat → σ → σ) (p : σ),
      m_fmt_b64 out p ap = r.map (fun x => (x.1.length, emit out p x.1, x.2)) := by
  cases hva : va_unsigned ap with
  | error e =>
    exact ⟨.error e, fun σ out p => by simp [m_fmt_b64, hva, bind, Except.bind, Except.map]⟩
  | ok x =>
    obtain ⟨len, ap1⟩ := x
    cases hvp : va_ptr ap1 with
    | error e =>
      exact ⟨.error e, fun σ out p => by
        simp [m_fmt_b64, hva, hvp, bind, Except.bind, Except.map]⟩
    | ok y =>
      obtain ⟨buf, ap2⟩ := y
      obtain ⟨r1, h1⟩ := m_fmt_b64_loop_uniform (deref buf) len (len + 1) 0
      refine ⟨r1.map (fun t => (t, ap2)), fun σ out p => ?_⟩
      simp only [m_fmt_b64, hva, hvp, bind, Except.bind, h1]
      cases r1 with
      | error e => rfl
      | ok t => simp [Except.map, pure, Except.pure]
theorem parse_directive_pad {fmt : List Nat} {i : Nat} {ap : List Arg} {D : Directive}
    {ap1 : List Arg} (h : parse_directive fmt i ap = .ok (D, ap1)) : D.pad = 32 ∨ D.pad = 48 := by
  unfold parse_directive at h
  simp only [bind, Except.bind, pure, Except.pure] at h
  repeat' split at h
  all_goals try (simp only [reduceCtorEq] at h)
  all_goals
    simp only [Except.ok.injEq, Prod.mk.injEq] at h
    obtain ⟨h1, _⟩ := h
    subst h1
    simp

theorem vx_directive_uniform (dtoa : List Nat → Nat → Nat → Int → Res (Nat × List Nat))
    (fc : (σ : Type) → (Nat → σ → σ) → FmtFn → σ → List Arg → Res (Nat × σ × List Arg))
    (hfc : ∀ f ap, ∃ r : Res (List Nat × List Arg), ∀ (σ : Type) (out : Nat → σ → σ) (p : σ),
      fc σ out f p ap = r.map (fun x => (x.1.length, emit out p x.1, x.2)))
    (fmt : List Nat) (i : Nat) (ap : List Arg) :
    ∃ r : Res (Nat × List Nat × List Arg),
      ∀ (σ : Type) (out : Nat → σ → σ) (p : σ) (n : Nat),
        vx_directive dtoa (fc σ out) out fmt i n p ap =
          r.map (fun x => (x.1, n + x.2.1.length, emit out p x.2.1, x.2.2)) := by
  cases hp : parse_directive fmt i ap with
  | error e =>
    exact ⟨.error e, fun σ out p n => by simp [vx_directive, hp, bind, Except.bind, Except.map]⟩
  | ok x =>
    obtain ⟨D, ap1⟩ := x
    have hpad := parse_directive_pad hp
    by_cases hnum : D.c = 100 ∨ D.c = 117 ∨ D.c = 120 ∨ D.c = 88 ∨ D.c = 112 ∨ D.c = 103 ∨
        D.c = 102
    · -- a number
      generalize hrk : (if D.c = 103 ∨ D.c = 102 then do
          let (v, ap) ← va_double ap1
          let pr := if D.pr = pr_unset then 6 else D.pr
          let (k, tmp) ← dtoa (List.replicate 40 0) 40 v (sint 32 pr)
          pure (k, tmp, ap)
        else conv_int (if D.c = 112 then 1 else D.is_long) (decide (D.c = 100))
          (decide (D.c = 120 ∨ D.c = 88 ∨ D.c = 112)) (List.replicate 40 0) ap1 :
          Res (Nat × List Nat × List Arg)) = rk
      simp only [bind, Except.bind] at hrk
      cases rk with
      | error e =>
        refine ⟨.error e, fun σ out p n => ?_⟩
        simp only [vx_directive, hp, bind, Except.bind, if_pos hnum, hrk, Except.map]
      | ok y =>
        obtain ⟨k, tmp, ap2⟩ := y
        obtain ⟨r1, h1⟩ := emit_num_uniform D.pad D.minus D.w
          (if (if D.c = 112 then 1 else D.x) ≠ 0 then 2 else 0) k tmp hpad
        refine ⟨r1.map (fun t => (D.i + 1, t, ap2)), fun σ out p n => ?_⟩
        simp only [vx_directive, hp, bind, Except.bind, if_pos hnum, hrk, h1]
        cases r1 with
        | error e => rfl
        | ok t => simp only [Except.map, pure, Except.pure]
    · by_cases hM : D.c = 77
      · cases hva : va_fn ap1 with
        | error e =>
          refine ⟨.error e, fun σ out p n => ?_⟩
          simp only [vx_directive, hp, bind, Except.bind, if_neg hnum, if_pos hM, hva, Except.map]
        | ok y =>
          obtain ⟨f, ap2⟩ := y
          obtain ⟨r1, h1⟩ := hfc f ap2
          refine ⟨r1.map (fun x => (D.i + 1, x.1, x.2)), fun σ out p n => ?_⟩
          simp only [vx_directive, hp, bind, Except.bind, if_neg hnum, if_pos hM, hva, h1]
          cases r1 with
          | error e => rfl
          | ok t => simp only [Except.map, pure, Except.pure]
      · by_cases hc : D.c = 99
        · cases hva : va_int ap1 with
          | error e =>
            refine ⟨.error e, fun σ out p n => ?_⟩
            simp only [vx_directive, hp, bind, Except.bind, if_neg hnum, if_neg hM, if_pos hc,
              hva, Except.map]
          | ok y =>
            obtain ⟨ch, ap2⟩ := y
            refine ⟨.ok (D.i + 1, [toChar ch], ap2), fun σ out p n => ?_⟩
            simp only [vx_directive, hp, bind, Except.bind, if_neg hnum, if_neg hM, if_pos hc,
              hva, Except.map, pure, Except.pure, List.length_singleton, emit_cons, emit_nil]
        · by_cases hs : D.c = 115
          · obtain ⟨r1, h1⟩ := conv_s_uniform D.pad D.minus D.w D.pr ap1 hpad
            refine ⟨r1.map (fun x => (D.i + 1, x.1, x.2)), fun σ out p n => ?_⟩
            simp only [vx_directive, hp, bind, Except.bind, if_neg hnum, if_neg hM, if_neg hc,
              if_pos hs, h1]
            cases r1 with
            | error e => rfl
            | ok t => simp only [Except.map, pure, Except.pure]
          · by_cases hpc : D.c = 37
            · refine ⟨.ok (D.i + 1, [37], ap1), fun σ out p n => ?_⟩
              simp only [vx_directive, hp, bind, Except.bind, if_neg hnum, if_neg hM, if_neg hc,
                if_neg hs, if_pos hpc, Except.map, pure, Except.pure, List.length_singleton,
                emit_cons, emit_nil]
            · refine ⟨.ok (D.i + 1, [37, D.c], ap1), fun σ out p n => ?_⟩
              simp only [vx_directive, hp, bind, Except.bind, if_neg hnum, if_neg hM, if_neg hc,
                if_neg hs, if_neg hpc, Except.map, pure, Except.pure, List.length_cons,
                List.length_nil, emit_cons, emit_nil]

theorem vx_loop_uniform (dtoa : List Nat → Nat → Nat → Int → Res (Nat × List Nat))
    (fc : (σ : Type) → (Nat → σ → σ) → FmtFn → σ → List Arg → Res (Nat × σ × List Arg))
    (hfc : ∀ f ap, ∃ r : Res (List Nat × List Arg), ∀ (σ : Type) (out : Nat → σ → σ) (p : σ),
      fc σ out f p ap = r.map (fun x => (x.1.length, emit out p x.1, x.2)))
    (fmt : List Nat) :
    ∀ (fuel i : Nat) (ap : List Arg), ∃ r : Res (List Nat × List Arg),
      ∀ (σ : Type) (out : Nat → σ → σ) (p : σ) (n : Nat),
        vx_loop dtoa (fc σ out) out fmt fuel i n p ap =
          r.map (fun x => (n + x.1.length, emit out p x.1, x.2)) := by
  intro fuel
  induction fuel with
  | zero => intro i ap; exact ⟨.error .fuel, fun σ out p n => rfl⟩
  | succ fuel ih =>
    intro i ap
    cases hrd : rd fmt i with
    | error e =>
      exact ⟨.error e, fun σ out p n => by simp [vx_loop, hrd, bind, Except.bind, Except.map]⟩
    | ok c =>
      by_cases hc0 : c = 0
      · exact ⟨.ok ([], ap), fun σ out p n => by
          simp [vx_loop, hrd, hc0, bind, Except.bind, Except.map, emit, pure, Except.pure]⟩
      · by_cases hc : c = 37
        · obtain ⟨r1, h1⟩ := vx_directive_uniform dtoa fc hfc fmt i ap
          cases r1 with
          | error e =>
            refine ⟨.error e, fun σ out p n => ?_⟩
            simp only [vx_loop, hrd, bind, Except.bind, hc0, ne_eq, not_false_eq_true, if_true,
              hc, h1, Except.map, Nat.reduceEqDiff]
          | ok y =>
            obtain ⟨i1, t1, ap1⟩ := y
            obtain ⟨r2, h2⟩ := ih i1 ap1
            refine ⟨r2.map (fun x => (t1 ++ x.1, x.2)), fun σ out p n => ?_⟩
            simp only [vx_loop, hrd, bind, Except.bind, hc0, ne_eq, not_false_eq_true, if_true,
              hc, h1, Except.map, h2, Nat.reduceEqDiff]
            cases r2 with
            | error e => rfl
            | ok t => simp only [Except.map, List.length_append, emit_append, Nat.add_assoc]
        · obtain ⟨r2, h2⟩ := ih (i + 1) ap
          refine ⟨r2.map (fun x => (c :: x.1, x.2)), fun σ out p n => ?_⟩
          simp only [vx_loop, hrd, bind, Except.bind, hc0, ne_eq, not_false_eq_true, if_true,
            hc, if_false, h2]
          cases r2 with
          | error e => rfl
          | ok t =>
            simp only [Except.map, List.length_cons, emit_cons]
            congr 2
            omega
theorem uniform_of_pre {α : Type} (pre : Res α) (fmt : List Nat) (args : α → List Arg)
    (rest : α → List Arg)
    (f : (σ : Type) → (Nat → σ → σ) → σ → Res (Nat × σ × List Arg))
    (xp : (σ : Type) → (Nat → σ → σ) → σ → List Nat → List Arg → Res (Nat × σ))
    (hxp : ∀ fmt args, ∃ r : Res (List Nat), ∀ (σ : Type) (out : Nat → σ → σ) (p : σ),
      xp σ out p fmt args = r.map (fun t => (t.length, emit out p t)))
    (hf : ∀ (σ : Type) (out : Nat → σ → σ) (p : σ), f σ out p =
      Except.bind pre (fun x => Except.bind (xp σ out p fmt (args x))
        (fun y => .ok (y.1, y.2, rest x)))) :
    ∃ r : Res (List Nat × List Arg), ∀ (σ : Type) (out : Nat → σ → σ) (p : σ),
      f σ out p = r.map (fun x => (x.1.length, emit out p x.1, x.2)) := by
  cases pre with
  | error e => exact ⟨.error e, fun σ out p => by rw [hf]; rfl⟩
  | ok x =>
    obtain ⟨r1, h1⟩ := hxp fmt (args x)
    refine ⟨r1.map (fun t => (t, rest x)), fun σ out p => ?_⟩
    rw [hf]
    simp only [Except.bind, h1]
    cases r1 with
    | error e => rfl
    | ok t => rfl

/-- The result of every function that writes to a sink is given by a list of bytes that does
not depend on the sink: the sink receives these bytes in order, and the count returned is
their number. -/
theorem uniform_all (depth : Nat) :
    (∀ fmt ap, ∃ r : Res (List Nat × List Arg), ∀ (σ : Type) (out : Nat → σ → σ) (p : σ),
      m_vxprintf depth σ out p fmt ap = r.map (fun x => (x.1.length, emit out p x.1, x.2))) ∧
    (∀ fmt args, ∃ r : Res (List Nat), ∀ (σ : Type) (out : Nat → σ → σ) (p : σ),
      m_xprintf depth σ out p fmt args = r.map (fun t => (t.length, emit out p t))) ∧
    (∀ ap, ∃ r : Res (List Nat × List Arg), ∀ (σ : Type) (out : Nat → σ → σ) (p : σ),
      m_fmt_ip4 depth σ out p ap = r.map (fun x => (x.1.length, emit out p x.1, x.2))) ∧
    (∀ ap, ∃ r : Res (List Nat × List Arg), ∀ (σ : Type) (out : Nat → σ → σ) (p : σ),
      m_fmt_ip6 depth σ out p ap = r.map (fun x => (x.1.length, emit out p x.1, x.2))) ∧
    (∀ ap, ∃ r : Res (List Nat × List Arg), ∀ (σ : Type) (out : Nat → σ → σ) (p : σ),
      m_fmt_mac depth σ out p ap = r.map (fun x => (x.1.length, emit out p x.1, x.2))) ∧
    (∀ ap, ∃ r : Res (List Nat × List Arg), ∀ (σ : Type) (out : Nat → σ → σ) (p : σ),
      m_fmt_quo depth σ out p ap = r.map (fun x => (x.1.length, emit out p x.1, x.2))) ∧
    (∀ f ap, ∃ r : Res (List Nat × List Arg), ∀ (σ : Type) (out : Nat → σ → σ) (p : σ),
      m_fmt_call depth σ out f p ap = r.map (fun x => (x.1.length, emit out p x.1, x.2))) := by
  induction depth with
  | zero =>
    refine ⟨fun fmt ap => ⟨.error .stack, fun σ out p => by rw [m_vxprintf]; rfl⟩,
      fun fmt ap => ⟨.error .stack, fun σ out p => by rw [m_xprintf]; rfl⟩,
      fun ap => ⟨.error .stack, fun σ out p => by rw [m_fmt_ip4]; rfl⟩,
      fun ap => ⟨.error .stack, fun σ out p => by rw [m_fmt_ip6]; rfl⟩,
      fun ap => ⟨.error .stack, fun σ out p => by rw [m_fmt_mac]; rfl⟩,
      fun ap => ⟨.error .stack, fun σ out p => by rw [m_fmt_quo]; rfl⟩,
      fun f ap => ⟨.error .stack, fun σ out p => by rw [m_fmt_call]; rfl⟩⟩
  | succ d ih =>
    obtain ⟨ihvx, ihx, ih4, ih6, ihmac, ihquo, ihcall⟩ := ih
    refine ⟨?_, ?_, ?_, ?_, ?_, ?_, ?_⟩
    · intro fmt ap
      obtain ⟨r, h⟩ := vx_loop_uniform (fun dst dstlen x width => m_dtoa d dst dstlen x width)
        (fun σ out f p ap => m_fmt_call d σ out f p ap) ihcall fmt (fmt.length + 1) 0 ap
      refine ⟨r, fun σ out p => ?_⟩
      rw [m_vxprintf, h]
      simp only [Nat.zero_add]
    · intro fmt args
      obtain ⟨r, h⟩ := ihvx fmt args
      refine ⟨r.map (fun x => x.1), fun σ out p => ?_⟩
      rw [m_xprintf]
      simp only [bind, Except.bind, h]
      cases r with
      | error e => rfl
      | ok t => rfl
    · intro ap
      refine uniform_of_pre
        (do
          let (p, ap) ← va_ptr ap
          let p0 ← rd (deref p) 0
          let p1 ← rd (deref p) 1
          let p2 ← rd (deref p) 2
          let p3 ← rd (deref p) 3
          pure ([Arg.int p0, Arg.int p1, Arg.int p2, Arg.int p3], ap) : Res (List Arg × List Arg))
        [37, 100, 46, 37, 100, 46, 37, 100, 46, 37, 100, 0] (fun x => x.1) (fun x => x.2)
        (fun σ out p => m_fmt_ip4 (d + 1) σ out p ap)
        (fun σ out p fmt args => m_xprintf d σ out p fmt args) ihx ?_
      intro σ out p
      beta_reduce
      rw [m_fmt_ip4]
      rcases va_ptr ap with e | ⟨q, ap1⟩
      · rfl
      simp only [bind, Except.bind, pure, Except.pure]
      repeat (first | rfl | (generalize rd _ _ = r; rcases r with e | v <;> dsimp only))
    · intro ap
      refine uniform_of_pre
        (do
          let (p, ap) ← va_ptr ap
          let u16 (k : Nat) : Res Arg := do
            let a ← rd (deref p) k
            let b ← rd (deref p) (k + 1)
            pure (.int (((a <<< 8) ||| b : Nat) : Int))
          let a0 ← u16 0
          let a1 ← u16 2
          let a2 ← u16 4
          let a3 ← u16 6
          let a4 ← u16 8
          let a5 ← u16 10
          let a6 ← u16 12
          let a7 ← u16 14
          pure ([a0, a1, a2, a3, a4, a5, a6, a7], ap) : Res (List Arg × List Arg))
        [91, 37, 120, 58, 37, 120, 58, 37, 120, 58, 37, 120, 58, 37, 120, 58, 37, 120, 58, 37, 120,
          58, 37, 120, 93, 0] (fun x => x.1) (fun x => x.2)
        (fun σ out p => m_fmt_ip6 (d + 1) σ out p ap)
        (fun σ out p fmt args => m_xprintf d σ out p fmt args) ihx ?_
      intro σ out p
      beta_reduce
      rw [m_fmt_ip6]
      rcases va_ptr ap with e | ⟨q, ap1⟩
      · rfl
      simp only [bind, Except.bind, pure, Except.pure]
      repeat (first | rfl | (generalize rd _ _ = r; rcases r with e | v <;> dsimp only))
    · intro ap
      refine uniform_of_pre
        (do
          let (p, ap) ← va_ptr ap
          let p0 ← rd (deref p) 0
          let p1 ← rd (deref p) 1
          let p2 ← rd (deref p) 2
          let p3 ← rd (deref p) 3
          let p4 ← rd (deref p) 4
          let p5 ← rd (deref p) 5
          pure ([Arg.int p0, Arg.int p1, Arg.int p2, Arg.int p3, Arg.int p4, Arg.int p5], ap) :
            Res (List Arg × List Arg))
        [37, 48, 50, 120, 58, 37, 48, 50, 120, 58, 37, 48, 50, 120, 58, 37, 48, 50, 120, 58, 37, 48,
          50, 120, 58, 37, 48, 50, 120, 0] (fun x => x.1) (fun x => x.2)
        (fun σ out p => m_fmt_mac (d + 1) σ out p ap)
        (fun σ out p fmt args => m_xprintf d σ out p fmt args) ihx ?_
      intro σ out p
      beta_reduce
      rw [m_fmt_mac]
      rcases va_ptr ap with e | ⟨q, ap1⟩
      · rfl
      simp only [bind, Except.bind, pure, Except.pure]
      repeat (first | rfl | (generalize rd _ _ = r; rcases r with e | v <;> dsimp only))
    · intro ap
      cases hva : va_fn ap with
      | error e =>
        exact ⟨.error e, fun σ out p => by
          rw [m_fmt_quo]; simp [fmt_quo, hva, bind, Except.bind, Except.map]⟩
      | ok x =>
        obtain ⟨f, ap1⟩ := x
        obtain ⟨r, h⟩ := ihcall f ap1
        refine ⟨r.map (fun x => (34 :: (x.1 ++ [34]), x.2)), fun σ out p => ?_⟩
        rw [m_fmt_quo]
        simp only [fmt_quo, hva, bind, Except.bind, h]
        cases r with
        | error e => rfl
        | ok t =>
          simp only [Except.map, pure, Except.pure, List.length_cons, List.length_append,
            List.length_nil, emit_cons, emit_append, emit_nil]
          congr 2
          omega
    · intro f ap
      cases f with
      | ip4 => obtain ⟨r, h⟩ := ih4 ap; exact ⟨r, fun σ out p => by rw [m_fmt_call]; exact h σ out p⟩
      | ip6 => obtain ⟨r, h⟩ := ih6 ap; exact ⟨r, fun σ out p => by rw [m_fmt_call]; exact h σ out p⟩
      | mac => obtain ⟨r, h⟩ := ihmac ap; exact ⟨r, fun σ out p => by rw [m_fmt_call]; exact h σ out p⟩
      | b64 =>
        obtain ⟨r, h⟩ := m_fmt_b64_uniform ap
        exact ⟨r, fun σ out p => by rw [m_fmt_call]; exact h σ out p⟩
      | esc =>
        obtain ⟨r, h⟩ := m_fmt_esc_uniform ap
        exact ⟨r, fun σ out p => by rw [m_fmt_call]; exact h σ out p⟩
      | quo => obtain ⟨r, h⟩ := ihquo ap; exact ⟨r, fun σ out p => by rw [m_fmt_call]; exact h σ out p⟩

theorem emit_traceOut (t : List Nat) : ∀ p : List Nat, emit traceOut p t = p ++ t := by
  induction t with
  | nil => intro p; simp [emit]
  | cons b t ih => intro p; rw [emit_cons, ih]; simp [traceOut]

theorem m_vxprintf_uniform (depth : Nat) (fmt : List Nat) (ap : List Arg) :
    ∃ r : Res (List Nat × List Arg), ∀ (σ : Type) (out : Nat → σ → σ) (p : σ),
      m_vxprintf depth σ out p fmt ap = r.map (fun x => (x.1.length, emit out p x.1, x.2)) :=
  (uniform_all depth).1 fmt ap

/-- A run of `m_vxprintf` on the sink that records the bytes fixes the run on every sink. -/
theorem m_vxprintf_of_trace (depth : Nat) (fmt : List Nat) (ap : List Arg) (n : Nat)
    (t : List Nat) (ap1 : List Arg)
    (h : m_vxprintf depth (List Nat) traceOut [] fmt ap = .ok (n, t, ap1)) :
    n = t.length ∧ ∀ (σ : Type) (out : Nat → σ → σ) (p : σ),
      m_vxprintf depth σ out p fmt ap = .ok (t.length, emit out p t, ap1) := by
  obtain ⟨r, hr⟩ := m_vxprintf_uniform depth fmt ap
  rw [hr] at h
  cases r with
  | error e => simp [Except.map] at h
  | ok x =>
    simp only [Except.map, Except.ok.injEq, Prod.mk.injEq, emit_traceOut, List.nil_append] at h
    obtain ⟨h1, h2, h3⟩ := h
    subst h2
    refine ⟨h1.symm, fun σ out p => ?_⟩
    rw [hr, ← h3]
    rfl

theorem set_take_append_drop (t buf : List Nat) (c : Nat) (hc : 0 < c) (hb : c ≤ buf.length) :
    (t.take c ++ buf.drop (min t.length c)).set (if t.length < c then t.length else c - 1) 0 =
      t.take (min t.length (c - 1)) ++ 0 :: buf.drop (min t.length (c - 1) + 1) := by
  by_cases hlt : t.length < c
  · rw [if_pos hlt, Nat.min_eq_left (Nat.le_of_lt hlt), Nat.min_eq_left (by omega),
      List.take_of_length_le (Nat.le_of_lt hlt), List.take_of_length_le (by omega)]
    obtain ⟨A, x, B, hAB, hA⟩ := list_split buf t.length (by omega)
    rw [hAB, ← hA, List.drop_left, show A.length + 1 = (A ++ [x]).length by simp,
      show A ++ x :: B = (A ++ [x]) ++ B by simp, List.drop_left, hA]
    rw [List.set_append_right _ _ (Nat.le_refl _)]
    simp
  · rw [if_neg hlt, Nat.min_eq_right (by omega), Nat.min_eq_right (by omega)]
    obtain ⟨A, x, B, hAB, hA⟩ := list_split t (c - 1) (by omega)
    obtain rfl : c = A.length + 1 := by omega
    have e1 : (A ++ x :: B).take (A.length + 1) = A ++ [x] := by
      rw [show A ++ x :: B = (A ++ [x]) ++ B by simp,
        show A.length + 1 = (A ++ [x]).length by simp, List.take_left]
    have e2 : (A ++ x :: B).take A.length = A := @List.take_left _ A (x :: B)
    rw [hAB]
    simp only [Nat.add_sub_cancel]
    rw [e1, e2, List.append_assoc, List.set_append_right _ _ (Nat.le_refl _)]
    simp

/-- C2: the length `m_vsnprintf` returns, and the arguments it leaves, are the same for any
two destinations and capacities, in particular for the capacity 0 and a capacity that holds
the whole output; a run that faults does so for every capacity. The same holds of
`m_snprintf`. -/
theorem C2_length_independent_of_capacity (depth : Nat) (buf1 buf2 : List Nat) (c1 c2 : Nat)
    (fmt : List Nat) (ap : List Arg) :
    (m_vsnprintf depth buf1 c1 fmt ap).map (fun x => (x.1, x.2.2)) =
        (m_vsnprintf depth buf2 c2 fmt ap).map (fun x => (x.1, x.2.2)) ∧
      (m_snprintf depth buf1 c1 fmt ap).map (fun x => x.1) =
        (m_snprintf depth buf2 c2 fmt ap).map (fun x => x.1) := by
  have hv : ∀ depth, (m_vsnprintf depth buf1 c1 fmt ap).map (fun x => (x.1, x.2.2)) =
      (m_vsnprintf depth buf2 c2 fmt ap).map (fun x => (x.1, x.2.2)) := by
    intro depth
    cases depth with
    | zero => simp only [m_vsnprintf]
    | succ d =>
      obtain ⟨r, hr⟩ := m_vxprintf_uniform d fmt ap
      simp only [m_vsnprintf, hr]
      cases r with
      | error e => rfl
      | ok x => rfl
  refine ⟨hv depth, ?_⟩
  cases depth with
  | zero => simp only [m_snprintf]
  | succ d =>
    have h := hv d
    simp only [m_snprintf]
    cases h1 : m_vsnprintf d buf1 c1 fmt ap with
    | error e =>
      cases h2 : m_vsnprintf d buf2 c2 fmt ap with
      | error e2 =>
        rw [h1, h2] at h
        simp only [Except.map, Except.error.injEq] at h
        subst h
        rfl
      | ok y => rw [h1, h2] at h; simp [Except.map] at h
    | ok x =>
      cases h2 : m_vsnprintf d buf2 c2 fmt ap with
      | error e2 => rw [h1, h2] at h; simp [Except.map] at h
      | ok y =>
        rw [h1, h2] at h
        simp only [Except.map, Except.ok.injEq, Prod.mk.injEq] at h
        simp only [bind, Except.bind, pure, Except.pure, Except.map, h.1]

/-- C3: when the format and the arguments produce the bytes `t` (the run on the sink that
records every byte returns them), `m_vsnprintf` on a destination of at least `c` bytes returns
their number `n`, which may exceed `c`; for `c > 0` the destination then holds the first
`min n (c - 1)` bytes of `t`, a NUL at the index `min n (c - 1)` and its old bytes behind, so
that no index `≥ c` is written; for `c = 0` the destination is unchanged. -/
theorem C3_truncation_and_terminator (depth : Nat) (fmt : List Nat) (ap : List Arg) (n : Nat)
    (t : List Nat) (ap1 : List Arg) (buf : List Nat) (c : Nat)
    (h : m_vxprintf depth (List Nat) traceOut [] fmt ap = .ok (n, t, ap1))
    (hc : c ≤ buf.length) :
    n = t.length ∧
      m_vsnprintf (depth + 1) buf c fmt ap =
        .ok (n, if c = 0 then buf
          else t.take (min n (c - 1)) ++ 0 :: buf.drop (min n (c - 1) + 1), ap1) ∧
      (0 < c → ∀ buf1, m_vsnprintf (depth + 1) buf c fmt ap = .ok (n, buf1, ap1) →
        buf1.take (min n (c - 1)) = t.take (min n (c - 1)) ∧
          buf1[min n (c - 1)]? = some 0 ∧ buf1.length = buf.length ∧
          ∀ i, c ≤ i → buf1[i]? = buf[i]?) := by
  obtain ⟨hn, hall⟩ := m_vxprintf_of_trace depth fmt ap n t ap1 h
  have hv := m_vsnprintf_of_vx depth buf c fmt ap t ap1 (hall m_buf m_out_buf _)
  rw [emit_out_buf_buf t _ (Nat.zero_le _) hc] at hv
  simp only [List.take_zero, List.nil_append, Nat.sub_zero, Nat.zero_add] at hv
  have hmain : m_vsnprintf (depth + 1) buf c fmt ap =
      .ok (n, if c = 0 then buf
        else t.take (min n (c - 1)) ++ 0 :: buf.drop (min n (c - 1) + 1), ap1) := by
    rw [hv, hn]
    by_cases h0 : c = 0
    · subst h0
      simp
    · rw [if_pos (show c > 0 by omega), if_neg h0,
        set_take_append_drop t buf c (by omega) hc]
  refine ⟨hn, hmain, fun hpos buf1 h1 => ?_⟩
  rw [hmain, if_neg (by omega)] at h1
  simp only [Except.ok.injEq, Prod.mk.injEq, true_and, and_true] at h1
  subst h1
  have hk : min n (c - 1) ≤ t.length := by omega
  have hlen : (t.take (min n (c - 1))).length = min n (c - 1) := by
    rw [List.length_take]; omega
  refine ⟨?_, ?_, ?_, ?_⟩
  · have e := @List.take_left _ (t.take (min n (c - 1))) (0 :: buf.drop (min n (c - 1) + 1))
    rw [hlen] at e
    exact e
  · rw [List.getElem?_append_right (by omega), hlen]
    simp
  · simp only [List.length_append, List.length_cons, List.length_drop, hlen]
    omega
  · intro i hi
    rw [List.getElem?_append_right (by omega), hlen]
    obtain ⟨j, hj⟩ : ∃ j, i - min n (c - 1) = j + 1 := ⟨i - min n (c - 1) - 1, by omega⟩
    rw [hj, List.getElem?_cons_succ, List.getElem?_drop]
    congr 1
    omega

/-- C3 at the format `"ab%d"` with the argument 7 (the bytes `ab7`), on a destination of five
bytes `9` with the capacities 2 and 0. -/
theorem C3_witness :
    3 = [97, 98, 55].length ∧
      m_vsnprintf (1 + 1) [9, 9, 9, 9, 9] 2 [97, 98, 37, 100, 0] [.int 7] =
        .ok (3, if 2 = 0 then [9, 9, 9, 9, 9]
          else [97, 98, 55].take (min 3 (2 - 1)) ++ 0 :: [9, 9, 9, 9, 9].drop (min 3 (2 - 1) + 1),
          []) ∧
      (0 < 2 → ∀ buf1, m_vsnprintf (1 + 1) [9, 9, 9, 9, 9] 2 [97, 98, 37, 100, 0] [.int 7] =
          .ok (3, buf1, []) →
        buf1.take (min 3 (2 - 1)) = [97, 98, 55].take (min 3 (2 - 1)) ∧
          buf1[min 3 (2 - 1)]? = some 0 ∧ buf1.length = [9, 9, 9, 9, 9].length ∧
          ∀ i, 2 ≤ i → buf1[i]? = [9, 9, 9, 9, 9][i]?) :=
  C3_truncation_and_terminator 1 [97, 98, 37, 100, 0] [.int 7] 3 [97, 98, 55] [] [9, 9, 9, 9, 9] 2
    (by decide!) (by decide)

/-! ## The special values of `m_dtoa` -/

theorem m_vsnprintf_stored (depth : Nat) (buf : List Nat) (c : Nat) (fmt : List Nat)
    (ap : List Arg) (t : List Nat) (ap1 : List Arg)
    (h : m_vxprintf depth m_buf m_out_buf { buf := buf, size := c, len := 0 } fmt ap =
      .ok (t.length, emit m_out_buf { buf := buf, size := c, len := 0 } t, ap1))
    (hc : c ≤ buf.length) :
    m_vsnprintf (depth + 1) buf c fmt ap = .ok (t.length, stored buf c t, ap1) := by
  have hv := m_vsnprintf_of_vx depth buf c fmt ap t ap1 h
  rw [emit_out_buf_buf t _ (Nat.zero_le _) hc] at hv
  simp only [List.take_zero, List.nil_append, Nat.sub_zero, Nat.zero_add] at hv
  rw [hv, stored]
  by_cases h0 : c = 0
  · subst h0
    simp
  · rw [if_pos (show c > 0 by omega), if_neg h0, set_take_append_drop t buf c (by omega) hc]

/-- The call `m_snprintf(dst, c, "%s", s)` for a NUL-terminated string `s`. -/
theorem m_snprintf_cstr (depth : Nat) (dst : List Nat) (c : Nat) (s rest : List Nat)
    (hs : ∀ b ∈ s, b ≠ 0) (hc : c ≤ dst.length) :
    m_snprintf (depth + 3) dst c [37, 115, 0] [.ptr (some (s ++ 0 :: rest))] =
      .ok (s.length, stored dst c s) := by
  have hvx := m_vxprintf_s depth m_buf m_out_buf { buf := dst, size := c, len := 0 }
    false false false 0 Prec.unset LenMod.none (some (s ++ 0 :: rest)) s.length (by norm_num)
    (by simp only [Prec.pr, if_true]; exact m_strlen_spec s rest hs)
    (Or.inl (by simp only [deref, Option.getD_some]; rw [scpySpan_cstr s rest hs]; simp))
  simp only [dirText, Bool.false_eq_true, if_false, decText_zero, Prec.text, LenMod.text,
    List.nil_append, List.append_nil, Prec.args, List.singleton_append, strText_plain, deref,
    Option.getD_some, scpySpan_cstr s rest hs, List.take_length] at hvx
  have hv := m_vsnprintf_stored (depth + 1) dst c [37, 115, 0]
    [.ptr (some (s ++ 0 :: rest))] s [] hvx hc
  rw [m_snprintf]
  simp only [hv, bind, Except.bind, pure, Except.pure]

theorem xisinf_iff (x : Nat) :
    xisinf x = true ↔ x / 2 ^ 52 % 2 ^ 11 = 2047 ∧ x % 2 ^ 52 = 0 := by
  have hhi : x >>> 32 = x / 4294967296 := by rw [Nat.shiftRight_eq_div_pow]
  have hand : (x / 4294967296 % 4294967296) &&& 2147483647 =
      x / 4294967296 % 4294967296 % 2147483648 := Nat.and_pow_two_sub_one_eq_mod _ 31
  simp only [xisinf, hhi, Nat.reducePow, hand, Bool.and_eq_true, beq_iff_eq]
  omega

theorem xisnan_iff (x : Nat) :
    xisnan x = true ↔ x / 2 ^ 52 % 2 ^ 11 = 2047 ∧ x % 2 ^ 52 ≠ 0 := by
  have hhi : x >>> 32 = x / 4294967296 := by rw [Nat.shiftRight_eq_div_pow]
  have hand : (x / 4294967296 % 4294967296) &&& 2147483647 =
      x / 4294967296 % 4294967296 % 2147483648 := Nat.and_pow_two_sub_one_eq_mod _ 31
  simp only [xisnan, hhi, Nat.reducePow, hand, decide_eq_true_eq]
  split <;> omega

set_option maxRecDepth 20000 in
theorem m_dtoa_succ (depth : Nat) (dst : List Nat) (dstlen : Nat) (d : Nat) (width : Int) :
    m_dtoa (depth + 1) dst dstlen d width =
      if dEq d d0 then m_snprintf depth dst dstlen [37, 115, 0] [.ptr (some [48, 0])]
      else if xisinf d then
        m_snprintf depth dst dstlen [37, 115, 0]
          [.ptr (some (if dLt d0 d then [105, 110, 102, 0] else [45, 105, 110, 102, 0]))]
      else if xisnan d then
        m_snprintf depth dst dstlen [37, 115, 0] [.ptr (some [110, 97, 110, 0])]
      else m_dtoa (depth + 1) dst dstlen d width := by
  split
  · next h => rw [m_dtoa]; rw [if_pos h]
  · split
    · next h1 h2 => rw [m_dtoa]; rw [if_neg h1, if_pos h2]
    · split
      · next h1 h2 h3 => rw [m_dtoa]; rw [if_neg h1, if_neg h2, if_pos h3]
      · rfl

theorem dEq_zero (x : Nat) (hz : x % 2 ^ 63 = 0) : dEq x d0 = true := by
  have hf : x % 2 ^ 52 = 0 := by
    norm_num at hz ⊢
    omega
  have hn : dIsNaN x = false := by
    simp only [dIsNaN, dFrac, hf]
    simp
  have hn0 : dIsNaN d0 = false := by decide
  have hk0 : dKey d0 = 0 := by decide
  have hk : dKey x = 0 := by
    simp only [dKey, hz]
    split <;> rfl
  simp [dEq, hn, hn0, hk, hk0]

theorem dEq_nan (x y : Nat) (he : x / 2 ^ 52 % 2 ^ 11 = 2047) (hf : x % 2 ^ 52 ≠ 0) :
    dEq x y = false := by
  have hn : dIsNaN x = true := by
    simp only [dIsNaN, dExp, dFrac, Bool.and_eq_true, beq_iff_eq, bne_iff_ne]
    exact ⟨he, hf⟩
  simp [dEq, hn]

/-- C6: for every 64-bit pattern `x`, `xisinf` holds exactly when the exponent field is all
ones and the mantissa is zero, and `xisnan` exactly when the exponent field is all ones and
the mantissa is not zero, whatever the sign bit; and for every budget `width` and every
destination of at least `c` bytes, `m_dtoa` returns and stores `"0"` for the two zeros, `"inf"`
for +infinity, `"-inf"` for -infinity and `"nan"` for every NaN. -/
theorem C6_special_values (x : Nat) (depth : Nat) (width : Int) (dst : List Nat) (c : Nat)
    (hx : x < 2 ^ 64) (hc : c ≤ dst.length) :
    (xisinf x = true ↔ x / 2 ^ 52 % 2 ^ 11 = 2047 ∧ x % 2 ^ 52 = 0) ∧
    (xisnan x = true ↔ x / 2 ^ 52 % 2 ^ 11 = 2047 ∧ x % 2 ^ 52 ≠ 0) ∧
    (x % 2 ^ 63 = 0 → m_dtoa (depth + 4) dst c x width = .ok (1, stored dst c [48])) ∧
    (x = 0x7FF0000000000000 →
      m_dtoa (depth + 4) dst c x width = .ok (3, stored dst c [105, 110, 102])) ∧
    (x = 0xFFF0000000000000 →
      m_dtoa (depth + 4) dst c x width = .ok (4, stored dst c [45, 105, 110, 102])) ∧
    (x / 2 ^ 52 % 2 ^ 11 = 2047 ∧ x % 2 ^ 52 ≠ 0 →
      m_dtoa (depth + 4) dst c x width = .ok (3, stored dst c [110, 97, 110])) := by
  refine ⟨xisinf_iff x, xisnan_iff x, ?_, ?_, ?_, ?_⟩
  · intro hz
    rw [m_dtoa_succ (depth + 3) dst c _ width]
    simp only [dEq_zero x hz, if_true]
    exact m_snprintf_cstr depth dst c [48] [] (by decide) hc
  · intro h
    subst h
    rw [m_dtoa_succ (depth + 3) dst c _ width]
    rw [if_neg (by decide), if_pos (by decide), if_pos (by decide)]
    exact m_snprintf_cstr depth dst c [105, 110, 102] [] (by decide) hc
  · intro h
    subst h
    rw [m_dtoa_succ (depth + 3) dst c _ width]
    rw [if_neg (by decide), if_pos (by decide), if_neg (by decide)]
    exact m_snprintf_cstr depth dst c [45, 105, 110, 102] [] (by decide) hc
  · intro h
    have h1 : dEq x d0 = false := dEq_nan x d0 h.1 h.2
    have h2 : xisinf x = false := by
      rw [Bool.eq_false_iff, Ne, xisinf_iff]
      exact fun hh => h.2 hh.2
    have h3 : xisnan x = true := (xisnan_iff x).2 h
    rw [m_dtoa_succ (depth + 3) dst c _ width]
    simp only [h1, h2, h3, if_true, Bool.false_eq_true, if_false]
    exact m_snprintf_cstr depth dst c [110, 97, 110] [] (by decide) hc

/-- C6 at the NaN with the sign bit set, `0xFFF8000000000000`, the budget 6 and a destination
of eight bytes. -/
theorem C6_witness :
    (xisinf 0xFFF8000000000000 = true ↔
      0xFFF8000000000000 / 2 ^ 52 % 2 ^ 11 = 2047 ∧ 0xFFF8000000000000 % 2 ^ 52 = 0) ∧
    (xisnan 0xFFF8000000000000 = true ↔
      0xFFF8000000000000 / 2 ^ 52 % 2 ^ 11 = 2047 ∧ 0xFFF8000000000000 % 2 ^ 52 ≠ 0) ∧
    (0xFFF8000000000000 % 2 ^ 63 = 0 →
      m_dtoa (0 + 4) (List.replicate 8 7) 8 0xFFF8000000000000 6 =
        .ok (1, stored (List.replicate 8 7) 8 [48])) ∧
    (0xFFF8000000000000 = 0x7FF0000000000000 →
      m_dtoa (0 + 4) (List.replicate 8 7) 8 0xFFF8000000000000 6 =
        .ok (3, stored (List.replicate 8 7) 8 [105, 110, 102])) ∧
    (0xFFF8000000000000 = 0xFFF0000000000000 →
      m_dtoa (0 + 4) (List.replicate 8 7) 8 0xFFF8000000000000 6 =
        .ok (4, stored (List.replicate 8 7) 8 [45, 105, 110, 102])) ∧
    (0xFFF8000000000000 / 2 ^ 52 % 2 ^ 11 = 2047 ∧ 0xFFF8000000000000 % 2 ^ 52 ≠ 0 →
      m_dtoa (0 + 4) (List.replicate 8 7) 8 0xFFF8000000000000 6 =
        .ok (3, stored (List.replicate 8 7) 8 [110, 97, 110])) :=
  C6_special_values 0xFFF8000000000000 0 6 (List.replicate 8 7) 8 (by decide) (by decide)

/-! ## `m_dtoa` at two inputs -/

/-- C5, at the failing input: for the double nearest to 0.0123456 (pattern
`0x3F8948A661FEF899`, decimal exponent -2) and the budget 6, `m_dtoa` stores `"0.012345"` and
returns 8, and `"%g"` emits the same eight bytes: five significant digits, where the value
rounded to six significant digits is `0.0123456`. -/
theorem C5_failing_input :
    m_dtoa 4 (List.replicate 40 0) 40 0x3F8948A661FEF899 6 =
        .ok (8, [48, 46, 48, 49, 50, 51, 52, 53] ++ List.replicate 32 0) ∧
      m_vxprintf 6 (List Nat) traceOut [] [37, 103, 0] [.dbl 0x3F8948A661FEF899] =
        .ok (8, [48, 46, 48, 49, 50, 51, 52, 53], []) := by
  constructor <;> decide!

/-- C7, at the failing input: for 1234567.2 (pattern `0x4132D68733333333`) and the budget 6,
`m_dtoa` stores `"1.23457e+06"`, and for -1234567.2, the same pattern with the sign bit set,
it stores `"1.23457"`, without the sign and without the exponent; `"%g"` emits these texts. -/
theorem C7_failing_input :
    m_dtoa 6 (List.replicate 40 0) 40 0x4132D68733333333 6 =
        .ok (11, [49, 46, 50, 51, 52, 53, 55, 101, 43, 48, 54] ++ List.replicate 29 0) ∧
      m_dtoa 6 (List.replicate 40 0) 40 (0x4132D68733333333 + 2 ^ 63) 6 =
        .ok (7, [49, 46, 50, 51, 52, 53, 55] ++ List.replicate 33 0) ∧
      m_vxprintf 8 (List Nat) traceOut [] [37, 103, 0] [.dbl (0x4132D68733333333 + 2 ^ 63)] =
        .ok (7, [49, 46, 50, 51, 52, 53, 55], []) := by
  refine ⟨?_, ?_, ?_⟩ <;> decide!

/-! ## The layout of numbers: alternate form and padding -/

theorem numText_hash_length (pad minus w : Nat) (body : List Nat) :
    (numText pad minus w true body).length =
      (if pad = 32 ∧ minus = 0 then w - 2 - body.length else 0) + 2 +
        (if pad = 48 then w - 2 - body.length else 0) + body.length +
        (if pad = 32 ∧ minus ≠ 0 then w - 2 - body.length else 0) := by
  simp only [numText, if_true, List.length_append, List.length_replicate, List.length_cons,
    List.length_nil]
  omega

/-- C11: for every value `v`, every length modifier and every width `W`, the directive `%#x`
with at most one of the flags `-` and `0` emits `max W (k + 2)` bytes, where `k` is the number
of hexadecimal digits of the value: with no other flag `W - 2 - k` spaces, `0x` and the
digits; with `0` the text `0x`, `W - 2 - k` zeros and the digits; with `-` the text `0x`, the
digits and `W - 2 - k` spaces. -/
theorem C11_alternate_hex_layout (depth : Nat) (σ : Type) (out : Nat → σ → σ) (p : σ)
    (minus zero : Bool) (W : Nat) (lm : LenMod) (v : Int) (hW : W < 2 ^ 64)
    (hflags : ¬(minus = true ∧ zero = true)) :
    m_vxprintf (depth + 1) σ out p (37 :: (dirText true minus zero W .unset lm ++ [120] ++ [0]))
        [intArg (decide (lm.is_long ≠ 0)) v] =
      .ok (max W ((lldText 16 false (uint (if lm.is_long ≠ 0 then 64 else 32) v)).length + 2),
        emit out p
          (if minus then
            [48, 120] ++ lldText 16 false (uint (if lm.is_long ≠ 0 then 64 else 32) v) ++
              List.replicate
                (W - 2 - (lldText 16 false (uint (if lm.is_long ≠ 0 then 64 else 32) v)).length) 32
          else if zero then
            [48, 120] ++
              List.replicate
                (W - 2 - (lldText 16 false (uint (if lm.is_long ≠ 0 then 64 else 32) v)).length) 48
              ++ lldText 16 false (uint (if lm.is_long ≠ 0 then 64 else 32) v)
          else
            List.replicate
                (W - 2 - (lldText 16 false (uint (if lm.is_long ≠ 0 then 64 else 32) v)).length) 32
              ++ [48, 120] ++ lldText 16 false (uint (if lm.is_long ≠ 0 then 64 else 32) v)),
        []) := by
  have h := m_vxprintf_int depth σ out p true minus zero W .unset lm 120 v hW (by decide)
  simp only [Prec.args, List.nil_append] at h
  rw [h]
  generalize hs : convText _ _ _ v = body0
  have hbody : body0 = lldText 16 false (uint (if lm.is_long ≠ 0 then 64 else 32) v) := by
    rw [← hs]
    simp [convText]
  rw [hbody]
  generalize lldText 16 false (uint (if lm.is_long ≠ 0 then 64 else 32) v) = body
  have hlen := numText_hash_length (if zero then 48 else 32) (if minus then 1 else 0) W body
  cases minus <;> cases zero
  · simp only [Bool.false_eq_true, if_false] at hlen ⊢
    simp only [numText, if_true, and_self, if_false, Nat.reduceEqDiff, false_and, ne_eq,
      not_true_eq_false, and_false, List.replicate_zero, List.nil_append, List.append_nil,
      List.append_assoc] at hlen ⊢
    simp only [List.length_append, List.length_replicate, List.length_cons, List.length_nil]
    congr 2
    omega
  · simp only [Bool.false_eq_true, if_false, if_true] at hlen ⊢
    simp only [numText, if_true, and_self, if_false, Nat.reduceEqDiff, false_and, ne_eq,
      not_true_eq_false, and_false, List.replicate_zero, List.nil_append, List.append_nil,
      List.append_assoc] at hlen ⊢
    simp only [List.length_append, List.length_replicate, List.length_cons, List.length_nil]
    congr 2
    omega
  · simp only [Bool.false_eq_true, if_false, if_true] at hlen ⊢
    simp only [numText, if_true, and_self, if_false, Nat.reduceEqDiff, false_and, ne_eq,
      not_true_eq_false, and_false, List.replicate_zero, List.nil_append, List.append_nil,
      List.append_assoc, one_ne_zero, not_false_eq_true, and_true, true_and] at hlen ⊢
    simp only [List.length_append, List.length_replicate, List.length_cons, List.length_nil]
    congr 2
    omega
  · exact absurd ⟨rfl, rfl⟩ hflags

/-- C11 at `"%#06x"` with the value 15, whose text is `0x000f`. -/
theorem C11_witness :
    m_vxprintf (0 + 1) (List Nat) traceOut []
        (37 :: (dirText true false true 6 .unset .none ++ [120] ++ [0]))
        [intArg (decide (LenMod.none.is_long ≠ 0)) 15] =
      .ok (max 6 ((lldText 16 false (uint (if LenMod.none.is_long ≠ 0 then 64 else 32) 15)).length
          + 2),
        emit traceOut []
          (if false then
            [48, 120] ++ lldText 16 false (uint (if LenMod.none.is_long ≠ 0 then 64 else 32) 15) ++
              List.replicate
                (6 - 2 -
                  (lldText 16 false (uint (if LenMod.none.is_long ≠ 0 then 64 else 32) 15)).length)
                32
          else if true then
            [48, 120] ++
              List.replicate
                (6 - 2 -
                  (lldText 16 false (uint (if LenMod.none.is_long ≠ 0 then 64 else 32) 15)).length)
                48
              ++ lldText 16 false (uint (if LenMod.none.is_long ≠ 0 then 64 else 32) 15)
          else
            List.replicate
                (6 - 2 -
                  (lldText 16 false (uint (if LenMod.none.is_long ≠ 0 then 64 else 32) 15)).length)
                32
              ++ [48, 120] ++ lldText 16 false (uint (if LenMod.none.is_long ≠ 0 then 64 else 32) 15)),
        []) :=
  C11_alternate_hex_layout 0 (List Nat) traceOut [] false true 6 .none 15 (by norm_num)
    (by decide)

/-- C12, at the failing input: `"%-05d"` of 42 emits `00042`, zeros in front of the number,
where the claim has the number followed by three spaces. -/
theorem C12_failing_input :
    m_vxprintf 1 (List Nat) traceOut [] [37, 45, 48, 53, 100, 0] [.int 42] =
      .ok (5, [48, 48, 48, 52, 50], []) := by decide!

/-! ## Literal text and unknown conversions -/

/-- The loop of `m_vxprintf` on bytes that are neither `'%'` nor NUL passes them to the sink. -/
theorem vx_loop_text {σ : Type} (dtoa : List Nat → Nat → Nat → Int → Res (Nat × List Nat))
    (fcall : FmtFn → σ → List Arg → Res (Nat × σ × List Arg)) (out : Nat → σ → σ)
    (fmt : List Nat) (ap : List Arg) (T : List Nat) (fuel : Nat) :
    ∀ (lit : List Nat) (i n : Nat) (p : σ), (∀ b ∈ lit, b ≠ 0 ∧ b ≠ 37) →
      fmt.drop i = lit ++ T →
      vx_loop dtoa fcall out fmt (fuel + lit.length) i n p ap =
        vx_loop dtoa fcall out fmt fuel (i + lit.length) (n + lit.length) (emit out p lit) ap := by
  intro lit
  induction lit with
  | nil => intro i n p _ _; rfl
  | cons b lit ih =>
    intro i n p hlit h
    have hb := hlit b (List.mem_cons_self _ _)
    have h1 : fmt.drop i = b :: (lit ++ T) := by simpa using h
    have hstep := vx_loop_literal dtoa fcall out fmt (fuel + lit.length) i n p ap h1 hb.1 hb.2
    have e1 : fuel + (b :: lit).length = fuel + lit.length + 1 := by simp; omega
    rw [e1, hstep, ih (i + 1) (n + 1) (out b p)
      (fun x hx => hlit x (List.mem_cons_of_mem _ hx)) (drop_succ_of_drop h1)]
    have e2 : i + 1 + lit.length = i + (b :: lit).length := by simp; omega
    have e3 : n + 1 + lit.length = n + (b :: lit).length := by simp; omega
    rw [e2, e3, emit_cons]

/-- A directive whose conversion character is not known: `'%'` and the character. -/
theorem vx_directive_other {σ : Type} (dtoa : List Nat → Nat → Nat → Int → Res (Nat × List Nat))
    (fcall : FmtFn → σ → List Arg → Res (Nat × σ × List Arg)) (out : Nat → σ → σ)
    (fmt : List Nat) (i n : Nat) (p : σ) (hash minus zero : Bool) (W : Nat) (prec : Prec)
    (lm : LenMod) (c : Nat) (T : List Nat) (ap : List Arg)
    (h : fmt.drop (i + 1) = dirText hash minus zero W prec lm ++ c :: T) (hW : W < 2 ^ 64)
    (hconv : isConv c = false) (hdir : isDirChar c = false) :
    vx_directive dtoa fcall out fmt i n p (prec.args ++ ap) =
      .ok (i + 1 + (dirText hash minus zero W prec lm).length + 1, n + 2, out c (out 37 p), ap) := by
  simp only [isConv, List.mem_cons, List.mem_singleton, List.not_mem_nil, or_false,
    decide_eq_false_iff_not, not_or] at hconv
  simp only [isDirChar, List.mem_cons, List.mem_singleton, List.not_mem_nil, or_false,
    Bool.or_eq_false_iff, decide_eq_false_iff_not, not_or] at hdir
  obtain ⟨⟨h35, h45, h46, h104, h108⟩, hcd⟩ := hdir
  obtain ⟨h100, h117, h120, h88, h112, h103, h102, h99, h115, h77, h37⟩ := hconv
  obtain ⟨hp, _⟩ := parse_directive_spec fmt i hash minus zero W prec lm c T ap h hW h35 h45 h46
    h104 h108 hcd
  unfold vx_directive
  simp only [hp, bind, Except.bind]
  simp only [h100, h117, h120, h88, h112, h103, h102, h99, h115, h77, h37, or_self, if_false,
    pure, Except.pure]

/-- C13, as stated, fails: the directive `%5v` is not emitted unchanged; its width is dropped
and the two bytes `%v` are emitted. -/
theorem C13_counterexample :
    m_vxprintf 1 (List Nat) traceOut [] [37, 53, 118, 0] [] = .ok (2, [37, 118], []) ∧
      [37, 118] ≠ [37, 53, 118] := by
  constructor
  · decide!
  · decide

/-- C13 (amended): in a format text made of literal bytes `pre`, a directive with flags, a
width, a precision and a length modifier whose conversion character `c` is not one of
`d u x X p g f c s M %` (and is not taken for a part of the directive), and literal bytes
`post`, `m_vxprintf` emits `pre`, the two bytes `'%'` and `c`, and `post`; it returns their
number without a fault, and it pulls no argument but the one of a precision `*`. -/
theorem C13_unknown_conversion (depth : Nat) (σ : Type) (out : Nat → σ → σ) (p : σ)
    (pre post : List Nat) (hash minus zero : Bool) (W : Nat) (prec : Prec) (lm : LenMod) (c : Nat)
    (ap : List Arg) (hpre : ∀ b ∈ pre, b ≠ 0 ∧ b ≠ 37) (hpost : ∀ b ∈ post, b ≠ 0 ∧ b ≠ 37)
    (hW : W < 2 ^ 64) (hconv : isConv c = false) (hdir : isDirChar c = false) :
    m_vxprintf (depth + 1) σ out p
        (pre ++ 37 :: (dirText hash minus zero W prec lm ++ c :: (post ++ [0]))) (prec.args ++ ap) =
      .ok (pre.length + 2 + post.length, emit out p (pre ++ 37 :: c :: post), ap) := by
  rw [m_vxprintf]
  generalize hfmt : pre ++ 37 :: (dirText hash minus zero W prec lm ++ c :: (post ++ [0])) = fmt
  generalize hdl : (dirText hash minus zero W prec lm).length = dl
  have hlen : fmt.length + 1 = dl + post.length + 4 + pre.length := by
    rw [← hfmt, ← hdl]
    simp only [List.length_append, List.length_cons, List.length_nil]
    omega
  have h0 : fmt.drop 0 = pre ++ 37 :: (dirText hash minus zero W prec lm ++ c :: (post ++ [0])) := by
    rw [List.drop_zero, hfmt]
  have h1 : fmt.drop (0 + pre.length) =
      37 :: (dirText hash minus zero W prec lm ++ c :: (post ++ [0])) := drop_add_of_drop pre h0
  have h2 : fmt.drop (0 + pre.length + 1) =
      dirText hash minus zero W prec lm ++ c :: (post ++ [0]) := drop_succ_of_drop h1
  have h3 : fmt.drop (0 + pre.length + 1 + dl) = c :: (post ++ [0]) := by
    rw [← hdl]
    exact drop_add_of_drop _ h2
  have h4 : fmt.drop (0 + pre.length + 1 + dl + 1) = post ++ [0] := drop_succ_of_drop h3
  have h5 : fmt.drop (0 + pre.length + 1 + dl + 1 + post.length) = [0] := drop_add_of_drop post h4
  rw [hlen, vx_loop_text _ _ out fmt _ _ (dl + post.length + 4) pre 0 0 p hpre h0]
  have hd := fun dtoa fcall => vx_directive_other (σ := σ) dtoa fcall out fmt (0 + pre.length)
    (0 + pre.length) (emit out p pre) hash minus zero W prec lm c (post ++ [0]) ap h2 hW hconv hdir
  rw [hdl] at hd
  rw [show dl + post.length + 4 = dl + post.length + 3 + 1 by omega,
    vx_loop_directive _ _ out fmt _ _ _ _ _ h1 (hd _ _)]
  rw [show dl + post.length + 3 = dl + 3 + post.length by omega,
    vx_loop_text _ _ out fmt _ _ (dl + 3) post _ _ _ hpost h4]
  rw [show dl + 3 = dl + 2 + 1 by omega, vx_loop_end _ _ out fmt _ _ _ _ _ h5]
  simp only [emit_append, emit_cons, Nat.zero_add]

/-- C13 (amended) at the format `"a%-5.*lvb"` with the arguments 3 and 7: the directive
becomes `%v`, the 3 is pulled for `*` and the 7 is left. -/
theorem C13_witness :
    m_vxprintf (0 + 1) (List Nat) traceOut []
        ([97] ++ 37 :: (dirText false true false 5 (Prec.star 3) LenMod.l ++ 118 :: ([98] ++ [0])))
        ((Prec.star 3).args ++ [.int 7]) =
      .ok ([97].length + 2 + [98].length, emit traceOut [] ([97] ++ 37 :: 118 :: [98]), [.int 7]) :=
  C13_unknown_conversion 0 (List Nat) traceOut [] [97] [98] false true false 5 (Prec.star 3)
    LenMod.l 118 [.int 7] (by decide) (by decide) (by norm_num) (by decide) (by decide)

/-! ## The counter of the sink -/

theorem emit_count (t : List Nat) : ∀ k : Nat, emit (fun _ k => k + 1) k t = k + t.length := by
  induction t with
  | nil => intro k; rfl
  | cons b t ih =>
    intro k
    rw [emit_cons, ih]
    simp only [List.length_cons]
    omega

/-- C14: when a run of `m_vxprintf` passes the bytes `t` to its sink (the run on the sink
that records every call of the callback returns `t`) and returns `n`, then `n` is the number
of these bytes; the run on a sink that only counts the calls ends with the count `n`; and for
every destination and capacity `c`, also below `n`, the run on the buffer sink ends with
`mb.len = n` and `mb.size = c`, and `m_vsnprintf` returns `n`. -/
theorem C14_counter_invariant (depth : Nat) (fmt : List Nat) (ap : List Arg) (n : Nat)
    (t : List Nat) (ap1 : List Arg)
    (h : m_vxprintf depth (List Nat) traceOut [] fmt ap = .ok (n, t, ap1)) :
    n = t.length ∧
      m_vxprintf depth Nat (fun _ k => k + 1) 0 fmt ap = .ok (n, n, ap1) ∧
      ∀ (buf : List Nat) (c : Nat), ∃ mb : m_buf,
        m_vxprintf depth m_buf m_out_buf { buf := buf, size := c, len := 0 } fmt ap =
            .ok (n, mb, ap1) ∧
          mb.len = n ∧ mb.size = c ∧
          ∃ b, m_vsnprintf (depth + 1) buf c fmt ap = .ok (n, b, ap1) := by
  obtain ⟨hn, hall⟩ := m_vxprintf_of_trace depth fmt ap n t ap1 h
  refine ⟨hn, ?_, fun buf c => ?_⟩
  · rw [hall, emit_count, hn, Nat.zero_add]
  · have hsz := emit_out_buf_size t { buf := buf, size := c, len := 0 }
    refine ⟨emit m_out_buf { buf := buf, size := c, len := 0 } t, ?_, ?_, hsz.1, ?_⟩
    · rw [hall, hn]
    · rw [hsz.2.1, hn, Nat.zero_add]
    · rw [m_vsnprintf_of_vx depth buf c fmt ap t ap1 (hall _ _ _), hn]
      exact ⟨_, rfl⟩

/-- C14 at the format `"_%M_%d"` of the test, with `m_fmt_quo`, `m_fmt_ip4`, the address
127.0.0.1 and 123, whose 16 bytes are `_"127.0.0.1"_123`. -/
theorem C14_witness :
    16 = [95, 34, 49, 50, 55, 46, 48, 46, 48, 46, 49, 34, 95, 49, 50, 51].length ∧
      m_vxprintf 7 Nat (fun _ k => k + 1) 0 [95, 37, 77, 95, 37, 100, 0]
          [.fn .quo, .fn .ip4, .ptr (some [127, 0, 0, 1]), .int 123] = .ok (16, 16, []) ∧
      ∀ (buf : List Nat) (c : Nat), ∃ mb : m_buf,
        m_vxprintf 7 m_buf m_out_buf { buf := buf, size := c, len := 0 }
            [95, 37, 77, 95, 37, 100, 0]
            [.fn .quo, .fn .ip4, .ptr (some [127, 0, 0, 1]), .int 123] = .ok (16, mb, []) ∧
          mb.len = 16 ∧ mb.size = c ∧
          ∃ b, m_vsnprintf (7 + 1) buf c [95, 37, 77, 95, 37, 100, 0]
            [.fn .quo, .fn .ip4, .ptr (some [127, 0, 0, 1]), .int 123] = .ok (16, b, []) :=
  C14_counter_invariant 7 [95, 37, 77, 95, 37, 100, 0]
    [.fn .quo, .fn .ip4, .ptr (some [127, 0, 0, 1]), .int 123] 16
    [95, 34, 49, 50, 55, 46, 48, 46, 48, 46, 49, 34, 95, 49, 50, 51] [] (by decide!)

/-! ## `%M` and `m_fmt_quo` -/

theorem m_fmt_call_uniform (depth : Nat) (f : FmtFn) (ap : List Arg) :
    ∃ r : Res (List Nat × List Arg), ∀ (σ : Type) (out : Nat → σ → σ) (p : σ),
      m_fmt_call depth σ out f p ap = r.map (fun x => (x.1.length, emit out p x.1, x.2)) :=
  (uniform_all depth).2.2.2.2.2.2 f ap

/-- A run of a `%M` function on the sink that records the bytes fixes the run on every sink. -/
theorem m_fmt_call_of_trace (depth : Nat) (f : FmtFn) (ap : List Arg) (n : Nat)
    (t : List Nat) (ap1 : List Arg)
    (h : m_fmt_call depth (List Nat) traceOut f [] ap = .ok (n, t, ap1)) :
    n = t.length ∧ ∀ (σ : Type) (out : Nat → σ → σ) (p : σ),
      m_fmt_call depth σ out f p ap = .ok (t.length, emit out p t, ap1) := by
  obtain ⟨r, hr⟩ := m_fmt_call_uniform depth f ap
  rw [hr] at h
  cases r with
  | error e => simp [Except.map] at h
  | ok x =>
    simp only [Except.map, Except.ok.injEq, Prod.mk.injEq, emit_traceOut, List.nil_append] at h
    obtain ⟨h1, h2, h3⟩ := h
    subst h2
    refine ⟨h1.symm, fun σ out p => ?_⟩
    rw [hr, ← h3]
    rfl

/-- The directive `%M`: the function is pulled and called on the sink and the arguments. -/
theorem vx_directive_M {σ : Type} (dtoa : List Nat → Nat → Nat → Int → Res (Nat × List Nat))
    (fcall : FmtFn → σ → List Arg → Res (Nat × σ × List Arg)) (out : Nat → σ → σ)
    (fmt : List Nat) (i n : Nat) (p : σ) (T : List Nat) (f : FmtFn) (ap : List Arg)
    (h : fmt.drop i = 37 :: 77 :: T) {m : Nat} {p1 : σ} {ap1 : List Arg}
    (hf : fcall f p ap = .ok (m, p1, ap1)) :
    vx_directive dtoa fcall out fmt i n p (.fn f :: ap) = .ok (i + 2, n + m, p1, ap1) := by
  have h1 : fmt.drop (i + 1) = dirText false false false 0 .unset .none ++ 77 :: T := by
    rw [drop_succ_of_drop h]
    simp [dirText, decText_zero, Prec.text, LenMod.text]
  obtain ⟨hp, _⟩ := parse_directive_spec fmt i false false false 0 .unset .none 77 T
    (.fn f :: ap) h1 (by norm_num) (by decide) (by decide) (by decide) (by decide) (by decide)
    (by decide)
  simp only [Prec.args, List.nil_append] at hp
  have hl : (dirText false false false 0 .unset .none).length = 0 := by
    simp [dirText, decText_zero, Prec.text, LenMod.text]
  unfold vx_directive
  simp only [hp, bind, Except.bind, hl]
  simp only [Nat.reduceEqDiff, or_self, if_false, if_true, va_fn, hf, pure, Except.pure]

/-- The call of `m_fmt_quo`: the sink gets `'"'`, the callee runs, the sink gets `'"'`. -/
theorem fmt_quo_spec {σ : Type} (fcall : FmtFn → σ → List Arg → Res (Nat × σ × List Arg))
    (out : Nat → σ → σ) (p : σ) (f : FmtFn) (args : List Arg) {m : Nat} {p1 : σ}
    {ap1 : List Arg} (hf : fcall f (out 34 p) args = .ok (m, p1, ap1)) :
    fmt_quo fcall out p (.fn f :: args) = .ok (2 + m, out 34 p1, ap1) := by
  simp only [fmt_quo, va_fn, bind, Except.bind, hf, pure, Except.pure]

theorem m_fmt_call_quo (depth : Nat) (σ : Type) (out : Nat → σ → σ) (q : σ) (a : List Arg) :
    m_fmt_call (depth + 2) σ out .quo q a =
      fmt_quo (fun g q1 a1 => m_fmt_call depth σ out g q1 a1) out q a := by
  rw [m_fmt_call, m_fmt_quo]

/-- The directive `%M` with `m_fmt_quo` and a callee, for any meaning of the other pointers. -/
theorem vx_directive_quo {σ : Type} (dtoa : List Nat → Nat → Nat → Int → Res (Nat × List Nat))
    (fcall fcall1 : FmtFn → σ → List Arg → Res (Nat × σ × List Arg)) (out : Nat → σ → σ)
    (fmt : List Nat) (i n : Nat) (p : σ) (T : List Nat) (f : FmtFn) (args : List Arg)
    (h : fmt.drop i = 37 :: 77 :: T) {m : Nat} {p1 : σ} {ap1 : List Arg}
    (hquo : ∀ q a, fcall .quo q a = fmt_quo fcall1 out q a)
    (hf : fcall1 f (out 34 p) args = .ok (m, p1, ap1)) :
    vx_directive dtoa fcall out fmt i n p (.fn .quo :: .fn f :: args) =
      .ok (i + 2, n + (2 + m), out 34 p1, ap1) :=
  vx_directive_M dtoa fcall out fmt i n p T .quo (.fn f :: args) h
    (by rw [hquo]; exact fmt_quo_spec fcall1 out p f args hf)

/-- An extension function of the caller under `m_fmt_quo`: one that emits `A`, returns 1
and pulls one argument. -/
theorem fmt_quo_example :
    fmt_quo (fun _ q a => .ok (1, traceOut 65 q, a.drop 1)) traceOut []
        [.fn .ip4, .int 5, .int 6] = .ok (3, [34, 65, 34], [.int 6]) := by
  decide

/-- C15: for every extension function, that is for every pointer `f` and every meaning
`fcall1` of a call through a pointer, and for every argument list: when the call of `f` on the
sink that has received `'"'` returns `m` and leaves the sink `p1` and the arguments `ap1`,
then `m_fmt_quo`, given `f` and the arguments, returns `2 + m`, leaves the sink `p1` with a
further `'"'` and the arguments `ap1`; when `f` has emitted the bytes `t`, the sink has
received `'"'`, `t` and `'"'`. The directive `%M` with `m_fmt_quo` does so at any place of a
format text, and the loop of `m_vxprintf` goes on behind the directive with the arguments
`ap1`. The dispatcher `m_fmt_call` of the file takes `m_fmt_quo` for the pointer `quo`, and for
a function `f` of the file `m_vxprintf` goes on in the same way. -/
theorem C15_quote_composition {σ : Type} (out : Nat → σ → σ) (p : σ)
    (fcall fcall1 : FmtFn → σ → List Arg → Res (Nat × σ × List Arg)) (f : FmtFn)
    (args : List Arg) (m : Nat) (p1 : σ) (ap1 : List Arg)
    (hquo : ∀ q a, fcall .quo q a = fmt_quo fcall1 out q a)
    (hf : fcall1 f (out 34 p) args = .ok (m, p1, ap1)) :
    fmt_quo fcall1 out p (.fn f :: args) = .ok (2 + m, out 34 p1, ap1) ∧
      (∀ t : List Nat, p1 = emit out (out 34 p) t →
        out 34 p1 = emit out p (34 :: (t ++ [34]))) ∧
      (∀ (dtoa : List Nat → Nat → Nat → Int → Res (Nat × List Nat)) (fmt : List Nat) (i n : Nat)
          (T : List Nat), fmt.drop i = 37 :: 77 :: T →
        vx_directive dtoa fcall out fmt i n p (.fn .quo :: .fn f :: args) =
          .ok (i + 2, n + (2 + m), out 34 p1, ap1)) ∧
      (∀ (dtoa : List Nat → Nat → Nat → Int → Res (Nat × List Nat)) (rest : List Nat)
          (fuel : Nat),
        vx_loop dtoa fcall out (37 :: 77 :: rest) (fuel + 1) 0 0 p (.fn .quo :: .fn f :: args) =
          vx_loop dtoa fcall out (37 :: 77 :: rest) fuel 2 (2 + m) (out 34 p1) ap1) ∧
      (∀ (depth : Nat) (q : σ) (a : List Arg),
        m_fmt_call (depth + 2) σ out .quo q a =
          fmt_quo (fun g q1 a1 => m_fmt_call depth σ out g q1 a1) out q a) ∧
      (∀ depth : Nat, (∀ q a, fcall1 f q a = m_fmt_call depth σ out f q a) →
        ∀ rest : List Nat,
          m_vxprintf (depth + 3) σ out p (37 :: 77 :: rest) (.fn .quo :: .fn f :: args) =
            vx_loop (fun dst dstlen d width => m_dtoa (depth + 2) dst dstlen d width)
              (fun g q a => m_fmt_call (depth + 2) σ out g q a) out (37 :: 77 :: rest)
              (rest.length + 2) 2 (2 + m) (out 34 p1) ap1) := by
  refine ⟨fmt_quo_spec fcall1 out p f args hf, ?_, ?_, ?_,
    fun depth q a => m_fmt_call_quo depth σ out q a, ?_⟩
  · intro t ht
    rw [ht, emit_cons, emit_append, emit_cons, emit_nil]
  · intro dtoa fmt i n T hd
    exact vx_directive_quo dtoa fcall fcall1 out fmt i n p T f args hd hquo hf
  · intro dtoa rest fuel
    rw [vx_loop_directive dtoa fcall out _ fuel 0 0 p _ (T := 77 :: rest) rfl
      (vx_directive_quo dtoa fcall fcall1 out _ 0 0 p rest f args rfl hquo hf)]
    simp only [Nat.zero_add]
  · intro depth hfile rest
    have hf1 : (fun g q a => m_fmt_call depth σ out g q a) f (out 34 p) args =
        .ok (m, p1, ap1) := by
      rw [← hf]
      exact (hfile _ _).symm
    rw [m_vxprintf]
    have hlen : (37 :: 77 :: rest).length + 1 = rest.length + 2 + 1 := by simp
    rw [hlen, vx_loop_directive _ _ out _ _ 0 0 p _ (T := 77 :: rest) rfl
      (vx_directive_quo _ (fun g q a => m_fmt_call (depth + 2) σ out g q a)
        (fun g q a => m_fmt_call depth σ out g q a) out _ 0 0 p rest f args rfl
        (fun q a => m_fmt_call_quo depth σ out q a) hf1)]
    simp only [Nat.zero_add]

/-- C15 at `m_fmt_ip4` with the address 127.0.0.1 followed by the argument 123, as in the
test `"_%M_%d"`, with the functions of the file for the pointers: after the `'"'` the
function emits `127.0.0.1`, 9 bytes, and leaves the 123. -/
theorem C15_witness :
    fmt_quo (fun g q a => m_fmt_call 4 (List Nat) traceOut g q a) traceOut []
          (.fn .ip4 :: [.ptr (some [127, 0, 0, 1]), .int 123]) =
        .ok (2 + 9, traceOut 34 [34, 49, 50, 55, 46, 48, 46, 48, 46, 49], [.int 123]) ∧
      (∀ t : List Nat,
        [34, 49, 50, 55, 46, 48, 46, 48, 46, 49] = emit traceOut (traceOut 34 []) t →
        traceOut 34 [34, 49, 50, 55, 46, 48, 46, 48, 46, 49] =
          emit traceOut [] (34 :: (t ++ [34]))) ∧
      (∀ (dtoa : List Nat → Nat → Nat → Int → Res (Nat × List Nat)) (fmt : List Nat) (i n : Nat)
          (T : List Nat), fmt.drop i = 37 :: 77 :: T →
        vx_directive dtoa (fun g q a => m_fmt_call 6 (List Nat) traceOut g q a) traceOut fmt i n
            [] (.fn .quo :: .fn .ip4 :: [.ptr (some [127, 0, 0, 1]), .int 123]) =
          .ok (i + 2, n + (2 + 9), traceOut 34 [34, 49, 50, 55, 46, 48, 46, 48, 46, 49],
            [.int 123])) ∧
      (∀ (dtoa : List Nat → Nat → Nat → Int → Res (Nat × List Nat)) (rest : List Nat)
          (fuel : Nat),
        vx_loop dtoa (fun g q a => m_fmt_call 6 (List Nat) traceOut g q a) traceOut
            (37 :: 77 :: rest) (fuel + 1) 0 0 []
            (.fn .quo :: .fn .ip4 :: [.ptr (some [127, 0, 0, 1]), .int 123]) =
          vx_loop dtoa (fun g q a => m_fmt_call 6 (List Nat) traceOut g q a) traceOut
            (37 :: 77 :: rest) fuel 2 (2 + 9)
            (traceOut 34 [34, 49, 50, 55, 46, 48, 46, 48, 46, 49]) [.int 123]) ∧
      (∀ (depth : Nat) (q : List Nat) (a : List Arg),
        m_fmt_call (depth + 2) (List Nat) traceOut .quo q a =
          fmt_quo (fun g q1 a1 => m_fmt_call depth (List Nat) traceOut g q1 a1) traceOut q a) ∧
      (∀ depth : Nat,
        (∀ q a, (fun g q a => m_fmt_call 4 (List Nat) traceOut g q a) .ip4 q a =
          m_fmt_call depth (List Nat) traceOut .ip4 q a) →
        ∀ rest : List Nat,
          m_vxprintf (depth + 3) (List Nat) traceOut [] (37 :: 77 :: rest)
              (.fn .quo :: .fn .ip4 :: [.ptr (some [127, 0, 0, 1]), .int 123]) =
            vx_loop (fun dst dstlen d width => m_dtoa (depth + 2) dst dstlen d width)
              (fun g q a => m_fmt_call (depth + 2) (List Nat) traceOut g q a) traceOut
              (37 :: 77 :: rest) (rest.length + 2) 2 (2 + 9)
              (traceOut 34 [34, 49, 50, 55, 46, 48, 46, 48, 46, 49]) [.int 123]) :=
  C15_quote_composition traceOut [] (fun g q a => m_fmt_call 6 (List Nat) traceOut g q a)
    (fun g q a => m_fmt_call 4 (List Nat) traceOut g q a) .ip4
    [.ptr (some [127, 0, 0, 1]), .int 123] 9 [34, 49, 50, 55, 46, 48, 46, 48, 46, 49] [.int 123]
    (fun q a => m_fmt_call_quo 4 (List Nat) traceOut q a) (by decide!)

/-! ## `m_fmt_esc` -/

theorem m_esc_spec (c : Nat) (hc : c ≠ 0) : m_esc c true = .ok ((escLetter c).getD 0) := by
  simp only [m_esc, m_esc_loop, esc1, esc2, rd, if_true, bind, Except.bind, escLetter]
  by_cases h8 : c = 8
  · subst h8; rfl
  by_cases h12 : c = 12
  · subst h12; rfl
  by_cases h10 : c = 10
  · subst h10; rfl
  by_cases h13 : c = 13
  · subst h13; rfl
  by_cases h9 : c = 9
  · subst h9; rfl
  by_cases h92 : c = 92
  · subst h92; rfl
  by_cases h34 : c = 34
  · subst h34; rfl
  have e8 : ¬ 8 = c := fun h => h8 h.symm
  have e12 : ¬ 12 = c := fun h => h12 h.symm
  have e10 : ¬ 10 = c := fun h => h10 h.symm
  have e13 : ¬ 13 = c := fun h => h13 h.symm
  have e9 : ¬ 9 = c := fun h => h9 h.symm
  have e92 : ¬ 92 = c := fun h => h92 h.symm
  have e34 : ¬ 34 = c := fun h => h34 h.symm
  simp [h8, h12, h10, h13, h9, h92, h34, e8, e12, e10, e13, e9, e92, e34, pure, Except.pure]

theorem escLetter_ne_zero (b l : Nat) (h : escLetter b = some l) : l ≠ 0 := by
  unfold escLetter at h
  repeat' split at h
  all_goals first
    | (simp only [Option.some.injEq] at h; omega)
    | exact absurd h (by simp)

theorem m_fmt_esc_loop_spec {σ : Type} (out : Nat → σ → σ) (m : List Nat) (rest : List Nat) :
    ∀ (s : List Nat) (fuel i n : Nat) (p : σ), (∀ b ∈ s, b ≠ 0) → m.drop i = s ++ 0 :: rest →
      s.length < fuel →
      m_fmt_esc_loop out (some m) fuel i n p =
        .ok (n + (escText s).length, emit out p (escText s)) := by
  intro s
  induction s with
  | nil =>
    intro fuel i n p _ h hf
    obtain ⟨fuel, rfl⟩ : ∃ k, fuel = k + 1 := ⟨fuel - 1, by simp at hf; omega⟩
    have hrd : rd m i = .ok 0 := rd_of_drop (by simpa using h)
    simp [m_fmt_esc_loop, hrd, bind, Except.bind, escText, emit, pure, Except.pure]
  | cons b s ih =>
    intro fuel i n p hs h hf
    obtain ⟨fuel, rfl⟩ : ∃ k, fuel = k + 1 := ⟨fuel - 1, by simp at hf; omega⟩
    have hb : b ≠ 0 := hs b (List.mem_cons_self _ _)
    have h1 : m.drop i = b :: (s ++ 0 :: rest) := by simpa using h
    have hrd : rd m i = .ok b := rd_of_drop h1
    have hnext := fun n p => ih fuel (i + 1) n p (fun x hx => hs x (List.mem_cons_of_mem _ hx))
      (drop_succ_of_drop h1) (by simp at hf; omega)
    rw [m_fmt_esc_loop]
    simp only [hrd, bind, Except.bind, ne_eq, hb, not_false_eq_true, if_true, m_esc_spec b hb]
    cases hl : escLetter b with
    | none =>
      simp only [Option.getD_none, not_true_eq_false, if_false, hnext, escText, hl,
        List.singleton_append, List.length_cons, emit_cons]
      congr 2
      omega
    | some l =>
      have hl0 := escLetter_ne_zero b l hl
      simp only [Option.getD_some, hl0, not_false_eq_true, if_true, hnext, escText, hl,
        List.cons_append, List.nil_append, List.length_cons, emit_cons]
      congr 2
      omega

theorem escText_length (s : List Nat) :
    (escText s).length = s.length + (s.filter (fun b => (escLetter b).isSome)).length := by
  induction s with
  | nil => rfl
  | cons b s ih =>
    cases hl : escLetter b with
    | none =>
      simp only [escText, hl, List.singleton_append, List.length_cons, ih, List.filter_cons,
        Option.isSome_none, Bool.false_eq_true, if_false]
      omega
    | some l =>
      simp only [escText, hl, List.cons_append, List.nil_append, List.length_cons, ih,
        List.filter_cons, Option.isSome_some, if_true]
      omega

/-- C17: for every string `s` without a zero byte, followed by its terminator, `m_fmt_esc`
emits for each byte of `s` in order a backslash and the letter of its escape when the byte is
a backspace, form feed, newline, carriage return, tab, backslash or double quote, and the
byte itself otherwise; it returns the length of `s` plus the number of escaped bytes and
leaves the arguments behind the pointer; for a null pointer it emits nothing and returns 0. -/
theorem C17_escape (σ : Type) (out : Nat → σ → σ) (p : σ) (s rest : List Nat) (ap : List Arg)
    (hs : ∀ b ∈ s, b ≠ 0) :
    m_fmt_esc out p (.ptr (some (s ++ 0 :: rest)) :: ap) =
        .ok (s.length + (s.filter (fun b => (escLetter b).isSome)).length,
          emit out p (escText s), ap) ∧
      m_fmt_esc out p (.ptr none :: ap) = .ok (0, p, ap) := by
  constructor
  · have h := m_fmt_esc_loop_spec out (s ++ 0 :: rest) rest s ((s ++ 0 :: rest).length + 1) 0 0 p hs
      (by simp) (by simp; omega)
    simp only [m_fmt_esc, va_ptr, bind, Except.bind, deref, Option.getD_some, h, pure, Except.pure,
      Nat.zero_add, escText_length]
  · simp [m_fmt_esc, va_ptr, bind, Except.bind, deref, m_fmt_esc_loop, pure, Except.pure]

/-- C17 at the string `ab`, newline, `c`, tab, `d`, whose escaped text is
`ab\nc\td`, 9 bytes. -/
theorem C17_witness :
    m_fmt_esc traceOut [] (.ptr (some ([97, 98, 10, 99, 9, 100] ++ 0 :: [])) :: []) =
        .ok ([97, 98, 10, 99, 9, 100].length +
            ([97, 98, 10, 99, 9, 100].filter (fun b => (escLetter b).isSome)).length,
          emit traceOut [] (escText [97, 98, 10, 99, 9, 100]), []) ∧
      m_fmt_esc traceOut [] (.ptr none :: []) = .ok (0, [], []) :=
  C17_escape (List Nat) traceOut [] [97, 98, 10, 99, 9, 100] [] [] (by decide)

/-! ## `m_fmt_b64` -/

/-- The test vectors of RFC 4648, section 10, and the one of the repository's test. -/
theorem base64_encode_vectors :
    base64_encode [] = [] ∧
      base64_encode [102] = [90, 103, 61, 61] ∧
      base64_encode [102, 111] = [90, 109, 56, 61] ∧
      base64_encode [102, 111, 111] = [90, 109, 57, 118] ∧
      base64_encode [102, 111, 111, 98] = [90, 109, 57, 118, 89, 103, 61, 61] ∧
      base64_encode [102, 111, 111, 98, 97] = [90, 109, 57, 118, 89, 109, 69, 61] ∧
      base64_encode [102, 111, 111, 98, 97, 114] = [90, 109, 57, 118, 89, 109, 70, 121] ∧
      base64_encode [120, 121, 122] = [101, 72, 108, 54] := by decide

theorem rd_b64_t (v : Nat) (h : v < 64) : rd b64_t v = .ok (b64char v) := by
  interval_cases v <;> rfl

theorem b64char_ne_zero (v : Nat) : b64char v ≠ 0 := by
  unfold b64char
  repeat' split
  all_goals omega

theorem b64char_ne_pad (v : Nat) (h : v < 64) : b64char v ≠ 61 := by
  unfold b64char
  repeat' split
  all_goals omega

theorem b64val_b64char (v : Nat) (h : v < 64) : b64val (b64char v) = v := by
  interval_cases v <;> rfl

theorem shl_or (a b i : Nat) (hb : b < 2 ^ i) : (a <<< i) ||| b = a * 2 ^ i + b := by
  rw [Nat.shiftLeft_eq, Nat.mul_comm, ← Nat.mul_add_lt_is_or hb]

theorem b64_idx1 (c1 c2 : Nat) (h2 : c2 < 256) :
    ((c1 &&& 3) <<< 4) ||| (c2 >>> 4) = c1 % 4 * 16 + c2 / 16 := by
  have ha : c1 &&& 3 = c1 % 4 := Nat.and_pow_two_sub_one_eq_mod c1 2
  have hs : c2 >>> 4 = c2 / 16 := Nat.shiftRight_eq_div_pow c2 4
  rw [ha, hs, shl_or _ _ 4 (by norm_num; omega)]
  norm_num

theorem b64_idx2 (c2 c3 : Nat) (h3 : c3 < 256) :
    ((c2 &&& 15) <<< 2) ||| (c3 >>> 6) = c2 % 16 * 4 + c3 / 64 := by
  have ha : c2 &&& 15 = c2 % 16 := Nat.and_pow_two_sub_one_eq_mod c2 4
  have hs : c3 >>> 6 = c3 / 64 := Nat.shiftRight_eq_div_pow c3 6
  rw [ha, hs, shl_or _ _ 2 (by norm_num; omega)]
  norm_num

theorem b64_idx3 (c3 : Nat) : c3 &&& 63 = c3 % 64 := Nat.and_pow_two_sub_one_eq_mod c3 6

theorem b64_idx0 (c1 : Nat) : c1 >>> 2 = c1 / 4 := Nat.shiftRight_eq_div_pow c1 2

theorem scpy_four {σ : Type} (out : Nat → σ → σ) (p : σ) (a b c d : Nat) (ha : a ≠ 0)
    (hb : b ≠ 0) (hc : c ≠ 0) (hd : d ≠ 0) :
    scpy out p [a, b, c, d] 4 = .ok (4, emit out p [a, b, c, d]) := by
  have hspan : scpySpan [a, b, c, d] 4 = [a, b, c, d] := by
    have := scpySpan_of_ne_zero [a, b, c, d] [] (by
      intro x hx
      simp only [List.mem_cons, List.mem_singleton, List.not_mem_nil, or_false] at hx
      rcases hx with rfl | rfl | rfl | rfl <;> assumption)
    simpa using this
  have := scpy_spec out p [a, b, c, d] 4 (Or.inl (by rw [hspan]; rfl))
  rw [hspan] at this
  exact this

theorem m_fmt_b64_loop_spec {σ : Type} (out : Nat → σ → σ) (buf : List Nat) (len : Nat)
    (rest : List Nat) :
    ∀ (k : Nat) (cur : List Nat) (fuel i n : Nat) (p : σ), cur.length = k →
      (∀ b ∈ cur, b < 256) → buf.drop i = cur ++ rest → len = i + cur.length →
      cur.length < fuel →
      m_fmt_b64_loop out buf len fuel i n p =
        .ok (n + (base64_encode cur).length, emit out p (base64_encode cur)) := by
  intro k
  induction k using Nat.strong_induction_on with
  | _ k ih =>
    intro cur fuel i n p hk hb hd hlen hf
    obtain ⟨fuel, rfl⟩ : ∃ f, fuel = f + 1 := ⟨fuel - 1, by omega⟩
    match cur, hk, hb, hd, hlen, hf with
    | [], _, _, _, hlen, _ =>
      have : ¬ i < len := by simp at hlen; omega
      simp [m_fmt_b64_loop, this, base64_encode, emit, pure, Except.pure]
    | [a], _, hb, hd, hlen, hf =>
      have ha : a < 256 := hb a (by simp)
      have h0 : i < len := by simp at hlen; omega
      have h1 : ¬ i + 1 < len := by simp at hlen; omega
      have h2 : ¬ i + 2 < len := by simp at hlen; omega
      have h3 : ¬ i + 3 < len := by simp at hlen; omega
      have hrd : rd buf i = .ok a := rd_of_drop (by simpa using hd)
      rw [m_fmt_b64_loop]
      simp only [h0, h1, h2, if_true, if_false, hrd, bind, Except.bind, pure, Except.pure,
        b64_idx0, b64_idx1 a 0 (by norm_num), rd_b64_t (a / 4) (by omega),
        rd_b64_t (a % 4 * 16 + 0 / 16) (by omega),
        scpy_four out p _ _ 61 61 (b64char_ne_zero _) (b64char_ne_zero _) (by norm_num)
          (by norm_num)]
      cases fuel with
      | zero => simp at hf
      | succ fuel =>
        simp [m_fmt_b64_loop, h3, base64_encode, pure, Except.pure]
    | [a, b], _, hb, hd, hlen, hf =>
      have ha : a < 256 := hb a (by simp)
      have hb1 : b < 256 := hb b (by simp)
      have h0 : i < len := by simp at hlen; omega
      have h1 : i + 1 < len := by simp at hlen; omega
      have h2 : ¬ i + 2 < len := by simp at hlen; omega
      have h3 : ¬ i + 3 < len := by simp at hlen; omega
      have hd0 : buf.drop i = a :: b :: rest := by simpa using hd
      have hrd : rd buf i = .ok a := rd_of_drop hd0
      have hrd1 : rd buf (i + 1) = .ok b := rd_of_drop (drop_succ_of_drop hd0)
      rw [m_fmt_b64_loop]
      simp only [h0, h1, h2, if_true, if_false, hrd, hrd1, bind, Except.bind, pure, Except.pure,
        b64_idx0, b64_idx1 a b hb1, b64_idx2 b 0 (by norm_num), rd_b64_t (a / 4) (by omega),
        rd_b64_t (a % 4 * 16 + b / 16) (by omega), rd_b64_t (b % 16 * 4 + 0 / 64) (by omega),
        scpy_four out p _ _ _ 61 (b64char_ne_zero _) (b64char_ne_zero _) (b64char_ne_zero _)
          (by norm_num)]
      cases fuel with
      | zero => simp at hf
      | succ fuel =>
        simp [m_fmt_b64_loop, h3, base64_encode, pure, Except.pure]
    | a :: b :: c :: cur, hk, hb, hd, hlen, hf =>
      have ha : a < 256 := hb a (by simp)
      have hb1 : b < 256 := hb b (by simp)
      have hc : c < 256 := hb c (by simp)
      have h0 : i < len := by simp at hlen; omega
      have h1 : i + 1 < len := by simp at hlen; omega
      have h2 : i + 2 < len := by simp at hlen; omega
      have hd0 : buf.drop i = a :: b :: c :: (cur ++ rest) := by simpa using hd
      have hd1 := drop_succ_of_drop hd0
      have hd2 := drop_succ_of_drop hd1
      have hd3 := drop_succ_of_drop hd2
      have hrd : rd buf i = .ok a := rd_of_drop hd0
      have hrd1 : rd buf (i + 1) = .ok b := rd_of_drop hd1
      have hrd2 : rd buf (i + 1 + 1) = .ok c := rd_of_drop hd2
      have hnext := fun n p => ih cur.length (by simp at hk; omega) cur fuel (i + 3) n p rfl
        (fun x hx => hb x (by simp [hx])) hd3 (by simp at hlen; omega) (by simp at hf; omega)
      rw [m_fmt_b64_loop]
      simp only [h0, h1, h2, if_true, hrd, hrd1, hrd2, bind, Except.bind, pure, Except.pure,
        b64_idx0, b64_idx1 a b hb1, b64_idx2 b c hc, b64_idx3, rd_b64_t (a / 4) (by omega),
        rd_b64_t (a % 4 * 16 + b / 16) (by omega), rd_b64_t (b % 16 * 4 + c / 64) (by omega),
        rd_b64_t (c % 64) (by omega),
        scpy_four out p _ _ _ _ (b64char_ne_zero _) (b64char_ne_zero _) (b64char_ne_zero _)
          (b64char_ne_zero _), hnext, base64_encode, List.length_cons, emit_cons]
      congr 2
      omega

theorem base64_encode_length :
    ∀ (k : Nat) (bs : List Nat), bs.length = k →
      (base64_encode bs).length = 4 * ((bs.length + 2) / 3) := by
  intro k
  induction k using Nat.strong_induction_on with
  | _ k ih =>
    intro bs hk
    match bs, hk with
    | [], _ => rfl
    | [a], _ => simp [base64_encode]
    | [a, b], _ => simp [base64_encode]
    | a :: b :: c :: bs, hk =>
      have := ih bs.length (by simp at hk; omega) bs rfl
      simp only [base64_encode, List.length_cons, this]
      omega

theorem base64_decode_encode :
    ∀ (k : Nat) (bs : List Nat), bs.length = k → (∀ b ∈ bs, b < 256) →
      base64_decode (base64_encode bs) = bs := by
  intro k
  induction k using Nat.strong_induction_on with
  | _ k ih =>
    intro bs hk hb
    match bs, hk, hb with
    | [], _, _ => rfl
    | [a], _, hb =>
      have ha : a < 256 := hb a (by simp)
      simp only [base64_encode, base64_decode, if_true, b64val_b64char (a / 4) (by omega),
        b64val_b64char (a % 4 * 16) (by omega)]
      congr 1
      omega
    | [a, b], _, hb =>
      have ha : a < 256 := hb a (by simp)
      have hb1 : b < 256 := hb b (by simp)
      simp only [base64_encode, base64_decode, if_true,
        if_neg (b64char_ne_pad (b % 16 * 4) (by omega)), b64val_b64char (a / 4) (by omega),
        b64val_b64char (a % 4 * 16 + b / 16) (by omega),
        b64val_b64char (b % 16 * 4) (by omega)]
      congr 1
      · omega
      · congr 1
        omega
    | a :: b :: c :: bs, hk, hb =>
      have ha : a < 256 := hb a (by simp)
      have hb1 : b < 256 := hb b (by simp)
      have hc : c < 256 := hb c (by simp)
      have := ih bs.length (by simp at hk; omega) bs rfl (fun x hx => hb x (by simp [hx]))
      simp only [base64_encode, base64_decode,
        if_neg (b64char_ne_pad (b % 16 * 4 + c / 64) (by omega)),
        if_neg (b64char_ne_pad (c % 64) (by omega)), b64val_b64char (a / 4) (by omega),
        b64val_b64char (a % 4 * 16 + b / 16) (by omega),
        b64val_b64char (b % 16 * 4 + c / 64) (by omega),
        b64val_b64char (c % 64) (by omega), this]
      congr 1
      · omega
      · congr 1
        · omega
        · congr 1
          omega

/-- C16: for every sequence `bs` of bytes (values below 256, their number in the range of
`unsigned`) behind the pointer, `m_fmt_b64` given the length and the pointer emits the base64
encoding of RFC 4648 of `bs`, with `=` padding; it emits and returns `4 * ceil(len / 3)`
bytes and leaves the arguments behind the pointer; and the base64 decoding of the output is
`bs`. -/
theorem C16_base64 (σ : Type) (out : Nat → σ → σ) (p : σ) (bs rest : List Nat) (ap : List Arg)
    (hb : ∀ b ∈ bs, b < 256) (hlen : bs.length < 2 ^ 32) :
    m_fmt_b64 out p (.int (bs.length : Int) :: .ptr (some (bs ++ rest)) :: ap) =
        .ok (4 * ((bs.length + 2) / 3), emit out p (base64_encode bs), ap) ∧
      (base64_encode bs).length = 4 * ((bs.length + 2) / 3) ∧
      base64_decode (base64_encode bs) = bs := by
  have hu : uint 32 (bs.length : Int) = bs.length := by
    simp only [uint]
    norm_num at hlen ⊢
    omega
  have hl := base64_encode_length bs.length bs rfl
  refine ⟨?_, hl, base64_decode_encode bs.length bs rfl hb⟩
  have h := m_fmt_b64_loop_spec out (bs ++ rest) bs.length rest bs.length bs (bs.length + 1) 0 0 p
    rfl hb (by simp) (by simp) (by omega)
  simp only [m_fmt_b64, va_unsigned, va_ptr, bind, Except.bind, hu, deref, Option.getD_some, h,
    pure, Except.pure, Nat.zero_add, hl]

/-- C16 at the three bytes `xyz` of the test, whose encoding is `eHl6`. -/
theorem C16_witness :
    m_fmt_b64 traceOut [] (.int (([120, 121, 122] : List Nat).length : Int) ::
          .ptr (some ([120, 121, 122] ++ [])) :: [.int 123]) =
        .ok (4 * (([120, 121, 122].length + 2) / 3),
          emit traceOut [] (base64_encode [120, 121, 122]), [.int 123]) ∧
      (base64_encode [120, 121, 122]).length = 4 * (([120, 121, 122].length + 2) / 3) ∧
      base64_decode (base64_encode [120, 121, 122]) = [120, 121, 122] :=
  C16_base64 (List Nat) traceOut [] [120, 121, 122] [] [.int 123] (by decide) (by norm_num)

/-! ## `addexp` and the scratch buffer of `m_dtoa` -/

/-- C18, at the failing input: for the exponent 105 `addexp` writes `e+15` and returns 4, and
for 400 it writes `e+40`, where the claim has the three digits; so `"%g"` of `1e105` (pattern
`0x55BBE7ABD3781ECA`) emits `1e+15`. -/
theorem C18_failing_input :
    addexp (List.replicate 8 0) 0 105 43 = .ok (4, [101, 43, 49, 53, 0, 0, 0, 0]) ∧
      addexp (List.replicate 8 0) 0 400 43 = .ok (4, [101, 43, 52, 48, 0, 0, 0, 0]) ∧
      m_vxprintf 7 (List Nat) traceOut [] [37, 103, 0] [.dbl 0x55BBE7ABD3781ECA] =
        .ok (5, [49, 101, 43, 49, 53], []) := by
  refine ⟨?_, ?_, ?_⟩ <;> decide!

set_option maxRecDepth 20000 in
set_option exponentiation.threshold 4096 in
theorem m_dtoa_one_zero (depth : Nat) (dst : List Nat) (dstlen : Nat) :
    m_dtoa (depth + 1) dst dstlen d1 0 =
      (m_dtoa depth (List.replicate 40 0) 40 d1 0).bind (fun r =>
        (addexp r.2 (0 + r.1) 0 43).bind (fun q =>
          m_snprintf depth dst dstlen [37, 46, 42, 115, 0]
            [.int (r.1 + q.1 : Nat), .ptr (some q.2)])) := by
  have hexp : m_dtoa_exp d1 0 = .ok (0x3FF8000000000000, d1, 0) := by decide!
  have hdiv : dDiv d1 d1 = d1 := by decide!
  rw [m_dtoa]
  rw [if_neg (by decide), if_neg (by decide), if_neg (by decide)]
  simp only [show dLt d1 d0 = false by decide, Bool.false_eq_true, if_false, bind, Except.bind,
    pure, Except.pure, hexp, hdiv, ge_iff_le, le_refl, if_true]

theorem vx_loop_directive_error {σ : Type}
    (dtoa : List Nat → Nat → Nat → Int → Res (Nat × List Nat))
    (fcall : FmtFn → σ → List Arg → Res (Nat × σ × List Arg)) (out : Nat → σ → σ)
    (fmt : List Nat) (fuel i n : Nat) (p : σ) (ap : List Arg) {T : List Nat}
    (h : fmt.drop i = 37 :: T) {e : Fault}
    (hd : vx_directive dtoa fcall out fmt i n p ap = .error e) :
    vx_loop dtoa fcall out fmt (fuel + 1) i n p ap = .error e := by
  simp [vx_loop, rd_of_drop h, hd, bind, Except.bind]

/-- C19, at the failing input: with the budget 0 the call of `m_dtoa` on 1.0 takes the
scientific branch and calls itself on the same value with the same budget, so that no bound
on the nesting of calls is enough: `m_dtoa`, and `m_vxprintf` on `"%.0g"` with 1.0, end in
the fault `stack` for every bound. -/
theorem C19_failing_input :
    (∀ (depth : Nat) (dst : List Nat) (dstlen : Nat),
        m_dtoa depth dst dstlen d1 0 = .error .stack) ∧
      ∀ depth : Nat,
        m_vxprintf depth (List Nat) traceOut [] [37, 46, 48, 103, 0] [.dbl d1] =
          .error .stack := by
  have hd : ∀ (depth : Nat) (dst : List Nat) (dstlen : Nat),
      m_dtoa depth dst dstlen d1 0 = .error .stack := by
    intro depth
    induction depth with
    | zero => intro dst dstlen; rw [m_dtoa]
    | succ d ih =>
      intro dst dstlen
      rw [m_dtoa_one_zero, ih]
      rfl
  refine ⟨hd, fun depth => ?_⟩
  cases depth with
  | zero => rw [m_vxprintf]
  | succ d =>
    have hp : parse_directive [37, 46, 48, 103, 0] 0 [.dbl d1] =
        .ok ({ x := 0, minus := 0, pad := 32, w := 0, pr := 0, is_long := 0, c := 103, i := 3 },
          [.dbl d1]) := by decide!
    have h1 : d1 % 2 ^ 64 = d1 := by decide!
    have hdir : ∀ fcall, vx_directive (fun dst dstlen x width => m_dtoa d dst dstlen x width)
        fcall traceOut [37, 46, 48, 103, 0] 0 0 [] [.dbl d1] = .error .stack := by
      intro fcall
      unfold vx_directive
      simp only [hp, bind, Except.bind]
      simp only [Nat.reduceEqDiff, or_true, or_false, if_true, if_false, va_double, pr_unset,
        show sint 32 ((0 : Nat) : Int) = 0 by decide, h1, hd]
    rw [m_vxprintf]
    exact vx_loop_directive_error _ _ traceOut _ 5 0 0 [] _ (T := [46, 48, 103, 0]) rfl (hdir _)

/-- C20, at the failing input: for `1e60 / 3` (pattern `0x4C4A8D313103EF05`, exponent 59) and
the budget 40 the inner call of `m_dtoa` fills the scratch buffer with 39 bytes and a NUL, so
that `addexp` is called on `buf + 39` and writes its second byte at the index 40, outside
of the 40 bytes: the run ends in the fault `oob`, also through `"%.40g"`. -/
theorem C20_failing_input :
    (m_dtoa_exp 0x4C4A8D313103EF05 40).map (fun x => x.2.2) = .ok 59 ∧
      ((m_dtoa_exp 0x4C4A8D313103EF05 40).bind (fun x =>
          m_dtoa 4 (List.replicate 40 0) 40 (dDiv 0x4C4A8D313103EF05 x.2.1) 40)).map
        (fun r => (r.1, r.2.length)) = .ok (39, 40) ∧
      (∀ buf : List Nat, buf.length = 40 → addexp buf 39 59 43 = .error .oob) ∧
      m_dtoa 5 (List.replicate 40 0) 40 0x4C4A8D313103EF05 40 = .error .oob ∧
      m_vsnprintf 7 (List.replicate 64 0) 64 [37, 46, 52, 48, 103, 0]
        [.dbl 0x4C4A8D313103EF05] = .error .oob := by
  refine ⟨by decide!, by decide!, ?_, by decide!, by decide!⟩
  intro buf hbuf
  have h1 : ∃ b1, wr buf 39 101 = .ok b1 ∧ b1.length = 40 := by
    refine ⟨buf.set 39 101, ?_, by simp [hbuf]⟩
    simp [wr, hbuf]
  obtain ⟨b1, hw1, hl1⟩ := h1
  have h2 : wr b1 (39 + 1) 43 = .error .oob := by
    simp [wr, hl1]
  simp only [addexp, hw1, h2, bind, Except.bind]

/-! ## A format text that ends inside a directive -/

/-- C21, at the failing input: on the format text `"%"` the directive takes the terminating
NUL at the index 1 for its conversion character, passes `'%'` and the NUL to the sink and
leaves the scan index at 2, behind the NUL; the next test of the loop reads the index 2,
outside of the two bytes of the text (the fault `oob`), and so it is for `"%5"`, `"%."` and
`"%l"`; when the object holds further bytes behind the terminator, they are read and emitted
(`'A'` here). -/
theorem C21_failing_input :
    (∀ (dtoa : List Nat → Nat → Nat → Int → Res (Nat × List Nat))
        (fcall : FmtFn → List Nat → List Arg → Res (Nat × List Nat × List Arg)),
        vx_directive dtoa fcall traceOut [37, 0] 0 0 [] [] = .ok (2, 2, [37, 0], [])) ∧
      m_vxprintf 1 (List Nat) traceOut [] [37, 0] [] = .error .oob ∧
      m_vxprintf 1 (List Nat) traceOut [] [37, 53, 0] [] = .error .oob ∧
      m_vxprintf 1 (List Nat) traceOut [] [37, 46, 0] [] = .error .oob ∧
      m_vxprintf 1 (List Nat) traceOut [] [37, 108, 0] [] = .error .oob ∧
      m_vxprintf 1 (List Nat) traceOut [] [37, 0, 65, 0] [] = .ok (3, [37, 0, 65], []) := by
  refine ⟨fun dtoa fcall => ?_, by decide!, by decide!, by decide!, by decide!, by decide!⟩
  have hl : dirText false false false 0 .unset .none = [] := by
    simp [dirText, decText_zero, Prec.text, LenMod.text]
  have h := vx_directive_other dtoa fcall traceOut [37, 0] 0 0 [] false false false 0 .unset
    .none 0 [] [] (by rw [hl]; rfl) (by norm_num) (by decide) (by decide)
  simp only [hl, Prec.args, List.nil_append, List.length_nil] at h
  rw [h]
  rfl

end MicroPrintf
